import Mathlib

/-! # Key reservation service: entities, repositories and use cases

A shallow embedding of the reservation lifecycle of the key manager: the entities
(`internal/entity/reservation.go`, `internal/entity/user.go`, `entity/key.go`,
`entity/errors.go`), the MongoDB repositories (`internal/infrastructure/repository`,
`infrastructure/repository/user_repository.go`) and the use cases
(`internal/usecase/reservation_usecase.go`, `internal/usecase/user_usecase.go`,
`usecase/key_usecase.go`).

Modelling conventions

* `primitive.ObjectID` is a natural number, `NilObjectID` is `0`.
* `time.Time` is an integer count of nanoseconds; the zero `time.Time` is `0`.
  Every use-case call receives the clock reading `now` as an argument and all
  `time.Now()` reads inside one call return that value.
* Go string types (`ReservationStatus`, `UserRole`) stay strings.
* A Go `error` is a value of `entity.Error`; `nil` is `none`. A pointer result of a
  repository is an `Option`, so the `== nil` tests of the use cases keep their branches.
* The document store is a `World`: three collections (lists of documents in
  insertion order), a script of infrastructure faults consumed one entry per
  repository call, and the log of the repository calls made so far. A call that
  fails leaves the collections as they were.
* A method with a pointer receiver that changes its receiver returns the changed
  receiver next to its Go result.
-/

namespace entity

abbrev ObjectID := Nat

abbrev NilObjectID : ObjectID := 0

abbrev Time := Int

/-- The constant `time.Second`, in nanoseconds. -/
abbrev Second : Int := 1000000000

/-- One entry of `validator.ValidationErrors`: the struct field and the failed tag. -/
structure FieldError where
  Field : String
  Tag : String
  deriving DecidableEq

/-- Go error values: the sentinels of `entity/errors.go`, `errors.New`, the
validator's `ValidationErrors`, `fmt.Errorf` with `%w`, and failures of the store. -/
inductive Error where
  | ErrKeyNotFound
  | ErrKeyAlreadyExists
  | ErrKeyInactive
  | ErrKeyReserved
  | ErrKeyAlreadyReserved
  | ErrUserNotFound
  | ErrUserAlreadyExists
  | ErrUserBlocked
  | ErrInvalidCredentials
  | ErrUnauthorized
  | ErrReservationNotFound
  | ErrReservationOverdue
  | ErrReservationAlreadyExists
  | ErrInvalidReservationTime
  | ErrCannotExtendReservation
  | New (text : String)
  | ValidationErrors (errs : List FieldError)
  | Errorf (format : String) (ids : List ObjectID) (inner : Error)
  | Store (code : Nat)
  deriving DecidableEq

/-- The result of `validate.Struct`: `nil` when no field failed. -/
def validateResult (errs : List FieldError) : Option Error :=
  if errs.isEmpty then none else some (Error.ValidationErrors errs)

/-! ## Reservation (`internal/entity/reservation.go`) -/

abbrev ReservationStatus := String

abbrev ReservationStatusActive : ReservationStatus := "active"

abbrev ReservationStatusReturned : ReservationStatus := "returned"

abbrev ReservationStatusOverdue : ReservationStatus := "overdue"

structure Reservation where
  ID : ObjectID
  KeyID : ObjectID
  UserID : ObjectID
  ReservedAt : Time
  DueAt : Time
  ReturnedAt : Option Time
  Status : ReservationStatus
  CreatedAt : Time
  UpdatedAt : Time
  deriving DecidableEq

/-- The constructor `NewReservation`; `newID` is the value of `primitive.NewObjectID()`. -/
def NewReservation (now : Time) (newID : ObjectID) (keyID userID : ObjectID) (dueAt : Time) :
    Reservation :=
  { ID := newID, KeyID := keyID, UserID := userID, ReservedAt := now, DueAt := dueAt,
    ReturnedAt := none, Status := ReservationStatusActive, CreatedAt := now, UpdatedAt := now }

/-- The field errors of `validate.Struct(r)`: `KeyID`, `UserID` and `DueAt` are `required`. -/
def Reservation.structErrors (r : Reservation) : List FieldError :=
  (if r.KeyID = NilObjectID then [⟨"KeyID", "required"⟩] else []) ++
  (if r.UserID = NilObjectID then [⟨"UserID", "required"⟩] else []) ++
  (if r.DueAt = 0 then [⟨"DueAt", "required"⟩] else [])

def Reservation.ValidateForCreation (r : Reservation) (now : Time) : Option Error :=
  if r.DueAt < now then
    some (Error.New "due_at must be in the future")
  else
    validateResult r.structErrors

def Reservation.ValidateReturnTime (r : Reservation) : Option Error :=
  match r.ReturnedAt with
  | some returnedAt =>
    if returnedAt < r.ReservedAt then
      some (Error.New "returned_at cannot be before reserved_at")
    else none
  | none => none

def Reservation.IsOverdue (r : Reservation) (now : Time) : Bool :=
  r.Status == ReservationStatusActive && decide (r.DueAt < now)

def Reservation.CanBeExtended (r : Reservation) : Bool :=
  r.Status == ReservationStatusActive

/-- The method `MarkAsReturned`: the receiver after the call and the returned error. -/
def Reservation.MarkAsReturned (r : Reservation) (now : Time) : Reservation × Option Error :=
  if r.Status != ReservationStatusActive then
    (r, some (Error.New "reservation is not active"))
  else
    ({ r with ReturnedAt := some now, Status := ReservationStatusReturned, UpdatedAt := now }, none)

/-- The method `MarkAsOverdue`: the receiver after the call and the returned error. -/
def Reservation.MarkAsOverdue (r : Reservation) (now : Time) : Reservation × Option Error :=
  if r.Status != ReservationStatusActive then
    (r, some (Error.New "reservation is not active"))
  else
    ({ r with Status := ReservationStatusOverdue, UpdatedAt := now }, none)

/-! ## User (`internal/entity/user.go`) -/

abbrev UserRole := String

abbrev UserRoleResident : UserRole := "resident"

abbrev UserRoleAdmin : UserRole := "admin"

structure User where
  ID : ObjectID
  Name : String
  Email : String
  Password : String
  Role : UserRole
  IsBlocked : Bool
  CreatedAt : Time
  UpdatedAt : Time
  deriving DecidableEq

def User.CanMakeReservation (u : User) : Bool := !u.IsBlocked

def User.IsAdmin (u : User) : Bool := u.Role == UserRoleAdmin

/-- The result of a Go call that may panic instead of returning. -/
inductive Outcome (α : Type) where
  | ret (a : α)
  | panic (text : String)
  deriving DecidableEq

/-- The constant `time.Hour`, in nanoseconds. -/
abbrev Hour : Int := 3600 * Second

/-- The two library calls behind the credentials: `bcrypt.CompareHashAndPassword`
(stored hash, password; `nil` when they match) and the signing of a JWT with the claims
user id, role and expiry under a secret (`jwt.NewWithClaims` with HS256, then
`SignedString`). They belong to external packages and stay parameters. -/
structure Crypto where
  CompareHashAndPassword : String → String → Option Error
  SignedString : ObjectID → UserRole → Time → String → String × Option Error

/-- The method `CheckPassword` of `internal/entity/user.go`. -/
def User.CheckPassword (c : Crypto) (u : User) (password : String) : Bool :=
  (c.CompareHashAndPassword u.Password password).isNone

/-- The method `ValidatePassword` of `entity/user.go`. -/
def User.ValidatePassword (c : Crypto) (u : User) (password : String) : Option Error :=
  match c.CompareHashAndPassword u.Password password with
  | some _ => some Error.ErrInvalidCredentials
  | none => none

/-! ## Key (`entity/key.go`) -/

structure Key where
  ID : ObjectID
  Name : String
  Description : String
  IsActive : Bool
  CreatedAt : Time
  UpdatedAt : Time
  deriving DecidableEq

/-- The constructor `NewKey`; `newID` is the value of `primitive.NewObjectID()`. -/
def NewKey (now : Time) (newID : ObjectID) (name description : String) : Key :=
  { ID := newID, Name := name, Description := description, IsActive := true,
    CreatedAt := now, UpdatedAt := now }

/-- The field errors for the tags `required,min=2,max=100` on `Name` and `max=500` on
`Description`; lengths are counted in runes and a field reports its first failing tag. -/
def Key.structErrors (k : Key) : List FieldError :=
  (if k.Name = "" then [⟨"Name", "required"⟩]
   else if k.Name.length < 2 then [⟨"Name", "min"⟩]
   else if 100 < k.Name.length then [⟨"Name", "max"⟩]
   else []) ++
  (if 500 < k.Description.length then [⟨"Description", "max"⟩] else [])

def Key.ValidateForCreation (k : Key) : Option Error :=
  validateResult k.structErrors

/-- The method `ValidateForUpdate`: `StructPartial` on `Name`, `Description`, `IsActive`,
which are all the fields of `Key` that carry a `validate` tag. -/
def Key.ValidateForUpdate (k : Key) : Option Error :=
  validateResult k.structErrors

def Key.CanBeReserved (k : Key) : Bool := k.IsActive

end entity

/-! ## The document store and the repositories
(`internal/infrastructure/repository`, `infrastructure/repository/user_repository.go`) -/

namespace repository

open entity

/-- A repository call, as a test double would record it. -/
inductive Call where
  | ReservationCreate (reservation : Reservation)
  | ReservationGetByID (id : ObjectID)
  | ReservationGetByUserID (userID : ObjectID)
  | ReservationGetByKeyID (keyID : ObjectID)
  | ReservationGetAll
  | ReservationUpdate (reservation : Reservation)
  | ReservationGetOverdueReservations
  | ReservationGetActiveReservationByKey (keyID : ObjectID)
  | KeyCreate (key : Key)
  | KeyGetByID (id : ObjectID)
  | KeyGetByName (name : String)
  | KeyGetAll
  | KeyUpdate (key : Key)
  | KeyDelete (id : ObjectID)
  | KeyGetAvailableKeys
  | UserCreate (user : User)
  | UserGetByID (id : ObjectID)
  | UserGetByEmail (email : String)
  | UserUpdate (user : User)
  | UserBlockUser (id : ObjectID)
  | UserUnblockUser (id : ObjectID)
  deriving DecidableEq

/-- The calls that write to the store. -/
def Call.isWrite : Call → Bool
  | .ReservationCreate _ => true
  | .ReservationUpdate _ => true
  | .KeyCreate _ => true
  | .KeyUpdate _ => true
  | .KeyDelete _ => true
  | .UserCreate _ => true
  | .UserUpdate _ => true
  | .UserBlockUser _ => true
  | .UserUnblockUser _ => true
  | _ => false

/-- The state of the outside world seen by the use cases. `faults` scripts the
infrastructure: the n-th repository call fails with `Error.Store c` when the n-th entry
is `some c`, and runs against the collections when it is `none` or the script is over. -/
structure World where
  keys : List Key
  users : List User
  reservations : List Reservation
  faults : List (Option Nat)
  log : List Call
  deriving DecidableEq

/-- The infrastructure failure awaiting the next repository call, if any. -/
def World.fault (w : World) : Option Error :=
  match w.faults with
  | [] => none
  | f :: _ => f.map Error.Store

/-- Entering a repository call: the call is logged and one fault entry is consumed. -/
def World.enter (w : World) (c : Call) : World :=
  { w with faults := w.faults.tail, log := w.log ++ [c] }

/-- The identifier the driver generates for a document inserted without `_id`. -/
def freshID (ids : List ObjectID) : ObjectID := ids.foldl max 0 + 1

/-- The error code of a duplicate `_id` on insertion. -/
abbrev duplicateKey : Nat := 11000

/-- The collection method `InsertOne`: a zero `_id` is omitted (`omitempty`) and generated,
a present `_id` must be new. -/
def insertOne {α : Type} (getID : α → ObjectID) (setID : α → ObjectID → α) (doc : α)
    (docs : List α) : Option Error × List α :=
  if getID doc = NilObjectID then
    (none, docs ++ [setID doc (freshID (docs.map getID))])
  else if docs.any (fun d => getID d == getID doc) then
    (some (Error.Store duplicateKey), docs)
  else
    (none, docs ++ [doc])

/-- The collection method `ReplaceOne` with the filter `_id = id`: the first matching
document is replaced, and nothing happens when none matches. -/
def replaceOne {α : Type} (getID : α → ObjectID) (id : ObjectID) (doc : α) :
    List α → List α
  | [] => []
  | d :: ds => if getID d = id then doc :: ds else d :: replaceOne getID id doc ds

/-- The collection method `UpdateByID` with a `$set`: `f` is applied to the first
document whose `_id` is `id`. -/
def updateByID {α : Type} (getID : α → ObjectID) (id : ObjectID) (f : α → α) :
    List α → List α
  | [] => []
  | d :: ds => if getID d = id then f d :: ds else d :: updateByID getID id f ds

/-- The collection method `DeleteOne` with the filter `_id = id`. -/
def deleteOne {α : Type} (getID : α → ObjectID) (id : ObjectID) : List α → List α
  | [] => []
  | d :: ds => if getID d = id then ds else d :: deleteOne getID id ds

/-! ### ReservationRepositoryImpl -/

def ReservationRepositoryImpl.Create (reservation : Reservation) (w : World) :
    Option Error × World :=
  match w.fault with
  | some err => (some err, w.enter (.ReservationCreate reservation))
  | none =>
    match insertOne Reservation.ID (fun r i => { r with ID := i }) reservation
        w.reservations with
    | (err, docs) =>
      (err, { w.enter (.ReservationCreate reservation) with reservations := docs })

def ReservationRepositoryImpl.GetByID (id : ObjectID) (w : World) :
    (Option Reservation × Option Error) × World :=
  match w.fault with
  | some err => ((none, some err), w.enter (.ReservationGetByID id))
  | none =>
    match w.reservations.find? (fun r => r.ID == id) with
    | none => ((none, some Error.ErrReservationNotFound), w.enter (.ReservationGetByID id))
    | some reservation => ((some reservation, none), w.enter (.ReservationGetByID id))

def ReservationRepositoryImpl.GetByUserID (userID : ObjectID) (w : World) :
    (List Reservation × Option Error) × World :=
  match w.fault with
  | some err => (([], some err), w.enter (.ReservationGetByUserID userID))
  | none => ((w.reservations.filter (fun r => r.UserID == userID), none),
    w.enter (.ReservationGetByUserID userID))

def ReservationRepositoryImpl.GetByKeyID (keyID : ObjectID) (w : World) :
    (Option Reservation × Option Error) × World :=
  match w.fault with
  | some err => ((none, some err), w.enter (.ReservationGetByKeyID keyID))
  | none =>
    match w.reservations.find?
        (fun r => r.KeyID == keyID && r.Status == ReservationStatusActive) with
    | none => ((none, some Error.ErrReservationNotFound), w.enter (.ReservationGetByKeyID keyID))
    | some reservation => ((some reservation, none), w.enter (.ReservationGetByKeyID keyID))

def ReservationRepositoryImpl.GetAll (w : World) : (List Reservation × Option Error) × World :=
  match w.fault with
  | some err => (([], some err), w.enter .ReservationGetAll)
  | none => ((w.reservations, none), w.enter .ReservationGetAll)

def ReservationRepositoryImpl.Update (reservation : Reservation) (w : World) :
    Option Error × World :=
  match w.fault with
  | some err => (some err, w.enter (.ReservationUpdate reservation))
  | none =>
    (none, { w.enter (.ReservationUpdate reservation) with
      reservations := replaceOne Reservation.ID reservation.ID reservation w.reservations })

def ReservationRepositoryImpl.GetOverdueReservations (now : Time) (w : World) :
    (List Reservation × Option Error) × World :=
  match w.fault with
  | some err => (([], some err), w.enter .ReservationGetOverdueReservations)
  | none =>
    ((w.reservations.filter
        (fun r => r.Status == ReservationStatusActive && decide (r.DueAt < now)), none),
          w.enter .ReservationGetOverdueReservations)

def ReservationRepositoryImpl.GetActiveReservationByKey (keyID : ObjectID) (w : World) :
    (Option Reservation × Option Error) × World :=
  match w.fault with
  | some err => ((none, some err), w.enter (.ReservationGetActiveReservationByKey keyID))
  | none =>
    match w.reservations.find?
        (fun r => r.KeyID == keyID && r.Status == ReservationStatusActive) with
    | none => ((none, some Error.ErrReservationNotFound),
      w.enter (.ReservationGetActiveReservationByKey keyID))
    | some reservation => ((some reservation, none),
      w.enter (.ReservationGetActiveReservationByKey keyID))

/-! ### KeyRepositoryImpl -/

def KeyRepositoryImpl.Create (key : Key) (w : World) : Option Error × World :=
  match w.fault with
  | some err => (some err, w.enter (.KeyCreate key))
  | none =>
    match insertOne Key.ID (fun k i => { k with ID := i }) key w.keys with
    | (err, docs) => (err, { w.enter (.KeyCreate key) with keys := docs })

def KeyRepositoryImpl.GetByID (id : ObjectID) (w : World) :
    (Option Key × Option Error) × World :=
  match w.fault with
  | some err => ((none, some err), w.enter (.KeyGetByID id))
  | none =>
    match w.keys.find? (fun k => k.ID == id) with
    | none => ((none, some Error.ErrKeyNotFound), w.enter (.KeyGetByID id))
    | some key => ((some key, none), w.enter (.KeyGetByID id))

def KeyRepositoryImpl.GetByName (name : String) (w : World) :
    (Option Key × Option Error) × World :=
  match w.fault with
  | some err => ((none, some err), w.enter (.KeyGetByName name))
  | none =>
    match w.keys.find? (fun k => k.Name == name) with
    | none => ((none, some Error.ErrKeyNotFound), w.enter (.KeyGetByName name))
    | some key => ((some key, none), w.enter (.KeyGetByName name))

def KeyRepositoryImpl.GetAll (w : World) : (List Key × Option Error) × World :=
  match w.fault with
  | some err => (([], some err), w.enter .KeyGetAll)
  | none => ((w.keys, none), w.enter .KeyGetAll)

def KeyRepositoryImpl.Update (key : Key) (w : World) : Option Error × World :=
  match w.fault with
  | some err => (some err, w.enter (.KeyUpdate key))
  | none => (none, { w.enter (.KeyUpdate key) with keys := replaceOne Key.ID key.ID key w.keys })

def KeyRepositoryImpl.Delete (id : ObjectID) (w : World) : Option Error × World :=
  match w.fault with
  | some err => (some err, w.enter (.KeyDelete id))
  | none => (none, { w.enter (.KeyDelete id) with keys := deleteOne Key.ID id w.keys })

def KeyRepositoryImpl.GetAvailableKeys (w : World) : (List Key × Option Error) × World :=
  match w.fault with
  | some err => (([], some err), w.enter .KeyGetAvailableKeys)
  | none => ((w.keys.filter (fun k => k.IsActive), none), w.enter .KeyGetAvailableKeys)

/-! ### UserRepositoryImpl -/

def UserRepositoryImpl.Create (user : User) (w : World) : Option Error × World :=
  match w.fault with
  | some err => (some err, w.enter (.UserCreate user))
  | none =>
    match insertOne User.ID (fun u i => { u with ID := i }) user w.users with
    | (err, docs) => (err, { w.enter (.UserCreate user) with users := docs })

def UserRepositoryImpl.GetByID (id : ObjectID) (w : World) :
    (Option User × Option Error) × World :=
  match w.fault with
  | some err => ((none, some err), w.enter (.UserGetByID id))
  | none =>
    match w.users.find? (fun u => u.ID == id) with
    | none => ((none, some Error.ErrUserNotFound), w.enter (.UserGetByID id))
    | some user => ((some user, none), w.enter (.UserGetByID id))

def UserRepositoryImpl.GetByEmail (email : String) (w : World) :
    (Option User × Option Error) × World :=
  match w.fault with
  | some err => ((none, some err), w.enter (.UserGetByEmail email))
  | none =>
    match w.users.find? (fun u => u.Email == email) with
    | none => ((none, some Error.ErrUserNotFound), w.enter (.UserGetByEmail email))
    | some user => ((some user, none), w.enter (.UserGetByEmail email))

def UserRepositoryImpl.Update (user : User) (w : World) : Option Error × World :=
  match w.fault with
  | some err => (some err, w.enter (.UserUpdate user))
  | none =>
    (none, { w.enter (.UserUpdate user) with
      users := replaceOne User.ID user.ID user w.users })

def UserRepositoryImpl.BlockUser (id : ObjectID) (w : World) : Option Error × World :=
  match w.fault with
  | some err => (some err, w.enter (.UserBlockUser id))
  | none =>
    (none, { w.enter (.UserBlockUser id) with
      users := updateByID User.ID id (fun u => { u with IsBlocked := true }) w.users })

def UserRepositoryImpl.UnblockUser (id : ObjectID) (w : World) : Option Error × World :=
  match w.fault with
  | some err => (some err, w.enter (.UserUnblockUser id))
  | none =>
    (none, { w.enter (.UserUnblockUser id) with
      users := updateByID User.ID id (fun u => { u with IsBlocked := false }) w.users })

end repository

/-! ## Use cases (`internal/usecase`, `usecase/key_usecase.go`)

A use-case method returns its Go `error` result together with the world after the call.
The structs behind the pointers that a method loads from a repository are private copies:
changing them changes the store only through a later `Update`. -/

namespace usecase

open entity repository

/-! ### ReservationUseCase -/

def ReservationUseCase.CreateReservation (now : Time) (reservation : Reservation) (w : World) :
    Option Error × World :=
  match reservation.ValidateForCreation now with
  | some err => (some err, w)
  | none =>
  match UserRepositoryImpl.GetByID reservation.UserID w with
  | ((_, some err), w1) => (some err, w1)
  | ((none, none), w1) => (some Error.ErrUserNotFound, w1)
  | ((some user, none), w1) =>
  if user.IsBlocked then (some Error.ErrUserBlocked, w1) else
  match KeyRepositoryImpl.GetByID reservation.KeyID w1 with
  | ((_, some err), w2) => (some err, w2)
  | ((none, none), w2) => (some Error.ErrKeyNotFound, w2)
  | ((some key, none), w2) =>
  if !key.CanBeReserved then (some Error.ErrKeyInactive, w2) else
  -- Check if key is already reserved
  match ReservationRepositoryImpl.GetActiveReservationByKey reservation.KeyID w2 with
  | ((activeKeyReservation, err), w3) =>
  if err.isSome && err != some Error.ErrReservationNotFound then (err, w3) else
  if activeKeyReservation.isSome then (some Error.ErrKeyReserved, w3) else
  -- Check if user already has an active reservation
  match ReservationRepositoryImpl.GetByUserID reservation.UserID w3 with
  | ((_, some err), w4) => (some err, w4)
  | ((userReservations, none), w4) =>
  if userReservations.any (fun res => res.Status == ReservationStatusActive) then
    (some Error.ErrReservationAlreadyExists, w4)
  else
    ReservationRepositoryImpl.Create reservation w4

def ReservationUseCase.ReturnKey (now : Time) (reservationID userID : ObjectID) (w : World) :
    Option Error × World :=
  match ReservationRepositoryImpl.GetByID reservationID w with
  | ((_, some err), w1) => (some err, w1)
  | ((none, none), w1) => (some Error.ErrReservationNotFound, w1)
  | ((some reservation, none), w1) =>
  -- Check if the reservation belongs to the user or if the user is an admin
  match UserRepositoryImpl.GetByID userID w1 with
  | ((_, some err), w2) => (some err, w2)
  | ((none, none), w2) => (some Error.ErrUserNotFound, w2)
  | ((some user, none), w2) =>
  if reservation.UserID != userID && !user.IsAdmin then (some Error.ErrUnauthorized, w2) else
  if reservation.Status != ReservationStatusActive then
    (some (Error.New "reservation is not active"), w2)
  else
  match reservation.MarkAsReturned now with
  | (_, some err) => (some err, w2)
  | (reservation, none) =>
  -- If overdue, block the user
  match (if reservation.IsOverdue now then UserRepositoryImpl.BlockUser reservation.UserID w2
         else (none, w2)) with
  | (some err, w3) =>
    (some (Error.Errorf "failed to block user %s: %w" [reservation.UserID] err), w3)
  | (none, w3) => ReservationRepositoryImpl.Update reservation w3

def ReservationUseCase.GetUserReservations (userID : ObjectID) (w : World) :
    (List Reservation × Option Error) × World :=
  match ReservationRepositoryImpl.GetByUserID userID w with
  | ((_, some err), w1) => (([], some err), w1)
  | ((reservations, none), w1) => ((reservations, none), w1)

def ReservationUseCase.GetAllReservations (userRole : UserRole) (w : World) :
    (List Reservation × Option Error) × World :=
  if userRole != UserRoleAdmin then (([], some Error.ErrUnauthorized), w) else
  match ReservationRepositoryImpl.GetAll w with
  | ((_, some err), w1) => (([], some err), w1)
  | ((reservations, none), w1) => ((reservations, none), w1)

def ReservationUseCase.ExtendReservation (now : Time) (reservationID : ObjectID)
    (newDueTime : Time) (adminRole : UserRole) (w : World) : Option Error × World :=
  if adminRole != UserRoleAdmin then (some Error.ErrUnauthorized, w) else
  match ReservationRepositoryImpl.GetByID reservationID w with
  | ((_, some err), w1) => (some err, w1)
  | ((none, none), w1) => (some Error.ErrReservationNotFound, w1)
  | ((some reservation, none), w1) =>
  if !reservation.CanBeExtended then (some Error.ErrCannotExtendReservation, w1) else
  if newDueTime < reservation.DueAt then
    (some (Error.New "new due time cannot be before current due time"), w1)
  else
    ReservationRepositoryImpl.Update { reservation with DueAt := newDueTime, UpdatedAt := now } w1

/-- The `for _, res := range overdueReservations` loop of `ProcessOverdueReservations`. -/
def ReservationUseCase.processOverdueLoop (now : Time) :
    List Reservation → World → Option Error × World
  | [], w => (none, w)
  | res :: rest, w =>
    if res.Status == ReservationStatusActive && decide (res.DueAt < now) then
      -- Mark as overdue
      match res.MarkAsOverdue now with
      | (_, some err) =>
        (some (Error.Errorf "failed to mark reservation %s as overdue: %w" [res.ID] err), w)
      | (res, none) =>
      match ReservationRepositoryImpl.Update res w with
      | (some err, w1) =>
        (some (Error.Errorf "failed to update reservation %s: %w" [res.ID] err), w1)
      | (none, w1) =>
      -- Block user if overdue
      match UserRepositoryImpl.BlockUser res.UserID w1 with
      | (some err, w2) => (some (Error.Errorf "failed to block user %s: %w" [res.UserID] err), w2)
      | (none, w2) => ReservationUseCase.processOverdueLoop now rest w2
    else
      ReservationUseCase.processOverdueLoop now rest w

def ReservationUseCase.ProcessOverdueReservations (now : Time) (w : World) :
    Option Error × World :=
  match ReservationRepositoryImpl.GetOverdueReservations now w with
  | ((_, some err), w1) =>
    (some (Error.Errorf "failed to get overdue reservations: %w" [] err), w1)
  | ((overdueReservations, none), w1) =>
    ReservationUseCase.processOverdueLoop now overdueReservations w1

/-! ### UserUseCase -/

/-- The `for _, res := range reservations` loop of `BlockUser`. -/
def UserUseCase.blockUserLoop (now : Time) : List Reservation → World → Option Error × World
  | [], w => (none, w)
  | res :: rest, w =>
    if res.Status == ReservationStatusActive then
      match res.MarkAsOverdue now with
      | (_, some err) =>
        (some (Error.Errorf "failed to mark reservation %s as overdue: %w" [res.ID] err), w)
      | (res, none) =>
      match ReservationRepositoryImpl.Update res w with
      | (some err, w1) =>
        (some (Error.Errorf "failed to update reservation %s: %w" [res.ID] err), w1)
      | (none, w1) => UserUseCase.blockUserLoop now rest w1
    else
      UserUseCase.blockUserLoop now rest w

def UserUseCase.BlockUser (now : Time) (userID : ObjectID) (adminRole : UserRole) (w : World) :
    Option Error × World :=
  if adminRole != UserRoleAdmin then (some Error.ErrUnauthorized, w) else
  match UserRepositoryImpl.GetByID userID w with
  | ((_, some err), w1) => (some err, w1)
  | ((none, none), w1) => (some Error.ErrUserNotFound, w1)
  | ((some user, none), w1) =>
  if user.IsBlocked then (some (Error.New "user is already blocked"), w1) else
  -- Block the user
  match UserRepositoryImpl.BlockUser userID w1 with
  | (some err, w2) => (some err, w2)
  | (none, w2) =>
  -- Cancel active reservations for the user
  match ReservationRepositoryImpl.GetByUserID userID w2 with
  | ((_, some err), w3) =>
    (some (Error.Errorf "failed to get user reservations: %w" [] err), w3)
  | ((reservations, none), w3) => UserUseCase.blockUserLoop now reservations w3

def UserUseCase.UnblockUser (userID : ObjectID) (adminRole : UserRole) (w : World) :
    Option Error × World :=
  if adminRole != UserRoleAdmin then (some Error.ErrUnauthorized, w) else
  match UserRepositoryImpl.GetByID userID w with
  | ((_, some err), w1) => (some err, w1)
  | ((none, none), w1) => (some Error.ErrUserNotFound, w1)
  | ((some user, none), w1) =>
  if !user.IsBlocked then (some (Error.New "user is not blocked"), w1) else
  UserRepositoryImpl.UnblockUser userID w1

/-- The struct `Config` of `infrastructure/config`. -/
structure Config where
  DatabaseURL : String
  DatabaseName : String
  ServerPort : String
  JWTSecret : String
  deriving DecidableEq

/-- The struct `UserUseCase` of `usecase/user_usecase.go`; its two repositories are the
world, `config` is a pointer. -/
structure UserUseCase where
  config : Option Config
  deriving DecidableEq

/-- The constructor `NewUserUseCase` of `usecase/user_usecase.go`: it sets the two
repositories and leaves `config` nil. -/
def NewUserUseCase : UserUseCase := { config := none }

/-- The method `LoginUser` of `usecase/user_usecase.go`. The result is the Go triple
(user, token, error), or a panic where the code dereferences a nil pointer. -/
def UserUseCase.LoginUser (c : Crypto) (uc : UserUseCase) (now : Time)
    (email password : String) (w : World) :
    Outcome (Option User × String × Option Error) × World :=
  match UserRepositoryImpl.GetByEmail email w with
  | ((_, some _), w1) => (.ret (none, "", some Error.ErrInvalidCredentials), w1)
  | ((none, none), w1) => (.panic "invalid memory address or nil pointer dereference", w1)
  | ((some user, none), w1) =>
  if user.IsBlocked then (.ret (none, "", some Error.ErrUserBlocked), w1) else
  match user.ValidatePassword c password with
  | some _ => (.ret (none, "", some Error.ErrInvalidCredentials), w1)
  | none =>
  -- Generate JWT token
  match uc.config with
  | none => (.panic "invalid memory address or nil pointer dereference", w1)
  | some config =>
  match c.SignedString user.ID user.Role (now + 24 * Hour) config.JWTSecret with
  | (_, some err) =>
    (.ret (none, "", some (Error.Errorf "failed to generate token: %w" [] err)), w1)
  | (tokenString, none) => (.ret (some user, tokenString, none), w1)

/-! ### KeyUseCase -/

def KeyUseCase.CreateKey (now : Time) (key : Key) (userRole : UserRole) (w : World) :
    Option Error × World :=
  if userRole != UserRoleAdmin then (some Error.ErrUnauthorized, w) else
  match key.ValidateForCreation with
  | some err => (some err, w)
  | none =>
  match KeyRepositoryImpl.GetByName key.Name w with
  | ((existingKey, err), w1) =>
  if err.isSome && err != some Error.ErrKeyNotFound then (err, w1) else
  if existingKey.isSome then (some Error.ErrKeyAlreadyExists, w1) else
  KeyRepositoryImpl.Create { key with CreatedAt := now, UpdatedAt := now } w1

def KeyUseCase.UpdateKey (now : Time) (key : Key) (userRole : UserRole) (w : World) :
    Option Error × World :=
  if userRole != UserRoleAdmin then (some Error.ErrUnauthorized, w) else
  match KeyRepositoryImpl.GetByID key.ID w with
  | ((_, some err), w1) => (some err, w1)
  | ((none, none), w1) => (some Error.ErrKeyNotFound, w1)
  | ((some existingKey, none), w1) =>
  -- Update only allowed fields
  match ({ existingKey with Name := key.Name, Description := key.Description,
                            IsActive := key.IsActive, UpdatedAt := now } : Key) with
  | existingKey =>
  match existingKey.ValidateForUpdate with
  | some err => (some err, w1)
  | none => KeyRepositoryImpl.Update existingKey w1

def KeyUseCase.DeleteKey (id : ObjectID) (userRole : UserRole) (w : World) :
    Option Error × World :=
  if userRole != UserRoleAdmin then (some Error.ErrUnauthorized, w) else
  match KeyRepositoryImpl.GetByID id w with
  | ((_, some err), w1) => (some err, w1)
  | ((none, none), w1) => (some Error.ErrKeyNotFound, w1)
  | ((some _, none), w1) =>
  -- Check for active reservations
  match ReservationRepositoryImpl.GetActiveReservationByKey id w1 with
  | ((activeReservation, err), w2) =>
  if err.isSome && err != some Error.ErrReservationNotFound then (err, w2) else
  if activeReservation.isSome then
    (some (Error.New "cannot delete key with active reservations"), w2)
  else
    KeyRepositoryImpl.Delete id w2

end usecase

/-! ## The variant of `internal/usecase/user_usecase.go` -/

namespace internal.usecase

open entity repository

/-- The constant `jwtSecret`. -/
abbrev jwtSecret : String := "your-secret-key"

/-- The method `LoginUser` of `internal/usecase/user_usecase.go`: the password is checked
with `CheckPassword` and the token is signed with the constant `jwtSecret`. -/
def UserUseCase.LoginUser (c : Crypto) (now : Time) (email password : String) (w : World) :
    Outcome (Option User × String × Option Error) × World :=
  match UserRepositoryImpl.GetByEmail email w with
  | ((_, some _), w1) => (.ret (none, "", some Error.ErrInvalidCredentials), w1)
  | ((none, none), w1) => (.panic "invalid memory address or nil pointer dereference", w1)
  | ((some user, none), w1) =>
  if user.IsBlocked then (.ret (none, "", some Error.ErrUserBlocked), w1) else
  if !user.CheckPassword c password then
    (.ret (none, "", some Error.ErrInvalidCredentials), w1)
  else
  -- Generate JWT token
  match c.SignedString user.ID user.Role (now + 24 * Hour) jwtSecret with
  | (_, some err) =>
    (.ret (none, "", some (Error.Errorf "failed to generate token: %w" [] err)), w1)
  | (tokenString, none) => (.ret (some user, tokenString, none), w1)

end internal.usecase

/-! ## User validation, registration and name validation
(`entity/user.go`, `internal/entity/user.go`, `entity/validation.go`,
`infrastructure/validation/custom_validations.go`, `usecase/user_usecase.go`,
`internal/usecase/user_usecase.go`) -/

namespace entity

/-- The library calls behind user validation and password hashing: the validator's tag
`email` (true for a well-formed address) and `bcrypt.GenerateFromPassword` (the hash and
the error). They belong to external packages and stay parameters. -/
structure Library where
  email : String → Bool
  GenerateFromPassword : String → String × Option Error

/-- The constructor `NewUser`; `newID` is the value of `primitive.NewObjectID()`. -/
def NewUser (now : Time) (newID : ObjectID) (name email password : String) (role : UserRole) :
    User :=
  { ID := newID, Name := name, Email := email, Password := password, Role := role,
    IsBlocked := false, CreatedAt := now, UpdatedAt := now }

/-- The field error of `Name`, tagged `required,min=2,max=100`; lengths are counted in
runes and a field reports its first failing tag. -/
def User.nameErrors (u : User) : List FieldError :=
  if u.Name = "" then [⟨"Name", "required"⟩]
  else if u.Name.length < 2 then [⟨"Name", "min"⟩]
  else if 100 < u.Name.length then [⟨"Name", "max"⟩]
  else []

/-- The field error of `Email`, tagged `required,email`. -/
def User.emailErrors (l : Library) (u : User) : List FieldError :=
  if u.Email = "" then [⟨"Email", "required"⟩]
  else if !l.email u.Email then [⟨"Email", "email"⟩]
  else []

/-- The field error of `Password`, which carries no `validate` tag. -/
def User.passwordErrors (_ : User) : List FieldError := []

/-- The field error of `Role`, tagged `required,oneof=resident admin`. -/
def User.roleErrors (u : User) : List FieldError :=
  if u.Role = "" then [⟨"Role", "required"⟩]
  else if u.Role != UserRoleResident && u.Role != UserRoleAdmin then [⟨"Role", "oneof"⟩]
  else []

/-- The field errors of `validate.Struct(u)`, in the order of the struct's fields. -/
def User.structErrors (l : Library) (u : User) : List FieldError :=
  u.nameErrors ++ u.emailErrors l ++ u.passwordErrors ++ u.roleErrors

/-- The method `ValidateForCreation` of `internal/entity/user.go`. -/
def User.ValidateForCreation (l : Library) (u : User) : Option Error :=
  validateResult (u.structErrors l)

/-- The method `ValidateForLogin` (the same in both packages): `StructPartial` on the
fields `Email` and `Password`. -/
def User.ValidateForLogin (l : Library) (u : User) : Option Error :=
  validateResult (u.emailErrors l ++ u.passwordErrors)

/-- The method `HashPassword`: the receiver after the call and the returned error. -/
def User.HashPassword (l : Library) (u : User) : User × Option Error :=
  match l.GenerateFromPassword u.Password with
  | (_, some err) => (u, some err)
  | (hashedPassword, none) => ({ u with Password := hashedPassword }, none)

/-- The number of bytes of the UTF-8 encoding of a character. -/
def utf8Len (c : Char) : Nat :=
  if c.toNat < 128 then 1 else if c.toNat < 2048 then 2 else if c.toNat < 65536 then 3 else 4

/-- Go's `len(s)` for a string: its length in bytes. -/
def len (s : String) : Nat := (s.data.map utf8Len).sum

/-- The character class of the name pattern: `a-z`, `A-Z`, `À-ú` (U+00C0 to U+00FA),
`0-9` and `\s` (tab, line feed, form feed, carriage return, space). -/
def nameClass (c : Char) : Bool :=
  (decide (97 ≤ c.toNat) && decide (c.toNat ≤ 122)) ||
  (decide (65 ≤ c.toNat) && decide (c.toNat ≤ 90)) ||
  (decide (192 ≤ c.toNat) && decide (c.toNat ≤ 250)) ||
  (decide (48 ≤ c.toNat) && decide (c.toNat ≤ 57)) ||
  decide (c.toNat = 9) || decide (c.toNat = 10) || decide (c.toNat = 12) ||
  decide (c.toNat = 13) || decide (c.toNat = 32)

/-- The pattern of `nameRegex` matched against a whole string: between 2 and 100
characters (runes), each in `nameClass`. -/
def nameRegex.MatchString (s : String) : Bool :=
  decide (2 ≤ s.length) && decide (s.length ≤ 100) && s.data.all nameClass

/-- The sentinel `ErrNameInvalid` of `entity/validation.go`. -/
abbrev ErrNameInvalid : Error := Error.New "nome deve conter apenas letras, números e espaços"

/-- The function `ValidateName` of `entity/validation.go`. -/
def ValidateName (name : String) : Option Error :=
  if !nameRegex.MatchString name then some ErrNameInvalid else none

end entity

namespace validation

open entity

/-- The function `validateName` of `infrastructure/validation/custom_validations.go`,
applied to the string value of the field. -/
def validateName (name : String) : Bool :=
  -- Nome deve ter entre 2 e 100 caracteres
  if len name < 2 || len name > 100 then false
  else nameRegex.MatchString name

end validation

namespace usecase

open entity repository

/-- The method `RegisterUser` of `usecase/user_usecase.go`. -/
def UserUseCase.RegisterUser (l : Library) (now : Time) (user : User) (w : World) :
    Option Error × World :=
  -- Verificar se o usuário já existe
  match UserRepositoryImpl.GetByEmail user.Email w with
  | ((existingUser, err), w1) =>
  if err.isSome && err != some Error.ErrUserNotFound then (err, w1) else
  if existingUser.isSome then (some Error.ErrUserAlreadyExists, w1) else
  match user.HashPassword l with
  | (_, some err) => (some err, w1)
  | (user, none) =>
  UserRepositoryImpl.Create { user with CreatedAt := now, UpdatedAt := now } w1

end usecase

namespace internal.usecase

open entity repository

/-- The method `RegisterUser` of `internal/usecase/user_usecase.go`. -/
def UserUseCase.RegisterUser (l : Library) (now : Time) (user : User) (w : World) :
    Option Error × World :=
  match user.ValidateForCreation l with
  | some err => (some err, w)
  | none =>
  match UserRepositoryImpl.GetByEmail user.Email w with
  | ((existingUser, err), w1) =>
  if err.isSome && err != some Error.ErrUserNotFound then (err, w1) else
  if existingUser.isSome then (some Error.ErrUserAlreadyExists, w1) else
  match user.HashPassword l with
  | (_, some err) => (some err, w1)
  | (user, none) =>
  UserRepositoryImpl.Create { user with CreatedAt := now, UpdatedAt := now } w1

end internal.usecase

/-! ## Error rendering (`infrastructure/http/response`, `infrastructure/http/middleware`) -/

namespace http

abbrev StatusBadRequest : Int := 400

abbrev StatusUnauthorized : Int := 401

abbrev StatusForbidden : Int := 403

abbrev StatusNotFound : Int := 404

abbrev StatusConflict : Int := 409

abbrev StatusInternalServerError : Int := 500

end http

namespace response

abbrev ErrorCode := String

abbrev ErrCodeUnauthorized : ErrorCode := "UNAUTHORIZED"

abbrev ErrCodeForbidden : ErrorCode := "FORBIDDEN"

abbrev ErrCodeInvalidToken : ErrorCode := "INVALID_TOKEN"

abbrev ErrCodeTokenExpired : ErrorCode := "TOKEN_EXPIRED"

abbrev ErrCodeValidation : ErrorCode := "VALIDATION_ERROR"

abbrev ErrCodeInvalidInput : ErrorCode := "INVALID_INPUT"

abbrev ErrCodeNotFound : ErrorCode := "NOT_FOUND"

abbrev ErrCodeAlreadyExists : ErrorCode := "ALREADY_EXISTS"

abbrev ErrCodeUnavailable : ErrorCode := "RESOURCE_UNAVAILABLE"

abbrev ErrCodeConcurrency : ErrorCode := "CONCURRENT_MODIFICATION"

abbrev ErrCodeConflict : ErrorCode := "CONFLICT"

abbrev ErrCodeInternal : ErrorCode := "INTERNAL_ERROR"

abbrev ErrCodeDatabase : ErrorCode := "DATABASE_ERROR"

/-- The struct `APIError`; `Details` is `nil` or a rendered value. -/
structure APIError where
  Code : ErrorCode
  Message : String
  Details : Option String
  RequestID : String
  HTTPStatus : Int
  deriving DecidableEq

/-- The struct `APIResponse`; `Data` and `Metadata` are `nil` or a rendered value. -/
structure APIResponse where
  Success : Bool
  Data : Option String
  Error : Option APIError
  Metadata : Option String
  deriving DecidableEq

def NewErrorResponse (err : APIError) : APIResponse :=
  { Success := false, Data := none, Error := some err, Metadata := none }

def getErrorCodeFromStatus (status : Int) : ErrorCode :=
  if status = http.StatusUnauthorized then ErrCodeUnauthorized
  else if status = http.StatusForbidden then ErrCodeForbidden
  else if status = http.StatusNotFound then ErrCodeNotFound
  else if status = http.StatusBadRequest then ErrCodeInvalidInput
  else if status = http.StatusConflict then ErrCodeConflict
  else ErrCodeInternal

def NewError (status : Int) (message : String) : APIError :=
  { Code := getErrorCodeFromStatus status, Message := message, Details := none,
    RequestID := "", HTTPStatus := status }

/-- A non-nil value of Go's interface `error` as `MapError` can receive it: an error of
the domain and the use cases, the sentinel `repository.ErrConcurrentModification`, or a
pointer to an `APIError` (which implements `error`). -/
inductive Err where
  | domain (e : entity.Error)
  | ErrConcurrentModification
  | api (e : APIError)
  deriving DecidableEq

/-- The function `MapError`: its `switch err` compares the interface value with each
sentinel. -/
def MapError (err : Option Err) (requestID : String) : Option APIError :=
  match err with
  | none => none
  | some (.domain .ErrUnauthorized) =>
    some { Code := ErrCodeUnauthorized, Message := "Não autorizado", Details := none,
           RequestID := requestID, HTTPStatus := http.StatusUnauthorized }
  | some (.domain .ErrUserNotFound) =>
    some { Code := ErrCodeNotFound, Message := "Usuário não encontrado", Details := none,
           RequestID := requestID, HTTPStatus := http.StatusNotFound }
  | some (.domain .ErrUserAlreadyExists) =>
    some { Code := ErrCodeAlreadyExists, Message := "Usuário já existe", Details := none,
           RequestID := requestID, HTTPStatus := http.StatusConflict }
  | some (.domain .ErrUserBlocked) =>
    some { Code := ErrCodeForbidden, Message := "Usuário bloqueado", Details := none,
           RequestID := requestID, HTTPStatus := http.StatusForbidden }
  | some (.domain .ErrKeyNotFound) =>
    some { Code := ErrCodeNotFound, Message := "Chave não encontrada", Details := none,
           RequestID := requestID, HTTPStatus := http.StatusNotFound }
  | some (.domain .ErrKeyAlreadyExists) =>
    some { Code := ErrCodeAlreadyExists, Message := "Chave já existe", Details := none,
           RequestID := requestID, HTTPStatus := http.StatusConflict }
  | some (.domain .ErrKeyReserved) =>
    some { Code := ErrCodeUnavailable, Message := "Chave já está reservada", Details := none,
           RequestID := requestID, HTTPStatus := http.StatusConflict }
  | some (.domain .ErrReservationNotFound) =>
    some { Code := ErrCodeNotFound, Message := "Reserva não encontrada", Details := none,
           RequestID := requestID, HTTPStatus := http.StatusNotFound }
  | some (.domain .ErrReservationOverdue) =>
    some { Code := ErrCodeConflict, Message := "Reserva em atraso", Details := none,
           RequestID := requestID, HTTPStatus := http.StatusConflict }
  | some .ErrConcurrentModification =>
    some { Code := ErrCodeConcurrency, Message := "Modificação concorrente detectada",
           Details := none, RequestID := requestID, HTTPStatus := http.StatusConflict }
  -- Erro padrão para casos não mapeados
  | some _ =>
    some { Code := ErrCodeInternal, Message := "Erro interno do servidor", Details := none,
           RequestID := requestID, HTTPStatus := http.StatusInternalServerError }

end response

namespace middleware

open entity response

/-- One entry of `c.Errors`: the error handed to `ctx.Error` and its `Meta`, which is
`some` when it holds a `gin.H`. -/
structure GinError where
  Err : response.Err
  Meta : Option String
  deriving DecidableEq

/-- The handler returned by `ErrorHandler`, after `c.Next()`: the status and body it
writes with `c.JSON`, or nothing when the request left no error. `requestID` is the
context value of that name. -/
def ErrorHandler (errors : List GinError) (requestID : Option String) :
    Option (Outcome (Int × APIResponse)) :=
  -- Processa apenas se houver erros
  match errors.getLast? with
  | none => none
  | some err =>
    match MapError (some err.Err) (requestID.getD "") with
    | none => some (.panic "invalid memory address or nil pointer dereference")
    | some apiError =>
      match (if err.Meta.isSome && apiError.Code == ErrCodeValidation then
          { apiError with Details := err.Meta } else apiError) with
      | apiError => some (.ret (apiError.HTTPStatus, NewErrorResponse apiError))

end middleware


/-! ## Specification predicates -/

namespace spec

open entity repository

/-- The number of stored reservations with status active that reference key `k`. -/
def activeCountOfKey (k : ObjectID) (rs : List Reservation) : Nat :=
  rs.countP (fun r => r.Status == ReservationStatusActive && r.KeyID == k)

/-- Every key is referenced by at most one stored reservation with status active. -/
def AtMostOneActivePerKey (rs : List Reservation) : Prop :=
  ∀ k : ObjectID, activeCountOfKey k rs ≤ 1

/-- The number of stored reservations with status active that user `u` owns. -/
def activeCountOfUser (u : ObjectID) (rs : List Reservation) : Nat :=
  rs.countP (fun r => r.Status == ReservationStatusActive && r.UserID == u)

/-- Every user owns at most one stored reservation with status active. -/
def AtMostOneActivePerUser (rs : List Reservation) : Prop :=
  ∀ u : ObjectID, activeCountOfUser u rs ≤ 1

/-- The list `rs2` is reached from `rs` by `ReplaceOne` calls, each of which writes a
document whose status is not active under an `_id` taken from `ids`. -/
inductive Retired (ids : List ObjectID) : List Reservation → List Reservation → Prop where
  | refl (rs : List Reservation) : Retired ids rs rs
  | step {rs rs2 : List Reservation} (doc : Reservation) :
      doc.Status ≠ ReservationStatusActive → doc.ID ∈ ids →
      Retired ids (replaceOne Reservation.ID doc.ID doc rs) rs2 → Retired ids rs rs2

end spec


/-! ## Concrete worlds used to run the use cases -/

namespace examples

open entity repository

def key1 : Key :=
  { ID := 1, Name := "101-A", Description := "", IsActive := true, CreatedAt := 10,
    UpdatedAt := 10 }

def key2 : Key :=
  { ID := 2, Name := "102-B", Description := "", IsActive := true, CreatedAt := 10,
    UpdatedAt := 10 }

def resident7 : User :=
  { ID := 7, Name := "Ana", Email := "ana@example.com", Password := "hash",
    Role := UserRoleResident, IsBlocked := false, CreatedAt := 10, UpdatedAt := 10 }

def resident8 : User :=
  { ID := 8, Name := "Bia", Email := "bia@example.com", Password := "hash",
    Role := UserRoleResident, IsBlocked := false, CreatedAt := 10, UpdatedAt := 10 }

def blocked8 : User := { resident8 with IsBlocked := true }

def admin9 : User :=
  { ID := 9, Name := "Caio", Email := "caio@example.com", Password := "hash",
    Role := UserRoleAdmin, IsBlocked := false, CreatedAt := 10, UpdatedAt := 10 }

/-- A store with two keys, two residents and an administrator, and no reservation. -/
def emptyWorld : World :=
  { keys := [key1, key2], users := [resident7, resident8, admin9], reservations := [], faults := [],
    log := [] }

/-- The draft `NewReservation(key 1, user 7, due 100)` built when the clock reads 100. -/
def draftDueNow : Reservation := NewReservation 100 3 1 7 100

/-- A draft for key 1 and the blocked user 8 whose due time is the current time 100. -/
def draftBlockedDueNow : Reservation := NewReservation 100 4 1 8 100

/-- The world of `emptyWorld` in which user 8 is blocked. -/
def blockedWorld : World := { emptyWorld with users := [resident7, blocked8, admin9] }

/-- A draft filled in by hand: status returned and a zero reserved-at. -/
def draftReturned : Reservation :=
  { ID := 5, KeyID := 1, UserID := 7, ReservedAt := 0, DueAt := 500, ReturnedAt := none,
    Status := ReservationStatusReturned, CreatedAt := 0, UpdatedAt := 0 }

/-- An active reservation of key 1 by user 7, reserved at 10 and due at 100. -/
def reservation3 : Reservation := NewReservation 10 3 1 7 100

/-- A store holding `reservation3`. -/
def reservedWorld : World := { emptyWorld with reservations := [reservation3] }

end examples

namespace examples

open entity repository

/-- The returned version of `reservation3` after a return at time 200. -/
def returned3 : Reservation :=
  { reservation3 with ReturnedAt := some 200, Status := ReservationStatusReturned,
                      UpdatedAt := 200 }

/-- The overdue version of `reservation3` after a sweep at time 200. -/
def overdue3 : Reservation :=
  { reservation3 with Status := ReservationStatusOverdue, UpdatedAt := 200 }

/-- A store holding the returned reservation only. -/
def returnedWorld : World := { emptyWorld with reservations := [returned3] }

end examples

namespace spec

open entity repository

/-- The filter of `GetOverdueReservations`, which is also the test of the sweep loop:
status active and due-at before `now`. -/
def pastDue (now : Time) (r : Reservation) : Bool :=
  r.Status == ReservationStatusActive && decide (r.DueAt < now)

/-- The reservation `r` after a successful `MarkAsOverdue` at `now`. -/
def overdueOf (now : Time) (r : Reservation) : Reservation :=
  { r with Status := ReservationStatusOverdue, UpdatedAt := now }

/-- The reservation `r` after a successful `MarkAsReturned` at `now`. -/
def returnedOf (now : Time) (r : Reservation) : Reservation :=
  { r with ReturnedAt := some now, Status := ReservationStatusReturned, UpdatedAt := now }

/-- The stored user with id `uid`, if there is one, has the blocked flag set. -/
def Blocked (uid : ObjectID) (users : List User) : Bool :=
  match users.find? (fun x => x.ID == uid) with
  | some u => u.IsBlocked
  | none => true

/-- The writes of a sweep that handles the reservations `xs` one after the other: the
`Update` with status overdue, then the `BlockUser` of the owner. -/
def sweepCalls (now : Time) (xs : List Reservation) : List Call :=
  xs.flatMap (fun res =>
    [Call.ReservationUpdate (overdueOf now res), Call.UserBlockUser res.UserID])

/-- The writes of a block cascade over the reservations `xs`: one `Update` with status
overdue for each. -/
def cascadeCalls (now : Time) (xs : List Reservation) : List Call :=
  xs.map (fun res => Call.ReservationUpdate (overdueOf now res))

/-- The store after each reservation of `xs` has been replaced, in order, by its overdue
version. -/
def cascadeStore (now : Time) (xs : List Reservation) (rs : List Reservation) :
    List Reservation :=
  xs.foldl (fun docs res => replaceOne Reservation.ID res.ID (overdueOf now res) docs) rs

/-- The reservations that the block cascade of user `uid` has to retire. -/
def activeOf (uid : ObjectID) (rs : List Reservation) : List Reservation :=
  (rs.filter (fun r => r.UserID == uid)).filter
    (fun r => r.Status == ReservationStatusActive)

end spec

namespace examples

open entity repository

/-- The store of `reservedWorld` where the third repository call will fail. -/
def thirdCallFailsWorld : World := { reservedWorld with faults := [none, none, some 1] }

/-- The store of `reservedWorld` where the second repository call will fail. -/
def secondCallFailsWorld : World := { reservedWorld with faults := [none, some 1] }

/-- A draft filled in by hand at time 100 with a reserved-at of 1000, in the future. -/
def draftReservedLater : Reservation :=
  { ID := 6, KeyID := 1, UserID := 7, ReservedAt := 1000, DueAt := 2000, ReturnedAt := none,
    Status := ReservationStatusActive, CreatedAt := 100, UpdatedAt := 100 }

/-- A stand-in for the two library calls: a hash matches the password equal to it, and
signing always yields the token "token". -/
def testCrypto : Crypto :=
  { CompareHashAndPassword := fun hash password =>
      if hash == password then none
      else some (Error.New "crypto/bcrypt: hashedPassword is not the hash of the given password"),
    SignedString := fun _ _ _ _ => ("token", none) }

/-- A use case built with a configuration. -/
def configured : usecase.UserUseCase :=
  { config := some { DatabaseURL := "", DatabaseName := "", ServerPort := "",
                     JWTSecret := "secret" } }

/-- The store of `reservedWorld` where the fourth repository call will fail. -/
def fourthCallFailsWorld : World :=
  { reservedWorld with faults := [none, none, none, some 1] }

end examples

namespace spec

open entity repository

/-- No two stored keys share a name. -/
def UniqueNames (keys : List Key) : Prop := (keys.map Key.Name).Nodup

/-- The record `UpdateKey` builds from the stored key and the draft. -/
def updatedKey (now : Time) (existingKey key : Key) : Key :=
  { existingKey with Name := key.Name, Description := key.Description,
                     IsActive := key.IsActive, UpdatedAt := now }

end spec

namespace examples

open entity repository

/-- A stand-in for the library calls of user validation: an address is well formed
when it holds the character `@`, and hashing prefixes the password. -/
def testLibrary : Library :=
  { email := fun s => s.data.any (fun c => c.toNat == 64),
    GenerateFromPassword := fun password => ("hash:" ++ password, none) }

/-- The draft of test case 2 of `TestUserUseCase_RegisterUser`, built at time 50. -/
def invalidUser : User := NewUser 50 0 "" "invalid-email" "short" UserRoleResident

/-- A user with a well-formed email and an empty password. -/
def noPasswordUser : User := NewUser 50 0 "Valid User" "valid@example.com" "" UserRoleResident

/-- A draft that renames key 2 to the name of key 1. -/
def draftRenameKey2 : Key :=
  { ID := 2, Name := "101-A", Description := "", IsActive := true, CreatedAt := 0,
    UpdatedAt := 0 }

/-- A name of 51 letters `é` (U+00E9): 51 characters, 102 bytes. -/
def accentedName : String := String.mk (List.replicate 51 (Char.ofNat 233))

end examples

namespace spec

open entity repository

/-- Every stored reservation was reserved at or before `t` and passes
`ValidateReturnTime`. -/
def ReturnTimesValid (t : Time) (rs : List Reservation) : Prop :=
  ∀ r ∈ rs, r.ReservedAt ≤ t ∧ r.ValidateReturnTime = none

/-- One call against the store, with the clock reading of the call: one of the five use
cases that write reservations, or any other step, given as the change it makes to the
world. -/
inductive Op where
  | CreateReservation (now : Time) (draft : Reservation)
  | ReturnKey (now : Time) (reservationID userID : ObjectID)
  | ExtendReservation (now : Time) (reservationID : ObjectID) (newDueTime : Time)
      (adminRole : UserRole)
  | ProcessOverdueReservations (now : Time)
  | BlockUser (now : Time) (userID : ObjectID) (adminRole : UserRole)
  | other (now : Time) (f : World → World)

/-- The clock reading of a call. -/
def Op.now : Op → Time
  | .CreateReservation now _ => now
  | .ReturnKey now _ _ => now
  | .ExtendReservation now _ _ _ => now
  | .ProcessOverdueReservations now => now
  | .BlockUser now _ _ => now
  | .other now _ => now

/-- The world after a call. -/
def Op.apply : Op → World → World
  | .CreateReservation now draft, w =>
    (usecase.ReservationUseCase.CreateReservation now draft w).2
  | .ReturnKey now reservationID userID, w =>
    (usecase.ReservationUseCase.ReturnKey now reservationID userID w).2
  | .ExtendReservation now reservationID newDueTime adminRole, w =>
    (usecase.ReservationUseCase.ExtendReservation now reservationID newDueTime adminRole w).2
  | .ProcessOverdueReservations now, w =>
    (usecase.ReservationUseCase.ProcessOverdueReservations now w).2
  | .BlockUser now userID adminRole, w => (usecase.UserUseCase.BlockUser now userID adminRole w).2
  | .other _ f, w => f w

/-- A call may follow the clock reading `prev`: its own reading is not earlier; a draft
handed to `CreateReservation` was reserved at or before the call and passes
`ValidateReturnTime`; any other step leaves the reservations alone. -/
def Op.Admissible (prev : Time) : Op → Prop
  | .CreateReservation now draft =>
    prev ≤ now ∧ draft.ReservedAt ≤ now ∧ draft.ValidateReturnTime = none
  | .other now f => prev ≤ now ∧ ∀ w, (f w).reservations = w.reservations
  | op => prev ≤ op.now

/-- A sequence of calls whose clock readings never go back, starting at `prev`. -/
def Schedule : Time → List Op → Prop
  | _, [] => True
  | prev, op :: ops => op.Admissible prev ∧ Schedule op.now ops

/-- The world after a sequence of calls. -/
def run (ops : List Op) (w : World) : World := ops.foldl (fun w1 op => op.apply w1) w

end spec

namespace examples

open entity repository spec

/-- User 7 reserves key 1 at time 10, the admin extends the reservation at time 20,
another store step resets the failure script at time 30, and user 7 returns the key at
time 200. -/
def reserveExtendReturn : List Op :=
  [.CreateReservation 10 (NewReservation 10 3 1 7 100),
   .ExtendReservation 20 3 150 UserRoleAdmin,
   .other 30 (fun w => { w with faults := [] }),
   .ReturnKey 200 3 7]

/-- A store in which user 7 holds two active reservations, of keys 1 and 2, both due at
100, and the third repository call will fail. -/
def twoPastDueWorld : World :=
  { emptyWorld with
    reservations := [NewReservation 10 3 1 7 100, NewReservation 10 4 2 7 100],
    faults := [none, none, some 1] }

end examples
/-! ## Lemmas on the store -/

namespace repository

open entity

theorem World.fault_cases (w : World) :
    w.fault = none ∨ ∃ code, w.fault = some (Error.Store code) := by
  unfold World.fault
  cases w.faults with
  | nil => exact Or.inl rfl
  | cons f rest =>
    cases f with
    | none => exact Or.inl rfl
    | some c => exact Or.inr ⟨c, rfl⟩

theorem World.fault_of_faults_nil {w : World} (h : w.faults = []) : w.fault = none := by
  unfold World.fault; rw [h]

@[simp] theorem World.enter_keys (w : World) (c : Call) : (w.enter c).keys = w.keys := rfl

@[simp] theorem World.enter_users (w : World) (c : Call) : (w.enter c).users = w.users := rfl

@[simp] theorem World.enter_reservations (w : World) (c : Call) :
    (w.enter c).reservations = w.reservations := rfl

@[simp] theorem World.enter_log (w : World) (c : Call) : (w.enter c).log = w.log ++ [c] := rfl

@[simp] theorem World.enter_faults (w : World) (c : Call) :
    (w.enter c).faults = w.faults.tail := rfl

/-! ### Counting under the collection operations -/

theorem countP_replaceOne_le {α : Type} (getID : α → ObjectID) (p : α → Bool) (id : ObjectID)
    (doc : α) (hdoc : p doc = false) (ds : List α) :
    (replaceOne getID id doc ds).countP p ≤ ds.countP p := by
  induction ds with
  | nil => simp [replaceOne]
  | cons d ds ih =>
    unfold replaceOne
    split
    · simp only [List.countP_cons, hdoc]
      simp
    · simp only [List.countP_cons]
      omega

theorem countP_replaceOne_eq {α : Type} (getID : α → ObjectID) (p : α → Bool) (id : ObjectID)
    (doc old : α) (ds : List α) (hfind : ds.find? (fun d => getID d == id) = some old)
    (hp : p doc = p old) :
    (replaceOne getID id doc ds).countP p = ds.countP p := by
  induction ds with
  | nil => simp at hfind
  | cons d ds ih =>
    unfold replaceOne
    by_cases hd : getID d = id
    · simp only [hd, if_true]
      have : d = old := by
        rw [List.find?_cons_of_pos _ (by simp [hd])] at hfind
        exact Option.some.inj hfind
      subst this
      simp only [List.countP_cons, hp]
    · have hfind2 : ds.find? (fun d => getID d == id) = some old := by
        rw [List.find?_cons_of_neg _ (by simp [hd])] at hfind
        exact hfind
      simp only [hd, if_false, List.countP_cons, ih hfind2]

end repository

namespace entity

theorem returned_ne_active : ReservationStatusReturned ≠ ReservationStatusActive := by decide

theorem overdue_ne_active : ReservationStatusOverdue ≠ ReservationStatusActive := by decide

theorem Reservation.MarkAsReturned_of_active {r : Reservation} (now : Time)
    (h : r.Status = ReservationStatusActive) :
    r.MarkAsReturned now =
      ({ r with ReturnedAt := some now, Status := ReservationStatusReturned, UpdatedAt := now },
        none) := by
  simp [Reservation.MarkAsReturned, h]

theorem Reservation.MarkAsReturned_of_not_active {r : Reservation} (now : Time)
    (h : r.Status ≠ ReservationStatusActive) :
    r.MarkAsReturned now = (r, some (Error.New "reservation is not active")) := by
  simp [Reservation.MarkAsReturned, h]

theorem Reservation.MarkAsOverdue_of_active {r : Reservation} (now : Time)
    (h : r.Status = ReservationStatusActive) :
    r.MarkAsOverdue now =
      ({ r with Status := ReservationStatusOverdue, UpdatedAt := now }, none) := by
  simp [Reservation.MarkAsOverdue, h]

theorem Reservation.MarkAsOverdue_of_not_active {r : Reservation} (now : Time)
    (h : r.Status ≠ ReservationStatusActive) :
    r.MarkAsOverdue now = (r, some (Error.New "reservation is not active")) := by
  simp [Reservation.MarkAsOverdue, h]

/-- After `MarkAsReturned` the receiver is never overdue: its status is not active. -/
theorem Reservation.IsOverdue_MarkAsReturned (r : Reservation) (now now2 : Time) :
    (r.MarkAsReturned now).1.IsOverdue now2 = false := by
  by_cases h : r.Status = ReservationStatusActive
  · rw [Reservation.MarkAsReturned_of_active now h]
    simp [Reservation.IsOverdue, returned_ne_active]
  · rw [Reservation.MarkAsReturned_of_not_active now h]
    simp [Reservation.IsOverdue, h]

end entity

namespace repository

open entity

theorem snd_of_eq {α β : Type} {p : α × β} {a : α} {b : β} (h : p = (a, b)) : b = p.2 := by
  rw [h]

/-! ### What one repository call does to the world -/

theorem ReservationRepositoryImpl.reservation_GetByID_snd (id : ObjectID) (w : World) :
    (ReservationRepositoryImpl.GetByID id w).2 = w.enter (.ReservationGetByID id) := by
  unfold ReservationRepositoryImpl.GetByID
  repeat' split
  all_goals rfl

theorem ReservationRepositoryImpl.GetByID_some {id : ObjectID} {w w1 : World}
    {r : Reservation} {e : Option Error}
    (h : ReservationRepositoryImpl.GetByID id w = ((some r, e), w1)) :
    w.reservations.find? (fun x => x.ID == id) = some r := by
  unfold ReservationRepositoryImpl.GetByID at h
  repeat' split at h
  all_goals simp_all

theorem ReservationRepositoryImpl.GetActiveReservationByKey_snd (keyID : ObjectID) (w : World) :
    (ReservationRepositoryImpl.GetActiveReservationByKey keyID w).2 =
      w.enter (.ReservationGetActiveReservationByKey keyID) := by
  unfold ReservationRepositoryImpl.GetActiveReservationByKey
  repeat' split
  all_goals rfl

/-- When `GetActiveReservationByKey` yields no reservation and no error other than
`ErrReservationNotFound`, no stored reservation of the key is active. -/
theorem ReservationRepositoryImpl.GetActiveReservationByKey_free {keyID : ObjectID}
    {w w1 : World} {a : Option Reservation} {err : Option Error}
    (h : ReservationRepositoryImpl.GetActiveReservationByKey keyID w = ((a, err), w1))
    (herr : ¬ (err.isSome && err != some Error.ErrReservationNotFound) = true)
    (ha : ¬ a.isSome = true) :
    w.reservations.find?
      (fun r => r.KeyID == keyID && r.Status == ReservationStatusActive) = none := by
  unfold ReservationRepositoryImpl.GetActiveReservationByKey at h
  rcases w.fault_cases with hf | ⟨c, hf⟩
  · rw [hf] at h
    simp only at h
    split at h
    · assumption
    · simp only [Prod.mk.injEq] at h
      obtain ⟨⟨rfl, -⟩, -⟩ := h
      simp at ha
  · rw [hf] at h
    simp only [Prod.mk.injEq] at h
    obtain ⟨⟨-, rfl⟩, -⟩ := h
    simp at herr

theorem ReservationRepositoryImpl.GetByUserID_snd (userID : ObjectID) (w : World) :
    (ReservationRepositoryImpl.GetByUserID userID w).2 =
      w.enter (.ReservationGetByUserID userID) := by
  unfold ReservationRepositoryImpl.GetByUserID
  repeat' split
  all_goals rfl

theorem ReservationRepositoryImpl.GetByUserID_ok {userID : ObjectID} {w w1 : World}
    {rs : List Reservation}
    (h : ReservationRepositoryImpl.GetByUserID userID w = ((rs, none), w1)) :
    rs = w.reservations.filter (fun r => r.UserID == userID) := by
  unfold ReservationRepositoryImpl.GetByUserID at h
  split at h
  · simp at h
  · simp only [Prod.mk.injEq] at h
    exact h.1.1.symm

theorem ReservationRepositoryImpl.GetOverdueReservations_snd (now : Time) (w : World) :
    (ReservationRepositoryImpl.GetOverdueReservations now w).2 =
      w.enter .ReservationGetOverdueReservations := by
  unfold ReservationRepositoryImpl.GetOverdueReservations
  repeat' split
  all_goals rfl

theorem ReservationRepositoryImpl.GetOverdueReservations_ok {now : Time} {w w1 : World}
    {rs : List Reservation}
    (h : ReservationRepositoryImpl.GetOverdueReservations now w = ((rs, none), w1)) :
    rs = w.reservations.filter
      (fun r => r.Status == ReservationStatusActive && decide (r.DueAt < now)) := by
  unfold ReservationRepositoryImpl.GetOverdueReservations at h
  split at h
  · simp at h
  · simp only [Prod.mk.injEq] at h
    exact h.1.1.symm

theorem ReservationRepositoryImpl.Update_reservations (r : Reservation) (w : World) :
    (ReservationRepositoryImpl.Update r w).2.reservations = w.reservations ∨
    (ReservationRepositoryImpl.Update r w).2.reservations =
      replaceOne Reservation.ID r.ID r w.reservations := by
  unfold ReservationRepositoryImpl.Update
  split
  · exact Or.inl rfl
  · exact Or.inr rfl

theorem ReservationRepositoryImpl.Update_ok {r : Reservation} {w w1 : World}
    (h : ReservationRepositoryImpl.Update r w = (none, w1)) :
    w1.reservations = replaceOne Reservation.ID r.ID r w.reservations := by
  unfold ReservationRepositoryImpl.Update at h
  split at h
  · simp at h
  · rw [snd_of_eq h]

theorem insertOne_snd {α : Type} (getID : α → ObjectID) (setID : α → ObjectID → α) (doc : α)
    (docs : List α) :
    (insertOne getID setID doc docs).2 = docs ∨
    (insertOne getID setID doc docs).2 = docs ++ [doc] ∨
    ∃ i, (insertOne getID setID doc docs).2 = docs ++ [setID doc i] := by
  unfold insertOne
  split
  · exact Or.inr (Or.inr ⟨_, rfl⟩)
  · split
    · exact Or.inl rfl
    · exact Or.inr (Or.inl rfl)

theorem le_foldl_max (l : List ObjectID) (init : ObjectID) :
    init ≤ l.foldl max init ∧ ∀ x ∈ l, x ≤ l.foldl max init := by
  induction l generalizing init with
  | nil => exact ⟨Nat.le_refl _, fun x hx => by cases hx⟩
  | cons a l ih =>
    rw [List.foldl_cons]
    obtain ⟨h1, h2⟩ := ih (max init a)
    refine ⟨Nat.le_trans (Nat.le_max_left _ _) h1, ?_⟩
    intro x hx
    rcases List.mem_cons.mp hx with rfl | hx
    · exact Nat.le_trans (Nat.le_max_right _ _) h1
    · exact h2 x hx

/-- A generated identifier is new. -/
theorem freshID_not_mem (ids : List ObjectID) : freshID ids ∉ ids := by
  intro h
  have := (le_foldl_max ids 0).2 _ h
  exact Nat.not_succ_le_self _ this

/-- An insertion into the reservations changes nothing, or appends the document under an
`_id` that no stored document has. -/
theorem insertOne_reservation (r : Reservation) (rs : List Reservation) :
    (insertOne Reservation.ID (fun r i => { r with ID := i }) r rs).2 = rs ∨
    ∃ i, i ∉ rs.map Reservation.ID ∧
      (insertOne Reservation.ID (fun r i => { r with ID := i }) r rs).2
        = rs ++ [{ r with ID := i }] := by
  unfold insertOne
  split
  · exact Or.inr ⟨_, freshID_not_mem _, rfl⟩
  · split
    · exact Or.inl rfl
    · rename_i hdup
      refine Or.inr ⟨r.ID, ?_, rfl⟩
      intro hmem
      obtain ⟨x, hx, hid⟩ := List.mem_map.mp hmem
      exact hdup (List.any_eq_true.mpr ⟨x, hx, by simp [hid]⟩)

theorem ReservationRepositoryImpl.Create_reservations (r : Reservation) (w : World) :
    (ReservationRepositoryImpl.Create r w).2.reservations = w.reservations ∨
    ∃ i, i ∉ w.reservations.map Reservation.ID ∧
      (ReservationRepositoryImpl.Create r w).2.reservations =
        w.reservations ++ [{ r with ID := i }] := by
  unfold ReservationRepositoryImpl.Create
  split
  · exact Or.inl rfl
  · exact insertOne_reservation r w.reservations

theorem UserRepositoryImpl.user_GetByID_snd (id : ObjectID) (w : World) :
    (UserRepositoryImpl.GetByID id w).2 = w.enter (.UserGetByID id) := by
  unfold UserRepositoryImpl.GetByID
  repeat' split
  all_goals rfl

theorem UserRepositoryImpl.BlockUser_reservations (id : ObjectID) (w : World) :
    (UserRepositoryImpl.BlockUser id w).2.reservations = w.reservations := by
  unfold UserRepositoryImpl.BlockUser
  split <;> rfl

theorem KeyRepositoryImpl.key_GetByID_snd (id : ObjectID) (w : World) :
    (KeyRepositoryImpl.GetByID id w).2 = w.enter (.KeyGetByID id) := by
  unfold KeyRepositoryImpl.GetByID
  repeat' split
  all_goals rfl

end repository

namespace repository

open entity

theorem ReservationRepositoryImpl.Create_log (r : Reservation) (w : World) :
    (ReservationRepositoryImpl.Create r w).2.log = w.log ++ [.ReservationCreate r] := by
  unfold ReservationRepositoryImpl.Create
  split <;> rfl

theorem ReservationRepositoryImpl.Update_log (r : Reservation) (w : World) :
    (ReservationRepositoryImpl.Update r w).2.log = w.log ++ [.ReservationUpdate r] := by
  unfold ReservationRepositoryImpl.Update
  split <;> rfl

theorem ReservationRepositoryImpl.Update_users (r : Reservation) (w : World) :
    (ReservationRepositoryImpl.Update r w).2.users = w.users := by
  unfold ReservationRepositoryImpl.Update
  split <;> rfl

theorem ReservationRepositoryImpl.Update_keys (r : Reservation) (w : World) :
    (ReservationRepositoryImpl.Update r w).2.keys = w.keys := by
  unfold ReservationRepositoryImpl.Update
  split <;> rfl

end repository

namespace repository

open entity

theorem find?_replaceOne_self {α : Type} (getID : α → ObjectID) (id : ObjectID) (doc old : α)
    (hdoc : getID doc = id) (ds : List α)
    (hfind : ds.find? (fun d => getID d == id) = some old) :
    (replaceOne getID id doc ds).find? (fun d => getID d == id) = some doc := by
  induction ds with
  | nil => simp at hfind
  | cons d ds ih =>
    unfold replaceOne
    by_cases hd : getID d = id
    · rw [if_pos hd, List.find?_cons_of_pos _ (by simp [hdoc])]
    · rw [if_neg hd, List.find?_cons_of_neg _ (by simp [hd])]
      rw [List.find?_cons_of_neg _ (by simp [hd])] at hfind
      exact ih hfind

theorem find?_replaceOne_ne {α : Type} (getID : α → ObjectID) (id i : ObjectID) (doc : α)
    (hdoc : getID doc = id) (hne : id ≠ i) (ds : List α) :
    (replaceOne getID id doc ds).find? (fun d => getID d == i) =
      ds.find? (fun d => getID d == i) := by
  induction ds with
  | nil => rfl
  | cons d ds ih =>
    unfold replaceOne
    by_cases hd : getID d = id
    · rw [if_pos hd, List.find?_cons_of_neg _ (by simp [hdoc, hne]),
        List.find?_cons_of_neg _ (by simp [hd, hne])]
    · rw [if_neg hd]
      by_cases hi : getID d = i
      · rw [List.find?_cons_of_pos _ (by simp [hi]), List.find?_cons_of_pos _ (by simp [hi])]
      · rw [List.find?_cons_of_neg _ (by simp [hi]), List.find?_cons_of_neg _ (by simp [hi]), ih]

/-- In a collection with pairwise distinct `_id`s, looking a stored document up by its
`_id` finds that document. -/
theorem find?_of_mem_of_nodup {α : Type} (getID : α → ObjectID) (ds : List α)
    (hnd : (ds.map getID).Nodup) (t : α) (ht : t ∈ ds) :
    ds.find? (fun d => getID d == getID t) = some t := by
  cases hfind : ds.find? (fun d => getID d == getID t) with
  | none =>
    have := List.find?_eq_none.mp hfind t ht
    simp at this
  | some x =>
    have hx : getID x = getID t := by simpa using List.find?_some hfind
    have hmem : x ∈ ds := List.mem_of_find?_eq_some hfind
    rw [List.inj_on_of_nodup_map hnd hmem ht hx]

end repository

namespace repository

open entity

theorem map_replaceOne {α : Type} (getID : α → ObjectID) (id : ObjectID) (doc : α)
    (hdoc : getID doc = id) (ds : List α) :
    (replaceOne getID id doc ds).map getID = ds.map getID := by
  induction ds with
  | nil => rfl
  | cons d ds ih =>
    unfold replaceOne
    by_cases hd : getID d = id
    · rw [if_pos hd, List.map_cons, List.map_cons, hdoc, hd]
    · rw [if_neg hd, List.map_cons, List.map_cons, ih]

end repository

/-! ## Lemmas on the use cases -/

namespace usecase

open entity repository spec

theorem Retired_countP_le {ids : List ObjectID} {rs rs2 : List Reservation}
    (h : Retired ids rs rs2) (p : Reservation → Bool)
    (hp : ∀ r, r.Status ≠ ReservationStatusActive → p r = false) :
    rs2.countP p ≤ rs.countP p := by
  induction h with
  | refl rs => exact Nat.le_refl _
  | step doc hdoc _ _ ih =>
    exact Nat.le_trans ih (countP_replaceOne_le Reservation.ID p doc.ID doc (hp doc hdoc) _)

/-- The three ways `ReturnKey` ends: after the first read, after the second read, or with
the `Update` of the returned version of the loaded active reservation. `BlockUser` is not
among them: the overdue test runs after `MarkAsReturned` has changed the status. -/
theorem ReservationUseCase.ReturnKey_shape (now : Time) (rid uid : ObjectID) (w : World) :
    (ReservationUseCase.ReturnKey now rid uid w).2 = w.enter (.ReservationGetByID rid) ∨
    (ReservationUseCase.ReturnKey now rid uid w).2 =
      (w.enter (.ReservationGetByID rid)).enter (.UserGetByID uid) ∨
    ∃ r, w.reservations.find? (fun x => x.ID == rid) = some r ∧
      r.Status = ReservationStatusActive ∧
      ReservationUseCase.ReturnKey now rid uid w =
        ReservationRepositoryImpl.Update
          { r with ReturnedAt := some now, Status := ReservationStatusReturned, UpdatedAt := now }
          ((w.enter (.ReservationGetByID rid)).enter (.UserGetByID uid)) := by
  unfold ReservationUseCase.ReturnKey
  split
  next _ _ _ w1 h1 =>
    rw [snd_of_eq h1, ReservationRepositoryImpl.reservation_GetByID_snd]; exact Or.inl rfl
  next _ w1 h1 =>
    rw [snd_of_eq h1, ReservationRepositoryImpl.reservation_GetByID_snd]; exact Or.inl rfl
  next _ r w1 h1 =>
    have hr := ReservationRepositoryImpl.GetByID_some h1
    have hw1 := snd_of_eq h1
    rw [ReservationRepositoryImpl.reservation_GetByID_snd] at hw1
    subst hw1
    split
    next _ _ _ w2 h2 =>
      rw [snd_of_eq h2, UserRepositoryImpl.user_GetByID_snd]; exact Or.inr (Or.inl rfl)
    next _ w2 h2 =>
      rw [snd_of_eq h2, UserRepositoryImpl.user_GetByID_snd]; exact Or.inr (Or.inl rfl)
    next _ u w2 h2 =>
      have hw2 := snd_of_eq h2
      rw [UserRepositoryImpl.user_GetByID_snd] at hw2
      subst hw2
      split
      · exact Or.inr (Or.inl rfl)
      · split
        · exact Or.inr (Or.inl rfl)
        · rename_i hact
          have hact : r.Status = ReservationStatusActive := by simpa using hact
          have hov := Reservation.IsOverdue_MarkAsReturned r now now
          rw [Reservation.MarkAsReturned_of_active now hact] at hov ⊢
          simp only at hov ⊢
          rw [hov]
          simp only [Bool.false_eq_true, if_false]
          exact Or.inr (Or.inr ⟨r, hr, hact, rfl⟩)

/-- The effect of `ReturnKey` on the reservations: none, or the loaded active reservation
is replaced by its returned version. -/
theorem ReservationUseCase.ReturnKey_reservations (now : Time) (rid uid : ObjectID)
    (w : World) :
    (ReservationUseCase.ReturnKey now rid uid w).2.reservations = w.reservations ∨
    ∃ r, w.reservations.find? (fun x => x.ID == rid) = some r ∧
      r.Status = ReservationStatusActive ∧
      (ReservationUseCase.ReturnKey now rid uid w).2.reservations =
        replaceOne Reservation.ID r.ID
          { r with ReturnedAt := some now, Status := ReservationStatusReturned, UpdatedAt := now }
          w.reservations := by
  rcases ReservationUseCase.ReturnKey_shape now rid uid w with h | h | ⟨r, hr, hact, h⟩
  · rw [h]; exact Or.inl rfl
  · rw [h]; exact Or.inl rfl
  · rw [h]
    rcases ReservationRepositoryImpl.Update_reservations
      { r with ReturnedAt := some now, Status := ReservationStatusReturned, UpdatedAt := now }
      ((w.enter (.ReservationGetByID rid)).enter (.UserGetByID uid)) with h2 | h2
    · exact Or.inl h2
    · exact Or.inr ⟨r, hr, hact, h2⟩

/-- `ReturnKey` never changes a user and never calls the user repository's `BlockUser`. -/
theorem ReservationUseCase.ReturnKey_never_blocks (now : Time) (rid uid : ObjectID)
    (w : World) :
    (ReservationUseCase.ReturnKey now rid uid w).2.users = w.users ∧
    ∀ id, Call.UserBlockUser id ∈ (ReservationUseCase.ReturnKey now rid uid w).2.log →
      Call.UserBlockUser id ∈ w.log := by
  rcases ReservationUseCase.ReturnKey_shape now rid uid w with h | h | ⟨r, hr, hact, h⟩
  · rw [h]
    refine ⟨rfl, ?_⟩
    intro id hid
    simpa using hid
  · rw [h]
    refine ⟨rfl, ?_⟩
    intro id hid
    simpa using hid
  · rw [h, ReservationRepositoryImpl.Update_users, ReservationRepositoryImpl.Update_log]
    refine ⟨rfl, ?_⟩
    intro id hid
    simpa using hid

/-- The effect of `ExtendReservation` on the reservations: none, or the loaded active
reservation is replaced by a copy with the new due time. -/
theorem ReservationUseCase.ExtendReservation_reservations (now : Time) (rid : ObjectID)
    (newDueTime : Time) (role : UserRole) (w : World) :
    (ReservationUseCase.ExtendReservation now rid newDueTime role w).2.reservations
        = w.reservations ∨
    ∃ r, w.reservations.find? (fun x => x.ID == rid) = some r ∧
      r.Status = ReservationStatusActive ∧
      (ReservationUseCase.ExtendReservation now rid newDueTime role w).2.reservations =
        replaceOne Reservation.ID r.ID { r with DueAt := newDueTime, UpdatedAt := now }
          w.reservations := by
  unfold ReservationUseCase.ExtendReservation
  split
  · exact Or.inl rfl
  · split
    next _ _ _ w1 h1 =>
      rw [snd_of_eq h1, ReservationRepositoryImpl.reservation_GetByID_snd]; exact Or.inl rfl
    next _ w1 h1 =>
      rw [snd_of_eq h1, ReservationRepositoryImpl.reservation_GetByID_snd]; exact Or.inl rfl
    next _ r w1 h1 =>
      have hr := ReservationRepositoryImpl.GetByID_some h1
      have hw1 := snd_of_eq h1
      rw [ReservationRepositoryImpl.reservation_GetByID_snd] at hw1
      subst hw1
      split
      · exact Or.inl rfl
      · rename_i hact
        have hact : r.Status = ReservationStatusActive := by
          simpa [Reservation.CanBeExtended] using hact
        split
        · exact Or.inl rfl
        · rcases ReservationRepositoryImpl.Update_reservations
            { r with DueAt := newDueTime, UpdatedAt := now }
            (w.enter (.ReservationGetByID rid)) with h | h
          · exact Or.inl h
          · exact Or.inr ⟨r, hr, hact, h⟩

/-- The loop of `ProcessOverdueReservations` only retires reservations of its input. -/
theorem ReservationUseCase.processOverdueLoop_retired (now : Time) (ids : List ObjectID)
    (xs : List Reservation) (hxs : ∀ x ∈ xs, x.ID ∈ ids) (w : World) :
    Retired ids w.reservations
      (ReservationUseCase.processOverdueLoop now xs w).2.reservations := by
  induction xs generalizing w with
  | nil => exact Retired.refl _
  | cons res rest ih =>
    have hrest : ∀ x ∈ rest, x.ID ∈ ids := fun x hx => hxs x (List.mem_cons_of_mem _ hx)
    unfold ReservationUseCase.processOverdueLoop
    split
    · rename_i hcond
      have hact : res.Status = ReservationStatusActive := by
        simp only [Bool.and_eq_true, beq_iff_eq] at hcond
        exact hcond.1
      rw [Reservation.MarkAsOverdue_of_active now hact]
      simp only
      split
      next _ err w1 h1 =>
        rcases ReservationRepositoryImpl.Update_reservations
          { res with Status := ReservationStatusOverdue, UpdatedAt := now } w with h | h
        · rw [h1] at h
          simp only at h
          rw [h]
          exact Retired.refl _
        · rw [h1] at h
          simp only at h
          rw [h]
          exact Retired.step
            ({ res with Status := ReservationStatusOverdue, UpdatedAt := now } : Reservation)
            overdue_ne_active (hxs res (List.mem_cons_self _ _)) (Retired.refl _)
      next _ w1 h1 =>
        have hw1 := ReservationRepositoryImpl.Update_ok h1
        simp only at hw1
        have hstep : ∀ rs2, Retired ids w1.reservations rs2 → Retired ids w.reservations rs2 := by
          intro rs2 h
          rw [hw1] at h
          exact Retired.step
            ({ res with Status := ReservationStatusOverdue, UpdatedAt := now } : Reservation)
            overdue_ne_active (hxs res (List.mem_cons_self _ _)) h
        split
        next _ err w2 h2 =>
          apply hstep
          rw [snd_of_eq h2, UserRepositoryImpl.BlockUser_reservations]
          exact Retired.refl _
        next _ w2 h2 =>
          apply hstep
          have hw2 : w2.reservations = w1.reservations := by
            rw [snd_of_eq h2, UserRepositoryImpl.BlockUser_reservations]
          have := ih hrest w2
          rw [hw2] at this
          exact this
    · exact ih hrest w

end usecase

namespace usecase

open entity repository spec

theorem ReservationUseCase.ProcessOverdueReservations_retired (now : Time) (w : World) :
    Retired
      ((w.reservations.filter
        (fun r => r.Status == ReservationStatusActive && decide (r.DueAt < now))).map
          Reservation.ID)
      w.reservations (ReservationUseCase.ProcessOverdueReservations now w).2.reservations := by
  unfold ReservationUseCase.ProcessOverdueReservations
  split
  next _ _ err w1 h1 =>
    rw [snd_of_eq h1, ReservationRepositoryImpl.GetOverdueReservations_snd]
    exact Retired.refl _
  next _ xs w1 h1 =>
    have hxs := ReservationRepositoryImpl.GetOverdueReservations_ok h1
    have hw1 := snd_of_eq h1
    rw [ReservationRepositoryImpl.GetOverdueReservations_snd] at hw1
    subst hw1
    subst hxs
    exact ReservationUseCase.processOverdueLoop_retired now
      ((w.reservations.filter
        (fun r => r.Status == ReservationStatusActive && decide (r.DueAt < now))).map
          Reservation.ID)
      (w.reservations.filter
        (fun r => r.Status == ReservationStatusActive && decide (r.DueAt < now)))
      (fun x hx => List.mem_map_of_mem _ hx) (w.enter .ReservationGetOverdueReservations)

/-- The loop of `BlockUser` only retires reservations of its input. -/
theorem UserUseCase.blockUserLoop_retired (now : Time) (ids : List ObjectID)
    (xs : List Reservation) (hxs : ∀ x ∈ xs, x.Status = ReservationStatusActive → x.ID ∈ ids)
    (w : World) :
    Retired ids w.reservations (UserUseCase.blockUserLoop now xs w).2.reservations := by
  induction xs generalizing w with
  | nil => exact Retired.refl _
  | cons res rest ih =>
    have hrest : ∀ x ∈ rest, x.Status = ReservationStatusActive → x.ID ∈ ids :=
      fun x hx => hxs x (List.mem_cons_of_mem _ hx)
    unfold UserUseCase.blockUserLoop
    split
    · rename_i hcond
      have hact : res.Status = ReservationStatusActive := by simpa using hcond
      have hid : res.ID ∈ ids := hxs res (List.mem_cons_self _ _) hact
      rw [Reservation.MarkAsOverdue_of_active now hact]
      simp only
      split
      next _ err w1 h1 =>
        rcases ReservationRepositoryImpl.Update_reservations
          { res with Status := ReservationStatusOverdue, UpdatedAt := now } w with h | h
        · rw [h1] at h
          simp only at h
          rw [h]
          exact Retired.refl _
        · rw [h1] at h
          simp only at h
          rw [h]
          exact Retired.step
            ({ res with Status := ReservationStatusOverdue, UpdatedAt := now } : Reservation)
            overdue_ne_active hid (Retired.refl _)
      next _ w1 h1 =>
        have hw1 := ReservationRepositoryImpl.Update_ok h1
        simp only at hw1
        have := ih hrest w1
        rw [hw1] at this
        exact Retired.step
          ({ res with Status := ReservationStatusOverdue, UpdatedAt := now } : Reservation)
          overdue_ne_active hid this
    · exact ih hrest w

theorem UserUseCase.BlockUser_retired (now : Time) (userID : ObjectID) (role : UserRole)
    (w : World) :
    Retired
      ((w.reservations.filter (fun r => r.Status == ReservationStatusActive)).map
        Reservation.ID)
      w.reservations (UserUseCase.BlockUser now userID role w).2.reservations := by
  unfold UserUseCase.BlockUser
  split
  · exact Retired.refl _
  · split
    next _ _ _ w1 h1 =>
      rw [snd_of_eq h1, UserRepositoryImpl.user_GetByID_snd]; exact Retired.refl _
    next _ w1 h1 =>
      rw [snd_of_eq h1, UserRepositoryImpl.user_GetByID_snd]; exact Retired.refl _
    next _ u w1 h1 =>
      have hw1 := snd_of_eq h1
      rw [UserRepositoryImpl.user_GetByID_snd] at hw1
      subst hw1
      split
      · exact Retired.refl _
      · split
        next _ err w2 h2 =>
          rw [snd_of_eq h2, UserRepositoryImpl.BlockUser_reservations]
          exact Retired.refl _
        next _ w2 h2 =>
          have hw2 : w2.reservations = w.reservations := by
            rw [snd_of_eq h2, UserRepositoryImpl.BlockUser_reservations]
            rfl
          split
          next _ _ err w3 h3 =>
            rw [snd_of_eq h3, ReservationRepositoryImpl.GetByUserID_snd]
            simp only [World.enter_reservations, hw2]
            exact Retired.refl _
          next _ xs w3 h3 =>
            have hxs := ReservationRepositoryImpl.GetByUserID_ok h3
            have hw3 : w3.reservations = w.reservations := by
              rw [snd_of_eq h3, ReservationRepositoryImpl.GetByUserID_snd]
              simp only [World.enter_reservations, hw2]
            have := UserUseCase.blockUserLoop_retired now
              ((w.reservations.filter (fun r => r.Status == ReservationStatusActive)).map
                Reservation.ID) xs
              (by
                intro x hx hact
                rw [hxs, hw2] at hx
                have hx2 := (List.mem_filter.mp hx).1
                exact List.mem_map_of_mem _
                  (List.mem_filter.mpr ⟨hx2, by simpa using hact⟩)) w3
            rw [hw3] at this
            exact this

/-- The effect of `CreateReservation` on the reservations: none, or the draft is appended
(under a generated `_id` when it has none) after both conflict checks have passed. -/
theorem ReservationUseCase.CreateReservation_reservations (now : Time) (draft : Reservation)
    (w : World) :
    (ReservationUseCase.CreateReservation now draft w).2.reservations = w.reservations ∨
    ∃ i, w.reservations.find?
        (fun r => r.KeyID == draft.KeyID && r.Status == ReservationStatusActive) = none ∧
      (w.reservations.filter (fun r => r.UserID == draft.UserID)).any
        (fun res => res.Status == ReservationStatusActive) = false ∧
      i ∉ w.reservations.map Reservation.ID ∧
      (ReservationUseCase.CreateReservation now draft w).2.reservations =
        w.reservations ++ [{ draft with ID := i }] := by
  unfold ReservationUseCase.CreateReservation
  split
  · exact Or.inl rfl
  split
  next _ _ _ w1 h1 =>
    rw [snd_of_eq h1, UserRepositoryImpl.user_GetByID_snd]; exact Or.inl rfl
  next _ w1 h1 =>
    rw [snd_of_eq h1, UserRepositoryImpl.user_GetByID_snd]; exact Or.inl rfl
  next _ user w1 h1 =>
  have hw1 := snd_of_eq h1
  rw [UserRepositoryImpl.user_GetByID_snd] at hw1
  subst hw1
  split
  · exact Or.inl rfl
  split
  next _ _ _ w2 h2 =>
    rw [snd_of_eq h2, KeyRepositoryImpl.key_GetByID_snd]; exact Or.inl rfl
  next _ w2 h2 =>
    rw [snd_of_eq h2, KeyRepositoryImpl.key_GetByID_snd]; exact Or.inl rfl
  next _ key w2 h2 =>
  have hw2 := snd_of_eq h2
  rw [KeyRepositoryImpl.key_GetByID_snd] at hw2
  subst hw2
  split
  · exact Or.inl rfl
  split
  next _ a err w3 h3 =>
  have hw3 := snd_of_eq h3
  rw [ReservationRepositoryImpl.GetActiveReservationByKey_snd] at hw3
  subst hw3
  split
  · exact Or.inl rfl
  rename_i herr
  split
  · exact Or.inl rfl
  rename_i ha
  have hfree := ReservationRepositoryImpl.GetActiveReservationByKey_free h3 herr ha
  split
  next _ _ err w4 h4 =>
    rw [snd_of_eq h4, ReservationRepositoryImpl.GetByUserID_snd]; exact Or.inl rfl
  next _ xs w4 h4 =>
  have hxs := ReservationRepositoryImpl.GetByUserID_ok h4
  have hw4 := snd_of_eq h4
  rw [ReservationRepositoryImpl.GetByUserID_snd] at hw4
  subst hw4
  subst hxs
  split
  · exact Or.inl rfl
  rename_i hany
  rcases ReservationRepositoryImpl.Create_reservations draft
    ((((w.enter (.UserGetByID draft.UserID)).enter (.KeyGetByID draft.KeyID)).enter
      (.ReservationGetActiveReservationByKey draft.KeyID)).enter
      (.ReservationGetByUserID draft.UserID)) with h | ⟨i, hi, h⟩
  · exact Or.inl h
  · refine Or.inr ⟨i, hfree, ?_, hi, h⟩
    simpa using hany

end usecase

namespace usecase

open entity repository spec

/-- A document whose `_id` is not among `ids` is found unchanged after `Retired ids`. -/
theorem Retired_find? {ids : List ObjectID} {rs rs2 : List Reservation}
    (h : Retired ids rs rs2) (i : ObjectID) (hi : i ∉ ids) :
    rs2.find? (fun x => x.ID == i) = rs.find? (fun x => x.ID == i) := by
  induction h with
  | refl rs => rfl
  | step doc _ hmem _ ih =>
    rw [ih]
    exact find?_replaceOne_ne Reservation.ID doc.ID i doc rfl
      (fun heq => hi (heq ▸ hmem)) _

/-- With pairwise distinct `_id`s, the `_id` of a stored reservation that is not active
is not the `_id` of any stored active reservation. -/
theorem id_not_mem_active_ids (rs : List Reservation)
    (hnd : (rs.map Reservation.ID).Nodup) (t : Reservation) (ht : t ∈ rs)
    (hterm : t.Status ≠ ReservationStatusActive) (p : Reservation → Bool)
    (hp : ∀ r, p r = true → r.Status = ReservationStatusActive) :
    t.ID ∉ (rs.filter p).map Reservation.ID := by
  intro hmem
  obtain ⟨x, hx, hid⟩ := List.mem_map.mp hmem
  have hx2 := List.mem_filter.mp hx
  have : x = t := List.inj_on_of_nodup_map hnd hx2.1 ht hid
  subst this
  exact hterm (hp x hx2.2)

end usecase

namespace usecase

open entity repository spec

/-- The `_id`s of the stored reservations, in order, are the same after `Retired`. -/
theorem Retired_map_ID {ids : List ObjectID} {rs rs2 : List Reservation}
    (h : Retired ids rs rs2) : rs2.map Reservation.ID = rs.map Reservation.ID := by
  induction h with
  | refl rs => rfl
  | step doc _ _ _ ih => rw [ih, map_replaceOne Reservation.ID doc.ID doc rfl]

/-- The reservations keep pairwise distinct `_id`s under every use case that writes
reservations. -/
theorem distinct_ids_preserved (w : World) (hnd : (w.reservations.map Reservation.ID).Nodup) :
    (∀ now draft, ((ReservationUseCase.CreateReservation now draft w).2.reservations.map
      Reservation.ID).Nodup) ∧
    (∀ now rid uid, ((ReservationUseCase.ReturnKey now rid uid w).2.reservations.map
      Reservation.ID).Nodup) ∧
    (∀ now rid due role,
      ((ReservationUseCase.ExtendReservation now rid due role w).2.reservations.map
        Reservation.ID).Nodup) ∧
    (∀ now, ((ReservationUseCase.ProcessOverdueReservations now w).2.reservations.map
      Reservation.ID).Nodup) ∧
    (∀ now uid role, ((UserUseCase.BlockUser now uid role w).2.reservations.map
      Reservation.ID).Nodup) := by
  refine ⟨?_, ?_, ?_, ?_, ?_⟩
  · intro now draft
    rcases ReservationUseCase.CreateReservation_reservations now draft w
      with h | ⟨i, -, -, hi, h⟩
    · rw [h]; exact hnd
    · rw [h, List.map_append, List.map_singleton]
      exact List.Nodup.append hnd (List.nodup_singleton _)
        (List.disjoint_singleton.mpr hi)
  · intro now rid uid
    rcases ReservationUseCase.ReturnKey_reservations now rid uid w with h | ⟨r, -, -, h⟩
    · rw [h]; exact hnd
    · rw [h, map_replaceOne Reservation.ID r.ID
        ({ r with ReturnedAt := some now, Status := ReservationStatusReturned,
                  UpdatedAt := now } : Reservation) rfl]
      exact hnd
  · intro now rid due role
    rcases ReservationUseCase.ExtendReservation_reservations now rid due role w
      with h | ⟨r, -, -, h⟩
    · rw [h]; exact hnd
    · rw [h, map_replaceOne Reservation.ID r.ID
        ({ r with DueAt := due, UpdatedAt := now } : Reservation) rfl]
      exact hnd
  · intro now
    rw [Retired_map_ID (ReservationUseCase.ProcessOverdueReservations_retired now w)]
    exact hnd
  · intro now uid role
    rw [Retired_map_ID (UserUseCase.BlockUser_retired now uid role w)]
    exact hnd

end usecase

/-! ## Lemmas on the sweep and on the block cascade -/

namespace repository

open entity

theorem find?_updateByID_self {α : Type} (getID : α → ObjectID) (id : ObjectID) (f : α → α)
    (hf : ∀ d, getID (f d) = getID d) (ds : List α) :
    (updateByID getID id f ds).find? (fun d => getID d == id) =
      (ds.find? (fun d => getID d == id)).map f := by
  induction ds with
  | nil => rfl
  | cons d ds ih =>
    unfold updateByID
    by_cases hd : getID d = id
    · rw [if_pos hd, List.find?_cons_of_pos _ (by simp [hf, hd]),
        List.find?_cons_of_pos _ (by simp [hd])]
      rfl
    · rw [if_neg hd, List.find?_cons_of_neg _ (by simp [hd]),
        List.find?_cons_of_neg _ (by simp [hd]), ih]

theorem find?_updateByID_ne {α : Type} (getID : α → ObjectID) (id i : ObjectID) (f : α → α)
    (hf : ∀ d, getID (f d) = getID d) (hne : id ≠ i) (ds : List α) :
    (updateByID getID id f ds).find? (fun d => getID d == i) =
      ds.find? (fun d => getID d == i) := by
  induction ds with
  | nil => rfl
  | cons d ds ih =>
    unfold updateByID
    by_cases hd : getID d = id
    · rw [if_pos hd, List.find?_cons_of_neg _ (by simp [hf, hd, hne]),
        List.find?_cons_of_neg _ (by simp [hd, hne])]
    · rw [if_neg hd]
      by_cases hi : getID d = i
      · rw [List.find?_cons_of_pos _ (by simp [hi]), List.find?_cons_of_pos _ (by simp [hi])]
      · rw [List.find?_cons_of_neg _ (by simp [hi]), List.find?_cons_of_neg _ (by simp [hi]), ih]

theorem UserRepositoryImpl.BlockUser_ok {id : ObjectID} {w w1 : World}
    (h : UserRepositoryImpl.BlockUser id w = (none, w1)) :
    w1 = { w.enter (.UserBlockUser id) with
      users := updateByID User.ID id (fun u => { u with IsBlocked := true }) w.users } := by
  unfold UserRepositoryImpl.BlockUser at h
  split at h
  · simp at h
  · rw [snd_of_eq h]

theorem UserRepositoryImpl.BlockUser_users (id : ObjectID) (w : World) :
    (UserRepositoryImpl.BlockUser id w).2.users = w.users ∨
    (UserRepositoryImpl.BlockUser id w).2.users =
      updateByID User.ID id (fun u => { u with IsBlocked := true }) w.users := by
  unfold UserRepositoryImpl.BlockUser
  split
  · exact Or.inl rfl
  · exact Or.inr rfl

theorem UserRepositoryImpl.BlockUser_log (id : ObjectID) (w : World) :
    (UserRepositoryImpl.BlockUser id w).2.log = w.log ++ [.UserBlockUser id] := by
  unfold UserRepositoryImpl.BlockUser
  split <;> rfl

end repository

namespace usecase

open entity repository spec

/-- Setting the blocked flag of one user keeps every blocked user blocked. -/
theorem Blocked_updateByID (uid id : ObjectID) (users : List User)
    (h : Blocked uid users = true) :
    Blocked uid
      (updateByID User.ID id (fun u => { u with IsBlocked := true }) users) = true := by
  unfold Blocked at h ⊢
  by_cases hid : id = uid
  · subst hid
    rw [find?_updateByID_self User.ID id (fun u => { u with IsBlocked := true })
      (fun _ => rfl)]
    cases hfind : users.find? (fun x => x.ID == id) with
    | none => rfl
    | some u => rfl
  · rw [find?_updateByID_ne User.ID id uid (fun u => { u with IsBlocked := true })
      (fun _ => rfl) hid]
    exact h

/-- After setting its blocked flag a user is blocked. -/
theorem Blocked_updateByID_self (id : ObjectID) (users : List User) :
    Blocked id
      (updateByID User.ID id (fun u => { u with IsBlocked := true }) users) = true := by
  unfold Blocked
  rw [find?_updateByID_self User.ID id (fun u => { u with IsBlocked := true })
      (fun _ => rfl)]
  cases hfind : users.find? (fun x => x.ID == id) with
  | none => rfl
  | some u => rfl

theorem Blocked_BlockUser (uid id : ObjectID) (w : World) (h : Blocked uid w.users = true) :
    Blocked uid (UserRepositoryImpl.BlockUser id w).2.users = true := by
  rcases UserRepositoryImpl.BlockUser_users id w with h1 | h1 <;> rw [h1]
  · exact h
  · exact Blocked_updateByID uid id _ h

/-- The sweep loop keeps every blocked user blocked. -/
theorem processOverdueLoop_Blocked (now : Time) (uid : ObjectID) (xs : List Reservation)
    (w : World) (h : Blocked uid w.users = true) :
    Blocked uid (ReservationUseCase.processOverdueLoop now xs w).2.users = true := by
  induction xs generalizing w with
  | nil => exact h
  | cons res rest ih =>
    unfold ReservationUseCase.processOverdueLoop
    split
    · split
      · exact h
      · split
        next _ err w1 h1 =>
          rw [snd_of_eq h1, ReservationRepositoryImpl.Update_users]; exact h
        next _ w1 h1 =>
          have hw1 : Blocked uid w1.users = true := by
            rw [snd_of_eq h1, ReservationRepositoryImpl.Update_users]; exact h
          split
          next _ err w2 h2 =>
            rw [snd_of_eq h2]; exact Blocked_BlockUser uid _ w1 hw1
          next _ w2 h2 =>
            apply ih
            rw [snd_of_eq h2]; exact Blocked_BlockUser uid _ w1 hw1
    · exact ih w h

end usecase

namespace usecase

open entity repository spec

theorem MarkAsOverdue_eq_overdueOf {r : Reservation} (now : Time)
    (h : r.Status = ReservationStatusActive) :
    r.MarkAsOverdue now = (overdueOf now r, none) :=
  Reservation.MarkAsOverdue_of_active now h

theorem overdueOf_not_pastDue (now now2 : Time) (r : Reservation) :
    pastDue now2 (overdueOf now r) = false := by
  simp [pastDue, overdueOf, overdue_ne_active]

theorem ReservationRepositoryImpl_Update_err {r : Reservation} {w w1 : World} {err : Error}
    (h : ReservationRepositoryImpl.Update r w = (some err, w1)) :
    w1 = w.enter (.ReservationUpdate r) := by
  unfold ReservationRepositoryImpl.Update at h
  split at h
  · rw [snd_of_eq h]
  · simp at h

/-- What the sweep loop has done to each past-due reservation of its input when it ends:
nothing (and the loop failed), or the stored reservation is its overdue version and the
owner is blocked, unless the loop failed at the `BlockUser` of that very owner. -/
theorem processOverdueLoop_each (now : Time) (xs : List Reservation) (w : World)
    (hnd : (xs.map Reservation.ID).Nodup)
    (hfind : ∀ x ∈ xs, w.reservations.find? (fun r => r.ID == x.ID) = some x) :
    ∀ x ∈ xs, pastDue now x = true →
      ((ReservationUseCase.processOverdueLoop now xs w).2.reservations.find?
          (fun r => r.ID == x.ID) = some x ∧
        (ReservationUseCase.processOverdueLoop now xs w).1 ≠ none) ∨
      ((ReservationUseCase.processOverdueLoop now xs w).2.reservations.find?
          (fun r => r.ID == x.ID) = some (overdueOf now x) ∧
        (Blocked x.UserID (ReservationUseCase.processOverdueLoop now xs w).2.users = true ∨
          ∃ e, (ReservationUseCase.processOverdueLoop now xs w).1 =
            some (Error.Errorf "failed to block user %s: %w" [x.UserID] e))) := by
  induction xs generalizing w with
  | nil => intro x hx; cases hx
  | cons res rest ih =>
    have hnd2 := List.nodup_cons.mp hnd
    have hres_notin : res.ID ∉ rest.map Reservation.ID := hnd2.1
    have hrest_ne : ∀ y ∈ rest, res.ID ≠ y.ID := by
      intro y hy heq
      exact hres_notin (heq ▸ List.mem_map_of_mem _ hy)
    have hfind_rest : ∀ y ∈ rest, w.reservations.find? (fun r => r.ID == y.ID) = some y :=
      fun y hy => hfind y (List.mem_cons_of_mem _ hy)
    have hfind_res := hfind res (List.mem_cons_self _ _)
    intro x hx hpd
    unfold ReservationUseCase.processOverdueLoop
    split
    · rename_i hcond
      have hact : res.Status = ReservationStatusActive := by
        simp only [Bool.and_eq_true, beq_iff_eq] at hcond
        exact hcond.1
      rw [MarkAsOverdue_eq_overdueOf now hact]
      simp only
      split
      next _ err w1 h1 =>
        have hw1 := ReservationRepositoryImpl_Update_err h1
        subst hw1
        exact Or.inl ⟨hfind x hx, by simp⟩
      next _ w1 h1 =>
        have hw1 := ReservationRepositoryImpl.Update_ok h1
        have hid : (overdueOf now res).ID = res.ID := rfl
        rw [hid] at hw1
        have hfind1_res : w1.reservations.find? (fun r => r.ID == res.ID)
            = some (overdueOf now res) := by
          rw [hw1]
          exact find?_replaceOne_self Reservation.ID res.ID (overdueOf now res) res rfl _
            hfind_res
        have hfind1_rest : ∀ y ∈ rest,
            w1.reservations.find? (fun r => r.ID == y.ID) = some y := by
          intro y hy
          rw [hw1, find?_replaceOne_ne Reservation.ID res.ID y.ID (overdueOf now res) rfl
            (hrest_ne y hy)]
          exact hfind_rest y hy
        split
        next _ err w2 h2 =>
          have hw2 : w2.reservations = w1.reservations := by
            rw [snd_of_eq h2, UserRepositoryImpl.BlockUser_reservations]
          rcases List.mem_cons.mp hx with rfl | hx
          · exact Or.inr ⟨by rw [hw2]; exact hfind1_res, Or.inr ⟨err, rfl⟩⟩
          · exact Or.inl ⟨by rw [hw2]; exact hfind1_rest x hx, by simp⟩
        next _ w2 h2 =>
          have hw2 := UserRepositoryImpl.BlockUser_ok h2
          have hw2r : w2.reservations = w1.reservations := by rw [hw2]; rfl
          have hfind2_rest : ∀ y ∈ rest,
              w2.reservations.find? (fun r => r.ID == y.ID) = some y := by
            intro y hy
            rw [hw2r]
            exact hfind1_rest y hy
          rcases List.mem_cons.mp hx with rfl | hx
          · refine Or.inr ⟨?_, Or.inl ?_⟩
            · rw [Retired_find? (ReservationUseCase.processOverdueLoop_retired now
                (rest.map Reservation.ID) rest (fun y hy => List.mem_map_of_mem _ hy) w2)
                x.ID hres_notin, hw2r]
              exact hfind1_res
            · apply processOverdueLoop_Blocked
              rw [hw2]
              exact Blocked_updateByID_self _ _
          · exact ih w2 hnd2.2 hfind2_rest x hx hpd
    · rename_i hcond
      rcases List.mem_cons.mp hx with rfl | hx
      · exact absurd hpd hcond
      · exact ih w hnd2.2 hfind_rest x hx hpd

end usecase

namespace usecase

open entity repository spec

/-- The writes of a sweep loop that ends without error. -/
theorem processOverdueLoop_log_ok (now : Time) (xs : List Reservation) (w : World)
    (hok : (ReservationUseCase.processOverdueLoop now xs w).1 = none) :
    (ReservationUseCase.processOverdueLoop now xs w).2.log =
      w.log ++ sweepCalls now (xs.filter (pastDue now)) := by
  induction xs generalizing w with
  | nil => simp [ReservationUseCase.processOverdueLoop, sweepCalls]
  | cons res rest ih =>
    unfold ReservationUseCase.processOverdueLoop at hok ⊢
    split at hok
    · rename_i hcond
      have hpd : pastDue now res = true := hcond
      have hact : res.Status = ReservationStatusActive := by
        simp only [Bool.and_eq_true, beq_iff_eq] at hcond
        exact hcond.1
      rw [if_pos hcond]
      rw [MarkAsOverdue_eq_overdueOf now hact] at hok ⊢
      simp only at hok ⊢
      split at hok
      next => simp at hok
      next _ w1 h1 =>
        have hlog1 : w1.log = w.log ++ [.ReservationUpdate (overdueOf now res)] := by
          rw [snd_of_eq h1, ReservationRepositoryImpl.Update_log]
        split at hok
        next => simp at hok
        next _ w2 h2 =>
          have hlog2 : w2.log = w1.log ++ [.UserBlockUser res.UserID] := by
            rw [snd_of_eq h2, UserRepositoryImpl.BlockUser_log]
            rfl
          rw [ih w2 hok, hlog2, hlog1, List.filter_cons_of_pos hpd]
          simp [sweepCalls]
    · rename_i hcond
      have hpd : ¬ pastDue now res = true := hcond
      rw [if_neg hcond, ih w hok, List.filter_cons_of_neg hpd]

theorem fault_enter_of_faults_nil {w : World} (h : w.faults = []) (c : Call) :
    (w.enter c).faults = [] := by
  simp [World.enter, h]

/-- With no failure left in the script the sweep loop ends without error. -/
theorem processOverdueLoop_ok_of_faults_nil (now : Time) (xs : List Reservation) (w : World)
    (hf : w.faults = []) :
    (ReservationUseCase.processOverdueLoop now xs w).1 = none ∧
    (ReservationUseCase.processOverdueLoop now xs w).2.faults = [] := by
  induction xs generalizing w with
  | nil => exact ⟨rfl, hf⟩
  | cons res rest ih =>
    unfold ReservationUseCase.processOverdueLoop
    split
    · rename_i hcond
      have hact : res.Status = ReservationStatusActive := by
        simp only [Bool.and_eq_true, beq_iff_eq] at hcond
        exact hcond.1
      rw [MarkAsOverdue_eq_overdueOf now hact]
      have hfault : w.fault = none := World.fault_of_faults_nil hf
      have hf1 := fault_enter_of_faults_nil hf (.ReservationUpdate (overdueOf now res))
      simp only [ReservationRepositoryImpl.Update, hfault, UserRepositoryImpl.BlockUser,
        World.fault, World.enter, hf, List.tail_nil]
      apply ih
      rfl
    · exact ih w hf

end usecase

namespace usecase

open entity repository spec

theorem mem_replaceOne {α : Type} (getID : α → ObjectID) (id : ObjectID) (doc b : α)
    (ds : List α) (h : b ∈ replaceOne getID id doc ds) : b = doc ∨ b ∈ ds := by
  induction ds with
  | nil => cases h
  | cons d ds ih =>
    unfold replaceOne at h
    split at h
    · rcases List.mem_cons.mp h with h | h
      · exact Or.inl h
      · exact Or.inr (List.mem_cons_of_mem _ h)
    · rcases List.mem_cons.mp h with h | h
      · exact Or.inr (h ▸ List.mem_cons_self _ _)
      · rcases ih h with h | h
        · exact Or.inl h
        · exact Or.inr (List.mem_cons_of_mem _ h)

/-- After `Retired` every stored reservation was stored before or is not active. -/
theorem Retired_mem {ids : List ObjectID} {rs rs2 : List Reservation}
    (h : Retired ids rs rs2) (b : Reservation) (hb : b ∈ rs2) :
    b ∈ rs ∨ b.Status ≠ ReservationStatusActive := by
  induction h with
  | refl rs => exact Or.inl hb
  | step doc hdoc _ _ ih =>
    rcases ih hb with h1 | h1
    · rcases mem_replaceOne Reservation.ID doc.ID doc b _ h1 with h2 | h2
      · exact Or.inr (h2 ▸ hdoc)
      · exact Or.inl h2
    · exact Or.inr h1

theorem nodup_filter_ids (rs : List Reservation) (p : Reservation → Bool)
    (hnd : (rs.map Reservation.ID).Nodup) : ((rs.filter p).map Reservation.ID).Nodup :=
  List.Nodup.sublist (List.Sublist.map _ (List.filter_sublist rs)) hnd

theorem id_not_mem_filter_ids (rs : List Reservation)
    (hnd : (rs.map Reservation.ID).Nodup) (t : Reservation) (ht : t ∈ rs)
    (p : Reservation → Bool) (hp : p t = false) :
    t.ID ∉ (rs.filter p).map Reservation.ID := by
  intro hmem
  obtain ⟨x, hx, hid⟩ := List.mem_map.mp hmem
  have hx2 := List.mem_filter.mp hx
  have : x = t := List.inj_on_of_nodup_map hnd hx2.1 ht hid
  subst this
  rw [hp] at hx2
  exact Bool.false_ne_true hx2.2

/-- What the sweep has done to each stored past-due reservation when it ends. -/
theorem ReservationUseCase.ProcessOverdueReservations_each (now : Time) (w : World)
    (hnd : (w.reservations.map Reservation.ID).Nodup) :
    ∀ x ∈ w.reservations, pastDue now x = true →
      ((ReservationUseCase.ProcessOverdueReservations now w).2.reservations.find?
          (fun r => r.ID == x.ID) = some x ∧
        (ReservationUseCase.ProcessOverdueReservations now w).1 ≠ none) ∨
      ((ReservationUseCase.ProcessOverdueReservations now w).2.reservations.find?
          (fun r => r.ID == x.ID) = some (overdueOf now x) ∧
        (Blocked x.UserID (ReservationUseCase.ProcessOverdueReservations now w).2.users = true ∨
          ∃ e, (ReservationUseCase.ProcessOverdueReservations now w).1 =
            some (Error.Errorf "failed to block user %s: %w" [x.UserID] e))) := by
  intro x hx hpd
  have hfindx := find?_of_mem_of_nodup Reservation.ID w.reservations hnd x hx
  unfold ReservationUseCase.ProcessOverdueReservations
  split
  next _ _ err w1 h1 =>
    rw [snd_of_eq h1, ReservationRepositoryImpl.GetOverdueReservations_snd]
    exact Or.inl ⟨hfindx, by simp⟩
  next _ xs w1 h1 =>
    have hxs := ReservationRepositoryImpl.GetOverdueReservations_ok h1
    have hw1 := snd_of_eq h1
    rw [ReservationRepositoryImpl.GetOverdueReservations_snd] at hw1
    subst hw1
    subst hxs
    exact processOverdueLoop_each now (w.reservations.filter (pastDue now))
      (w.enter .ReservationGetOverdueReservations)
      (nodup_filter_ids w.reservations _ hnd)
      (fun y hy => find?_of_mem_of_nodup Reservation.ID w.reservations hnd y
        (List.mem_filter.mp hy).1)
      x (List.mem_filter.mpr ⟨hx, hpd⟩) hpd

/-- The calls of a sweep that ends without error. -/
theorem ReservationUseCase.ProcessOverdueReservations_log_ok (now : Time) (w : World)
    (hok : (ReservationUseCase.ProcessOverdueReservations now w).1 = none) :
    (ReservationUseCase.ProcessOverdueReservations now w).2.log =
      w.log ++ [.ReservationGetOverdueReservations] ++
        sweepCalls now (w.reservations.filter (pastDue now)) := by
  unfold ReservationUseCase.ProcessOverdueReservations at hok ⊢
  split at hok
  next => simp at hok
  next _ xs w1 h1 =>
    have hxs := ReservationRepositoryImpl.GetOverdueReservations_ok h1
    have hw1 := snd_of_eq h1
    rw [ReservationRepositoryImpl.GetOverdueReservations_snd] at hw1
    subst hw1
    subst hxs
    have := processOverdueLoop_log_ok now (w.reservations.filter (pastDue now))
      (w.enter .ReservationGetOverdueReservations) hok
    refine this.trans ?_
    have hf : (w.reservations.filter (pastDue now)).filter (pastDue now)
        = w.reservations.filter (pastDue now) := by
      rw [List.filter_filter]
      simp
    rw [hf]
    rfl

/-- With no failure left in the script the sweep ends without error. -/
theorem ReservationUseCase.ProcessOverdueReservations_ok_of_faults_nil (now : Time)
    (w : World) (hf : w.faults = []) :
    (ReservationUseCase.ProcessOverdueReservations now w).1 = none := by
  unfold ReservationUseCase.ProcessOverdueReservations
  simp only [ReservationRepositoryImpl.GetOverdueReservations, World.fault_of_faults_nil hf]
  exact (processOverdueLoop_ok_of_faults_nil now _ _ (fault_enter_of_faults_nil hf _)).1

/-- The sweep keeps every blocked user blocked. -/
theorem ReservationUseCase.ProcessOverdueReservations_Blocked (now : Time) (uid : ObjectID)
    (w : World) (h : Blocked uid w.users = true) :
    Blocked uid (ReservationUseCase.ProcessOverdueReservations now w).2.users = true := by
  unfold ReservationUseCase.ProcessOverdueReservations
  split
  next _ _ err w1 h1 =>
    rw [snd_of_eq h1, ReservationRepositoryImpl.GetOverdueReservations_snd]; exact h
  next _ xs w1 h1 =>
    have hw1 := snd_of_eq h1
    rw [ReservationRepositoryImpl.GetOverdueReservations_snd] at hw1
    subst hw1
    exact processOverdueLoop_Blocked now uid xs _ h

/-- The sweep leaves every stored reservation that is not past due as it is. -/
theorem ReservationUseCase.ProcessOverdueReservations_keeps (now : Time) (w : World)
    (hnd : (w.reservations.map Reservation.ID).Nodup) (t : Reservation)
    (ht : t ∈ w.reservations) (hpd : pastDue now t = false) :
    (ReservationUseCase.ProcessOverdueReservations now w).2.reservations.find?
      (fun r => r.ID == t.ID) = some t := by
  rw [Retired_find? (ReservationUseCase.ProcessOverdueReservations_retired now w) t.ID
    (id_not_mem_filter_ids w.reservations hnd t ht _ hpd)]
  exact find?_of_mem_of_nodup Reservation.ID w.reservations hnd t ht

/-- After a sweep that ended without error, a stored reservation that is past due at a
later time was stored before the sweep and was not past due then. -/
theorem ReservationUseCase.ProcessOverdueReservations_none_left (now now2 : Time) (w : World)
    (hnd : (w.reservations.map Reservation.ID).Nodup)
    (hok : (ReservationUseCase.ProcessOverdueReservations now w).1 = none)
    (b : Reservation)
    (hb : b ∈ (ReservationUseCase.ProcessOverdueReservations now w).2.reservations)
    (hpd : pastDue now2 b = true) :
    b ∈ w.reservations ∧ pastDue now b = false := by
  have hact : b.Status = ReservationStatusActive := by
    simp only [pastDue, Bool.and_eq_true, beq_iff_eq] at hpd
    exact hpd.1
  have hmem : b ∈ w.reservations := by
    rcases Retired_mem (ReservationUseCase.ProcessOverdueReservations_retired now w) b hb
      with h | h
    · exact h
    · exact absurd hact h
  refine ⟨hmem, ?_⟩
  cases hb1 : pastDue now b with
  | false => rfl
  | true =>
    exfalso
    have hnd2 := (distinct_ids_preserved w hnd).2.2.2.1 now
    have hself := find?_of_mem_of_nodup Reservation.ID _ hnd2 b hb
    rcases ReservationUseCase.ProcessOverdueReservations_each now w hnd b hmem hb1
      with ⟨-, h⟩ | ⟨h, -⟩
    · exact h hok
    · rw [hself] at h
      have := congrArg Reservation.Status (Option.some.inj h)
      rw [hact] at this
      exact overdue_ne_active this.symm

end usecase
namespace usecase
open entity repository spec

/-- What `ExtendReservation` does to the store: nothing when it returns an error; otherwise
the reservation found by the id was active, the new due time is not before its due-at, and
it has been replaced by itself with the new due-at and updated-at. -/
theorem ReservationUseCase.ExtendReservation_effect (now : Time) (rid : ObjectID)
    (newDueTime : Time) (role : UserRole) (w : World) :
    ((ReservationUseCase.ExtendReservation now rid newDueTime role w).1 ≠ none ∧
      (ReservationUseCase.ExtendReservation now rid newDueTime role w).2.reservations
        = w.reservations) ∨
    ∃ r, w.reservations.find? (fun x => x.ID == rid) = some r ∧
      role = UserRoleAdmin ∧
      r.Status = ReservationStatusActive ∧
      r.DueAt ≤ newDueTime ∧
      (ReservationUseCase.ExtendReservation now rid newDueTime role w).1 = none ∧
      (ReservationUseCase.ExtendReservation now rid newDueTime role w).2.reservations =
        replaceOne Reservation.ID r.ID { r with DueAt := newDueTime, UpdatedAt := now }
          w.reservations := by
  unfold ReservationUseCase.ExtendReservation
  split
  · exact Or.inl ⟨by simp, rfl⟩
  · rename_i hrole
    have hrole : role = UserRoleAdmin := by simpa using hrole
    split
    next _ _ _ w1 h1 =>
      rw [snd_of_eq h1, ReservationRepositoryImpl.reservation_GetByID_snd]
      exact Or.inl ⟨by simp, rfl⟩
    next _ w1 h1 =>
      rw [snd_of_eq h1, ReservationRepositoryImpl.reservation_GetByID_snd]
      exact Or.inl ⟨by simp, rfl⟩
    next _ r w1 h1 =>
      have hr := ReservationRepositoryImpl.GetByID_some h1
      have hw1 := snd_of_eq h1
      rw [ReservationRepositoryImpl.reservation_GetByID_snd] at hw1
      subst hw1
      split
      · exact Or.inl ⟨by simp, rfl⟩
      · rename_i hact
        have hact : r.Status = ReservationStatusActive := by
          simpa [Reservation.CanBeExtended] using hact
        split
        · exact Or.inl ⟨by simp, rfl⟩
        · rename_i hdue
          cases hup : ReservationRepositoryImpl.Update
              { r with DueAt := newDueTime, UpdatedAt := now }
              (w.enter (.ReservationGetByID rid)) with
          | mk e w2 =>
            cases e with
            | some err =>
              left
              refine ⟨by simp, ?_⟩
              rw [ReservationRepositoryImpl_Update_err hup]
              rfl
            | none =>
              right
              exact ⟨r, hr, hrole, hact, not_lt.mp hdue, rfl,
                ReservationRepositoryImpl.Update_ok hup⟩

/-- An error of `ExtendReservation` leaves keys and users as they were. -/
theorem ReservationUseCase.ExtendReservation_keys_users (now : Time) (rid : ObjectID)
    (newDueTime : Time) (role : UserRole) (w : World) :
    (ReservationUseCase.ExtendReservation now rid newDueTime role w).2.keys = w.keys ∧
    (ReservationUseCase.ExtendReservation now rid newDueTime role w).2.users = w.users := by
  unfold ReservationUseCase.ExtendReservation
  split
  · exact ⟨rfl, rfl⟩
  · split
    next _ _ _ w1 h1 =>
      rw [snd_of_eq h1, ReservationRepositoryImpl.reservation_GetByID_snd]
      exact ⟨rfl, rfl⟩
    next _ w1 h1 =>
      rw [snd_of_eq h1, ReservationRepositoryImpl.reservation_GetByID_snd]
      exact ⟨rfl, rfl⟩
    next _ r w1 h1 =>
      have hw1 := snd_of_eq h1
      rw [ReservationRepositoryImpl.reservation_GetByID_snd] at hw1
      subst hw1
      split
      · exact ⟨rfl, rfl⟩
      · split
        · exact ⟨rfl, rfl⟩
        · rw [ReservationRepositoryImpl.Update_keys, ReservationRepositoryImpl.Update_users]
          exact ⟨rfl, rfl⟩

end usecase

namespace usecase
open entity repository spec

/-! ### The block cascade -/

theorem find?_cascadeStore_not_mem (now : Time) (i : ObjectID) (xs : List Reservation)
    (rs : List Reservation) (hi : i ∉ xs.map Reservation.ID) :
    (cascadeStore now xs rs).find? (fun d => d.ID == i) = rs.find? (fun d => d.ID == i) := by
  induction xs generalizing rs with
  | nil => rfl
  | cons x rest ih =>
    have hx : x.ID ≠ i := fun h => hi (by simp [h])
    have hrest : i ∉ rest.map Reservation.ID := fun h => hi (by simp at h ⊢; exact Or.inr h)
    unfold cascadeStore
    rw [List.foldl_cons]
    exact (ih _ hrest).trans
      (find?_replaceOne_ne Reservation.ID x.ID i (overdueOf now x) rfl hx rs)

theorem find?_cascadeStore_mem (now : Time) (xs : List Reservation) (rs : List Reservation)
    (hnd : (xs.map Reservation.ID).Nodup) (x : Reservation) (hx : x ∈ xs)
    (hfind : ∃ y, rs.find? (fun d => d.ID == x.ID) = some y) :
    (cascadeStore now xs rs).find? (fun d => d.ID == x.ID) = some (overdueOf now x) := by
  induction xs generalizing rs with
  | nil => cases hx
  | cons a rest ih =>
    rw [List.map_cons, List.nodup_cons] at hnd
    unfold cascadeStore
    rw [List.foldl_cons]
    rcases List.mem_cons.mp hx with h | h
    · subst h
      obtain ⟨y, hy⟩ := hfind
      exact (find?_cascadeStore_not_mem now x.ID rest _ hnd.1).trans
        (find?_replaceOne_self Reservation.ID x.ID (overdueOf now x) y rfl rs hy)
    · have hne : a.ID ≠ x.ID := fun e => hnd.1 (e ▸ List.mem_map_of_mem _ h)
      apply ih _ hnd.2 h
      obtain ⟨y, hy⟩ := hfind
      exact ⟨y, (find?_replaceOne_ne Reservation.ID a.ID x.ID (overdueOf now a) rfl hne rs).trans
        hy⟩

/-- A cascade loop that ends without error has called `Update` once for each active
reservation of its input, in order, with the overdue version, and nothing else. -/
theorem UserUseCase.blockUserLoop_ok (now : Time) (xs : List Reservation) (w : World)
    (hok : (UserUseCase.blockUserLoop now xs w).1 = none) :
    (UserUseCase.blockUserLoop now xs w).2.log =
      w.log ++ cascadeCalls now (xs.filter (fun r => r.Status == ReservationStatusActive)) ∧
    (UserUseCase.blockUserLoop now xs w).2.reservations =
      cascadeStore now (xs.filter (fun r => r.Status == ReservationStatusActive))
        w.reservations ∧
    (UserUseCase.blockUserLoop now xs w).2.users = w.users ∧
    (UserUseCase.blockUserLoop now xs w).2.keys = w.keys := by
  induction xs generalizing w with
  | nil => simp [UserUseCase.blockUserLoop, cascadeCalls, cascadeStore]
  | cons res rest ih =>
    unfold UserUseCase.blockUserLoop at hok ⊢
    split at hok
    · rename_i hcond
      have hact : res.Status = ReservationStatusActive := by simpa using hcond
      rw [if_pos hcond]
      rw [MarkAsOverdue_eq_overdueOf now hact] at hok ⊢
      simp only at hok ⊢
      split at hok
      next => simp at hok
      next _ w1 h1 =>
        have hlog1 : w1.log = w.log ++ [.ReservationUpdate (overdueOf now res)] := by
          rw [snd_of_eq h1, ReservationRepositoryImpl.Update_log]
        have hres1 := ReservationRepositoryImpl.Update_ok h1
        have husers1 : w1.users = w.users := by
          rw [snd_of_eq h1, ReservationRepositoryImpl.Update_users]
        have hkeys1 : w1.keys = w.keys := by
          rw [snd_of_eq h1, ReservationRepositoryImpl.Update_keys]
        have hfilt : (res :: rest).filter (fun r => r.Status == ReservationStatusActive) =
            res :: rest.filter (fun r => r.Status == ReservationStatusActive) :=
          List.filter_cons_of_pos hcond
        obtain ⟨i1, i2, i3, i4⟩ := ih w1 hok
        rw [i1, i2, i3, i4, hlog1, hres1, husers1, hkeys1, hfilt]
        simp [cascadeCalls, cascadeStore, overdueOf]
    · rename_i hcond
      have hfilt : (res :: rest).filter (fun r => r.Status == ReservationStatusActive) =
          rest.filter (fun r => r.Status == ReservationStatusActive) :=
        List.filter_cons_of_neg hcond
      rw [if_neg hcond, hfilt]
      exact ih w hok

/-- With no failure left in the script the cascade loop ends without error. -/
theorem UserUseCase.blockUserLoop_ok_of_faults_nil (now : Time) (xs : List Reservation)
    (w : World) (hf : w.faults = []) :
    (UserUseCase.blockUserLoop now xs w).1 = none := by
  induction xs generalizing w with
  | nil => rfl
  | cons res rest ih =>
    unfold UserUseCase.blockUserLoop
    split
    · rename_i hcond
      have hact : res.Status = ReservationStatusActive := by simpa using hcond
      rw [MarkAsOverdue_eq_overdueOf now hact]
      have hfault : w.fault = none := World.fault_of_faults_nil hf
      simp only [ReservationRepositoryImpl.Update, hfault]
      apply ih
      simp [World.enter, hf]
    · exact ih w hf

/-- The cascade loop does not touch the users. -/
theorem UserUseCase.blockUserLoop_users (now : Time) (xs : List Reservation) (w : World) :
    (UserUseCase.blockUserLoop now xs w).2.users = w.users := by
  induction xs generalizing w with
  | nil => rfl
  | cons res rest ih =>
    unfold UserUseCase.blockUserLoop
    split
    · split
      · rfl
      · split
        next _ _ _ _ err w1 h1 =>
          rw [snd_of_eq h1, ReservationRepositoryImpl.Update_users]
        next _ _ _ _ w1 h1 =>
          rw [ih w1, snd_of_eq h1, ReservationRepositoryImpl.Update_users]
    · exact ih w

end usecase

namespace usecase
open entity repository spec

theorem UserRepositoryImpl_GetByID_err {id : ObjectID} {w w1 : World} {u : Option User}
    {err : Error} (h : UserRepositoryImpl.GetByID id w = ((u, some err), w1)) :
    err = Error.ErrUserNotFound ∨ ∃ c, err = Error.Store c := by
  unfold UserRepositoryImpl.GetByID at h
  split at h
  next e hfault =>
    rcases World.fault_cases w with hn | ⟨c, hc⟩
    · rw [hn] at hfault; cases hfault
    · rw [hc] at hfault
      simp only [Prod.mk.injEq, Option.some.injEq] at h hfault
      exact Or.inr ⟨c, by rw [← h.1.2, ← hfault]⟩
  next =>
    split at h
    · simp only [Prod.mk.injEq, Option.some.injEq] at h
      exact Or.inl h.1.2.symm
    · simp at h

theorem UserRepositoryImpl_GetByID_ok {id : ObjectID} {w w1 : World} {u : User}
    {e : Option Error} (h : UserRepositoryImpl.GetByID id w = ((some u, e), w1)) :
    w.fault = none ∧ w.users.find? (fun x => x.ID == id) = some u := by
  unfold UserRepositoryImpl.GetByID at h
  split at h
  · simp at h
  next hfault =>
    split at h
    · simp at h
    next u2 hfind =>
      simp only [Prod.mk.injEq, Option.some.injEq] at h
      exact ⟨hfault, by rw [hfind, h.1.1]⟩

theorem UserRepositoryImpl_BlockUser_err {id : ObjectID} {w w1 : World} {err : Error}
    (h : UserRepositoryImpl.BlockUser id w = (some err, w1)) : ∃ c, err = Error.Store c := by
  unfold UserRepositoryImpl.BlockUser at h
  split at h
  next e hfault =>
    rcases World.fault_cases w with hn | ⟨c, hc⟩
    · rw [hn] at hfault; cases hfault
    · rw [hc] at hfault
      simp only [Prod.mk.injEq, Option.some.injEq] at h hfault
      exact ⟨c, by rw [← h.1, ← hfault]⟩
  next => simp at h

/-- What `BlockUser` has done when it returns no error. -/
theorem UserUseCase.BlockUser_ok_shape (now : Time) (userID : ObjectID) (role : UserRole)
    (w : World)
    (hok : (UserUseCase.BlockUser now userID role w).1 = none) :
    role = UserRoleAdmin ∧
    (∃ u, w.users.find? (fun x => x.ID == userID) = some u ∧ u.IsBlocked = false) ∧
    (UserUseCase.BlockUser now userID role w).2.log =
      w.log ++ [.UserGetByID userID, .UserBlockUser userID, .ReservationGetByUserID userID] ++
        cascadeCalls now (activeOf userID w.reservations) ∧
    (UserUseCase.BlockUser now userID role w).2.reservations =
      cascadeStore now (activeOf userID w.reservations) w.reservations ∧
    (UserUseCase.BlockUser now userID role w).2.users =
      updateByID User.ID userID (fun u => { u with IsBlocked := true }) w.users ∧
    (UserUseCase.BlockUser now userID role w).2.keys = w.keys := by
  unfold UserUseCase.BlockUser at hok ⊢
  split at hok
  · simp at hok
  rename_i hrole
  have hrole2 : role = UserRoleAdmin := by simpa using hrole
  rw [if_neg hrole]
  split at hok
  · simp at hok
  · simp at hok
  next _ u w1 h1 =>
    have hu := (UserRepositoryImpl_GetByID_ok h1).2
    have hw1 := snd_of_eq h1
    rw [UserRepositoryImpl.user_GetByID_snd] at hw1
    subst hw1
    split at hok
    · simp at hok
    rename_i hblocked
    rw [if_neg hblocked]
    split at hok
    · simp at hok
    next _ w2 h2 =>
      have hw2 := UserRepositoryImpl.BlockUser_ok h2
      split at hok
      · simp at hok
      next _ xs w3 h3 =>
        have hxs := ReservationRepositoryImpl.GetByUserID_ok h3
        have hw3 := snd_of_eq h3
        rw [ReservationRepositoryImpl.GetByUserID_snd] at hw3
        obtain ⟨i1, i2, i3, i4⟩ := UserUseCase.blockUserLoop_ok now xs w3 hok
        refine ⟨hrole2, ⟨u, hu, by simpa using hblocked⟩, ?_, ?_, ?_, ?_⟩
        · rw [i1, hxs, hw3, hw2]
          simp [World.enter, activeOf]
        · rw [i2, hxs, hw3, hw2]
          simp [World.enter, activeOf]
        · rw [i3, hw3, hw2]
          simp [World.enter]
        · rw [i4, hw3, hw2]
          simp [World.enter]

end usecase

namespace usecase
open entity repository spec

theorem activeOf_eq (uid : ObjectID) (rs : List Reservation) :
    activeOf uid rs =
      rs.filter (fun r => r.UserID == uid && r.Status == ReservationStatusActive) := by
  unfold activeOf
  rw [List.filter_filter]
  congr 1
  funext r
  exact Bool.and_comm _ _

theorem mem_activeOf (uid : ObjectID) (rs : List Reservation) (r : Reservation) :
    r ∈ activeOf uid rs ↔
      r ∈ rs ∧ r.UserID = uid ∧ r.Status = ReservationStatusActive := by
  rw [activeOf_eq]
  simp [List.mem_filter]

/-- In a store with distinct ids the block cascade of user `uid` replaces each active
reservation of `uid` by its overdue version and leaves every other reservation. -/
theorem find?_cascadeStore_activeOf (now : Time) (uid : ObjectID) (rs : List Reservation)
    (hnd : (rs.map Reservation.ID).Nodup) (r : Reservation) (hr : r ∈ rs) :
    (cascadeStore now (activeOf uid rs) rs).find? (fun d => d.ID == r.ID) =
      some (if r.UserID = uid ∧ r.Status = ReservationStatusActive then overdueOf now r
        else r) := by
  have hfind := find?_of_mem_of_nodup Reservation.ID rs hnd r hr
  by_cases hc : r.UserID = uid ∧ r.Status = ReservationStatusActive
  · rw [if_pos hc]
    apply find?_cascadeStore_mem now _ rs _ r ((mem_activeOf uid rs r).mpr ⟨hr, hc⟩)
      ⟨r, hfind⟩
    rw [activeOf_eq]
    exact nodup_filter_ids rs _ hnd
  · rw [if_neg hc, find?_cascadeStore_not_mem now r.ID _ rs, hfind]
    rw [activeOf_eq]
    apply id_not_mem_filter_ids rs hnd r hr
    simp only [Bool.and_eq_false_iff, beq_eq_false_iff_ne, ne_eq]
    by_cases hu : r.UserID = uid
    · exact Or.inr (fun hs => hc ⟨hu, hs⟩)
    · exact Or.inl hu

end usecase

namespace usecase
open entity repository spec

/-- A cascade loop that returns an error has failed at the `Update` of one active
reservation of its input, after retiring the active ones before it. -/
theorem UserUseCase.blockUserLoop_failed (now : Time) (xs : List Reservation) (w : World)
    (err : Error) (h : (UserUseCase.blockUserLoop now xs w).1 = some err) :
    ∃ pre res post e,
      xs.filter (fun r => r.Status == ReservationStatusActive) = pre ++ res :: post ∧
      err = Error.Errorf "failed to update reservation %s: %w" [res.ID] e ∧
      (UserUseCase.blockUserLoop now xs w).2.reservations =
        cascadeStore now pre w.reservations := by
  induction xs generalizing w with
  | nil => simp [UserUseCase.blockUserLoop] at h
  | cons x rest ih =>
    unfold UserUseCase.blockUserLoop at h ⊢
    split at h
    · rename_i hcond
      have hact : x.Status = ReservationStatusActive := by simpa using hcond
      have hfilt : (x :: rest).filter (fun r => r.Status == ReservationStatusActive) =
          x :: rest.filter (fun r => r.Status == ReservationStatusActive) :=
        List.filter_cons_of_pos hcond
      rw [if_pos hcond]
      rw [MarkAsOverdue_eq_overdueOf now hact] at h ⊢
      simp only at h ⊢
      split at h
      next e w1 h1 =>
        refine ⟨[], x, rest.filter (fun r => r.Status == ReservationStatusActive), e, ?_, ?_, ?_⟩
        · rw [hfilt]; rfl
        · simp only [Option.some.injEq] at h
          exact h.symm
        · rw [ReservationRepositoryImpl_Update_err h1]
          rfl
      next _ w1 h1 =>
        obtain ⟨pre, res, post, e, i1, i2, i3⟩ := ih w1 h
        refine ⟨x :: pre, res, post, e, ?_, i2, ?_⟩
        · rw [hfilt, i1]; rfl
        · rw [i3, ReservationRepositoryImpl.Update_ok h1]
          rfl
    · rename_i hcond
      have hfilt : (x :: rest).filter (fun r => r.Status == ReservationStatusActive) =
          rest.filter (fun r => r.Status == ReservationStatusActive) :=
        List.filter_cons_of_neg hcond
      rw [if_neg hcond, hfilt]
      exact ih w h

/-- A `BlockUser` that returns a wrapped error has blocked the user before: the caller
was an admin, the user was stored and not blocked, and the user is now stored blocked. -/
theorem UserUseCase.BlockUser_failed_in_cascade (now : Time) (userID : ObjectID)
    (role : UserRole) (w : World) (f : String) (ids : List ObjectID) (e : Error)
    (h : (UserUseCase.BlockUser now userID role w).1 = some (Error.Errorf f ids e)) :
    role = UserRoleAdmin ∧
    (∃ u, w.users.find? (fun x => x.ID == userID) = some u ∧ u.IsBlocked = false) ∧
    (UserUseCase.BlockUser now userID role w).2.users =
      updateByID User.ID userID (fun u => { u with IsBlocked := true }) w.users ∧
    ((∃ pre res post, activeOf userID w.reservations = pre ++ res :: post ∧
        ids = [res.ID] ∧
        (UserUseCase.BlockUser now userID role w).2.reservations =
          cascadeStore now pre w.reservations) ∨
      (ids = [] ∧ (UserUseCase.BlockUser now userID role w).2.reservations = w.reservations))
    := by
  unfold UserUseCase.BlockUser at h ⊢
  split at h
  · simp at h
  rename_i hrole
  have hrole2 : role = UserRoleAdmin := by simpa using hrole
  rw [if_neg hrole]
  split at h
  next _ _ err w1 h1 =>
    rcases UserRepositoryImpl_GetByID_err h1 with he | ⟨c, he⟩ <;> subst he <;> simp at h
  · simp at h
  next _ u w1 h1 =>
    have hu := (UserRepositoryImpl_GetByID_ok h1).2
    have hw1 := snd_of_eq h1
    rw [UserRepositoryImpl.user_GetByID_snd] at hw1
    subst hw1
    split at h
    · simp at h
    rename_i hblocked
    rw [if_neg hblocked]
    split at h
    next _ err w2 h2 =>
      obtain ⟨c, he⟩ := UserRepositoryImpl_BlockUser_err h2
      subst he
      simp at h
    next _ w2 h2 =>
      have hw2 := UserRepositoryImpl.BlockUser_ok h2
      split at h
      next _ _ err w3 h3 =>
        have hw3 := snd_of_eq h3
        rw [ReservationRepositoryImpl.GetByUserID_snd] at hw3
        simp only [Option.some.injEq, Error.Errorf.injEq] at h
        refine ⟨hrole2, ⟨u, hu, by simpa using hblocked⟩, ?_, Or.inr ⟨h.2.1.symm, ?_⟩⟩
        · rw [hw3, hw2]; rfl
        · rw [hw3, hw2]; rfl
      next _ xs w3 h3 =>
        have hxs := ReservationRepositoryImpl.GetByUserID_ok h3
        have hw3 := snd_of_eq h3
        rw [ReservationRepositoryImpl.GetByUserID_snd] at hw3
        obtain ⟨pre, res, post, e2, i1, i2, i3⟩ :=
          UserUseCase.blockUserLoop_failed now xs w3 _ h
        simp only [Error.Errorf.injEq] at i2
        refine ⟨hrole2, ⟨u, hu, by simpa using hblocked⟩, ?_,
          Or.inl ⟨pre, res, post, ?_, i2.2.1, ?_⟩⟩
        · rw [UserUseCase.blockUserLoop_users, hw3, hw2]; rfl
        · rw [← i1, hxs, hw2]; rfl
        · rw [i3, hw3, hw2]; rfl

/-- A user that is stored blocked is refused by `BlockUser` after the single read. -/
theorem UserUseCase.BlockUser_of_blocked (now : Time) (userID : ObjectID) (w : World) (u : User)
    (hf : w.fault = none) (hu : w.users.find? (fun x => x.ID == userID) = some u)
    (hb : u.IsBlocked = true) :
    UserUseCase.BlockUser now userID UserRoleAdmin w =
      (some (Error.New "user is already blocked"), w.enter (.UserGetByID userID)) := by
  simp [UserUseCase.BlockUser, UserRepositoryImpl.GetByID, hf, hu, hb]

end usecase

namespace usecase
open entity repository spec

/-! ### Successful creation and return -/

theorem ReservationRepositoryImpl_Create_ok (r : Reservation) (w : World)
    (h : (ReservationRepositoryImpl.Create r w).1 = none) :
    ∃ i, i ∉ w.reservations.map Reservation.ID ∧
      (ReservationRepositoryImpl.Create r w).2.reservations =
        w.reservations ++ [{ r with ID := i }] := by
  unfold ReservationRepositoryImpl.Create at h ⊢
  split at h
  · simp at h
  · simp only at h ⊢
    unfold insertOne at h ⊢
    split
    · exact ⟨_, freshID_not_mem _, rfl⟩
    · rename_i hnil
      rw [if_neg hnil] at h
      split
      · rename_i hdup
        rw [if_pos hdup] at h
        simp at h
      · rename_i hdup
        refine ⟨r.ID, ?_, rfl⟩
        intro hmem
        obtain ⟨x, hx, hid⟩ := List.mem_map.mp hmem
        exact hdup (List.any_eq_true.mpr ⟨x, hx, by simp [hid]⟩)

/-- A successful `CreateReservation` has appended the draft to the reservations, under
an `_id` that no stored reservation had. -/
theorem ReservationUseCase.CreateReservation_ok (now : Time) (draft : Reservation) (w : World)
    (hok : (ReservationUseCase.CreateReservation now draft w).1 = none) :
    ∃ i, i ∉ w.reservations.map Reservation.ID ∧
      (ReservationUseCase.CreateReservation now draft w).2.reservations =
        w.reservations ++ [{ draft with ID := i }] := by
  unfold ReservationUseCase.CreateReservation at hok ⊢
  split at hok
  · simp at hok
  split at hok
  next => simp at hok
  next => simp at hok
  next _ user w1 h1 =>
  have hw1 := snd_of_eq h1
  rw [UserRepositoryImpl.user_GetByID_snd] at hw1
  subst hw1
  split at hok
  · simp at hok
  rename_i hb
  rw [if_neg hb]
  split at hok
  next => simp at hok
  next => simp at hok
  next _ key w2 h2 =>
  have hw2 := snd_of_eq h2
  rw [KeyRepositoryImpl.key_GetByID_snd] at hw2
  subst hw2
  split at hok
  · simp at hok
  rename_i hk
  rw [if_neg hk]
  split at hok
  next _ a err w3 h3 =>
  have hw3 := snd_of_eq h3
  rw [ReservationRepositoryImpl.GetActiveReservationByKey_snd] at hw3
  subst hw3
  split at hok
  · rename_i herr
    have herr2 : err = none := hok
    subst herr2
    simp at herr
  rename_i herr
  rw [if_neg herr]
  split at hok
  · simp at hok
  rename_i ha
  rw [if_neg ha]
  split at hok
  next => simp at hok
  next _ xs w4 h4 =>
  have hw4 := snd_of_eq h4
  rw [ReservationRepositoryImpl.GetByUserID_snd] at hw4
  subst hw4
  split at hok
  · simp at hok
  rename_i hany
  rw [if_neg hany]
  exact ReservationRepositoryImpl_Create_ok draft _ hok

/-- A successful `ReturnKey` has found an active reservation under the id and replaced it
by its returned version. -/
theorem ReservationUseCase.ReturnKey_ok (now : Time) (rid uid : ObjectID) (w : World)
    (hok : (ReservationUseCase.ReturnKey now rid uid w).1 = none) :
    ∃ r, w.reservations.find? (fun x => x.ID == rid) = some r ∧
      r.Status = ReservationStatusActive ∧
      (ReservationUseCase.ReturnKey now rid uid w).2.reservations =
        replaceOne Reservation.ID r.ID (returnedOf now r) w.reservations := by
  unfold ReservationUseCase.ReturnKey at hok ⊢
  split at hok
  · simp at hok
  · simp at hok
  next _ r w1 h1 =>
    have hr := ReservationRepositoryImpl.GetByID_some h1
    have hw1 := snd_of_eq h1
    rw [ReservationRepositoryImpl.reservation_GetByID_snd] at hw1
    subst hw1
    split at hok
    · simp at hok
    · simp at hok
    next _ u w2 h2 =>
      have hw2 := snd_of_eq h2
      rw [UserRepositoryImpl.user_GetByID_snd] at hw2
      subst hw2
      split at hok
      · simp at hok
      rename_i hauth
      rw [if_neg hauth]
      split at hok
      · simp at hok
      rename_i hact0
      rw [if_neg hact0]
      have hact : r.Status = ReservationStatusActive := by simpa using hact0
      have hov := Reservation.IsOverdue_MarkAsReturned r now now
      rw [Reservation.MarkAsReturned_of_active now hact] at hov hok ⊢
      simp only at hov hok ⊢
      rw [hov] at hok ⊢
      simp only [Bool.false_eq_true, if_false] at hok ⊢
      refine ⟨r, hr, hact, ?_⟩
      cases hup : ReservationRepositoryImpl.Update
          { r with ReturnedAt := some now, Status := ReservationStatusReturned,
                   UpdatedAt := now }
          ((w.enter (.ReservationGetByID rid)).enter (.UserGetByID uid)) with
      | mk e w3 =>
        rw [hup] at hok
        simp only at hok
        subst hok
        exact ReservationRepositoryImpl.Update_ok hup

end usecase

namespace repository
open entity

/-! ### Key repository calls -/

theorem KeyRepositoryImpl.GetByName_snd (name : String) (w : World) :
    (KeyRepositoryImpl.GetByName name w).2 = w.enter (.KeyGetByName name) := by
  unfold KeyRepositoryImpl.GetByName
  repeat' split
  all_goals rfl

/-- When `GetByName` yields no key and no error other than `ErrKeyNotFound`, no stored key
has the name. -/
theorem KeyRepositoryImpl.GetByName_free {name : String} {w w1 : World} {a : Option Key}
    {err : Option Error}
    (h : KeyRepositoryImpl.GetByName name w = ((a, err), w1))
    (herr : ¬ (err.isSome && err != some Error.ErrKeyNotFound) = true)
    (ha : ¬ a.isSome = true) :
    w.keys.find? (fun k => k.Name == name) = none := by
  unfold KeyRepositoryImpl.GetByName at h
  rcases w.fault_cases with hf | ⟨c, hf⟩
  · rw [hf] at h
    simp only at h
    split at h
    · assumption
    · simp only [Prod.mk.injEq] at h
      obtain ⟨⟨rfl, -⟩, -⟩ := h
      simp at ha
  · rw [hf] at h
    simp only [Prod.mk.injEq] at h
    obtain ⟨⟨-, rfl⟩, -⟩ := h
    simp at herr

theorem KeyRepositoryImpl.key_GetByID_ok {id : ObjectID} {w w1 : World} {k : Key}
    {e : Option Error} (h : KeyRepositoryImpl.GetByID id w = ((some k, e), w1)) :
    w.fault = none ∧ w.keys.find? (fun x => x.ID == id) = some k := by
  unfold KeyRepositoryImpl.GetByID at h
  split at h
  · simp at h
  next hfault =>
    split at h
    · simp at h
    next k2 hfind =>
      simp only [Prod.mk.injEq, Option.some.injEq] at h
      exact ⟨hfault, by rw [hfind, h.1.1]⟩

theorem KeyRepositoryImpl.key_Create_log (k : Key) (w : World) :
    (KeyRepositoryImpl.Create k w).2.log = w.log ++ [.KeyCreate k] := by
  unfold KeyRepositoryImpl.Create
  split <;> rfl

/-- The call `Create` of the key repository fails and leaves the keys, or succeeds and
appends the key under an `_id` that no stored key has. -/
theorem KeyRepositoryImpl.key_Create_effect (k : Key) (w : World) :
    ((KeyRepositoryImpl.Create k w).1 ≠ none ∧
      (KeyRepositoryImpl.Create k w).2.keys = w.keys) ∨
    ((KeyRepositoryImpl.Create k w).1 = none ∧
      ∃ i, i ∉ w.keys.map Key.ID ∧
        (KeyRepositoryImpl.Create k w).2.keys = w.keys ++ [{ k with ID := i }]) := by
  unfold KeyRepositoryImpl.Create
  split
  · exact Or.inl ⟨by simp, rfl⟩
  · simp only
    unfold insertOne
    split
    · exact Or.inr ⟨rfl, _, freshID_not_mem _, rfl⟩
    · split
      · exact Or.inl ⟨by simp, rfl⟩
      · rename_i hdup
        refine Or.inr ⟨rfl, k.ID, ?_, rfl⟩
        intro hmem
        obtain ⟨x, hx, hid⟩ := List.mem_map.mp hmem
        exact hdup (List.any_eq_true.mpr ⟨x, hx, by simp [hid]⟩)

theorem KeyRepositoryImpl.key_Update_log (k : Key) (w : World) :
    (KeyRepositoryImpl.Update k w).2.log = w.log ++ [.KeyUpdate k] := by
  unfold KeyRepositoryImpl.Update
  split <;> rfl

/-- The call `Update` of the key repository fails and leaves the keys, or succeeds and
replaces the stored key of the same `_id`. -/
theorem KeyRepositoryImpl.key_Update_effect (k : Key) (w : World) :
    ((KeyRepositoryImpl.Update k w).1 ≠ none ∧
      (KeyRepositoryImpl.Update k w).2.keys = w.keys) ∨
    ((KeyRepositoryImpl.Update k w).1 = none ∧
      (KeyRepositoryImpl.Update k w).2.keys = replaceOne Key.ID k.ID k w.keys) := by
  unfold KeyRepositoryImpl.Update
  split
  · exact Or.inl ⟨by simp, rfl⟩
  · exact Or.inr ⟨rfl, rfl⟩

end repository

namespace usecase
open entity repository spec

/-- What `CreateKey` does: it returns an error and leaves the keys, or it returns none
after the read `GetByName` found no key of the name and `Create` appended the draft with
both timestamps set to the current time. -/
theorem KeyUseCase.CreateKey_effect (now : Time) (key : Key) (role : UserRole) (w : World) :
    ((KeyUseCase.CreateKey now key role w).1 ≠ none ∧
      (KeyUseCase.CreateKey now key role w).2.keys = w.keys) ∨
    (role = UserRoleAdmin ∧ key.ValidateForCreation = none ∧
      w.keys.find? (fun k => k.Name == key.Name) = none ∧
      (KeyUseCase.CreateKey now key role w).1 = none ∧
      (KeyUseCase.CreateKey now key role w).2.log =
        w.log ++ [.KeyGetByName key.Name,
          .KeyCreate { key with CreatedAt := now, UpdatedAt := now }] ∧
      ∃ i, i ∉ w.keys.map Key.ID ∧
        (KeyUseCase.CreateKey now key role w).2.keys =
          w.keys ++ [{ key with ID := i, CreatedAt := now, UpdatedAt := now }]) := by
  unfold KeyUseCase.CreateKey
  split
  · exact Or.inl ⟨by simp, rfl⟩
  rename_i hrole
  have hrole2 : role = UserRoleAdmin := by simpa using hrole
  split
  · exact Or.inl ⟨by simp, rfl⟩
  rename_i hval
  split
  next _ a err w1 h1 =>
  have hw1 := snd_of_eq h1
  rw [KeyRepositoryImpl.GetByName_snd] at hw1
  subst hw1
  split
  · rename_i herr
    refine Or.inl ⟨?_, rfl⟩
    intro hnone
    simp only at hnone
    subst hnone
    simp at herr
  rename_i herr
  split
  · exact Or.inl ⟨by simp, rfl⟩
  rename_i ha
  have hfree := KeyRepositoryImpl.GetByName_free h1 herr ha
  rcases KeyRepositoryImpl.key_Create_effect { key with CreatedAt := now, UpdatedAt := now }
    (w.enter (.KeyGetByName key.Name)) with ⟨h2, h3⟩ | ⟨h2, i, hi, h3⟩
  · exact Or.inl ⟨h2, h3⟩
  · refine Or.inr ⟨hrole2, hval, hfree, h2, ?_, i, hi, h3⟩
    rw [KeyRepositoryImpl.key_Create_log]
    simp [World.enter]

/-- What `UpdateKey` does: it returns an error and leaves the keys, or it returns none
after `GetByID` found the stored key of the draft's id and `Update` replaced it by the
record built from the stored key and the draft. -/
theorem KeyUseCase.UpdateKey_effect (now : Time) (key : Key) (role : UserRole) (w : World) :
    ((KeyUseCase.UpdateKey now key role w).1 ≠ none ∧
      (KeyUseCase.UpdateKey now key role w).2.keys = w.keys) ∨
    (role = UserRoleAdmin ∧
      ∃ existingKey, w.keys.find? (fun k => k.ID == key.ID) = some existingKey ∧
        (KeyUseCase.UpdateKey now key role w).1 = none ∧
        (KeyUseCase.UpdateKey now key role w).2.keys =
          replaceOne Key.ID existingKey.ID (updatedKey now existingKey key) w.keys) := by
  unfold KeyUseCase.UpdateKey
  split
  · exact Or.inl ⟨by simp, rfl⟩
  rename_i hrole
  have hrole2 : role = UserRoleAdmin := by simpa using hrole
  split
  next _ _ _ w1 h1 =>
    rw [snd_of_eq h1, KeyRepositoryImpl.key_GetByID_snd]
    exact Or.inl ⟨by simp, rfl⟩
  next _ w1 h1 =>
    rw [snd_of_eq h1, KeyRepositoryImpl.key_GetByID_snd]
    exact Or.inl ⟨by simp, rfl⟩
  next _ existingKey w1 h1 =>
    have hfind := (KeyRepositoryImpl.key_GetByID_ok h1).2
    have hw1 := snd_of_eq h1
    rw [KeyRepositoryImpl.key_GetByID_snd] at hw1
    subst hw1
    simp only
    split
    · exact Or.inl ⟨by simp, rfl⟩
    · rcases KeyRepositoryImpl.key_Update_effect (updatedKey now existingKey key)
        (w.enter (.KeyGetByID key.ID)) with ⟨h2, h3⟩ | ⟨h2, h3⟩
      · exact Or.inl ⟨h2, h3⟩
      · exact Or.inr ⟨hrole2, existingKey, hfind, h2, h3⟩

end usecase

namespace usecase
open entity repository spec

/-- Replacing the stored key of an id keeps the names distinct when no other stored key
has the new name. -/
theorem nodup_names_replaceOne (id : ObjectID) (doc : Key) (ds : List Key)
    (hnd : (ds.map Key.Name).Nodup)
    (hname : ∀ k ∈ ds, k.Name = doc.Name → ds.find? (fun x => x.ID == id) = some k) :
    ((replaceOne Key.ID id doc ds).map Key.Name).Nodup := by
  induction ds with
  | nil => simp [replaceOne]
  | cons d ds ih =>
    rw [List.map_cons, List.nodup_cons] at hnd
    unfold replaceOne
    by_cases hd : d.ID = id
    · rw [if_pos hd, List.map_cons, List.nodup_cons]
      refine ⟨?_, hnd.2⟩
      intro hmem
      obtain ⟨k, hk, hkn⟩ := List.mem_map.mp hmem
      have h := hname k (List.mem_cons_of_mem _ hk) hkn
      rw [List.find?_cons_of_pos _ (by simp [hd])] at h
      have hdk : d = k := Option.some.inj h
      exact hnd.1 (hdk ▸ List.mem_map_of_mem _ hk)
    · rw [if_neg hd, List.map_cons, List.nodup_cons]
      have hfind : ∀ k, (d :: ds).find? (fun x => x.ID == id) = some k →
          ds.find? (fun x => x.ID == id) = some k := by
        intro k h
        rwa [List.find?_cons_of_neg _ (by simp [hd])] at h
      constructor
      · intro hmem
        obtain ⟨k, hk, hkn⟩ := List.mem_map.mp hmem
        rcases mem_replaceOne Key.ID id doc k ds hk with h | h
        · subst h
          have h2 := hfind d (hname d (List.mem_cons_self _ _) hkn.symm)
          have hmem2 : d ∈ ds := List.mem_of_find?_eq_some h2
          exact hnd.1 (List.mem_map_of_mem _ hmem2)
        · exact hnd.1 (hkn ▸ List.mem_map_of_mem _ h)
      · apply ih hnd.2
        intro k hk hkn
        exact hfind k (hname k (List.mem_cons_of_mem _ hk) hkn)

end usecase

namespace repository
open entity

/-- Replacing the found document, which satisfies `p`, by one that does not lowers the
count of `p`. -/
theorem countP_replaceOne_lt {α : Type} (getID : α → ObjectID) (p : α → Bool) (id : ObjectID)
    (doc old : α) (ds : List α) (hfind : ds.find? (fun d => getID d == id) = some old)
    (hdoc : p doc = false) (hold : p old = true) :
    (replaceOne getID id doc ds).countP p + 1 = ds.countP p := by
  induction ds with
  | nil => simp at hfind
  | cons d ds ih =>
    unfold replaceOne
    by_cases hd : getID d = id
    · have hdo : d = old := by
        rw [List.find?_cons_of_pos _ (by simp [hd])] at hfind
        exact Option.some.inj hfind
      subst hdo
      rw [if_pos hd, List.countP_cons, List.countP_cons, hdoc, hold]
      simp
    · rw [List.find?_cons_of_neg _ (by simp [hd])] at hfind
      rw [if_neg hd, List.countP_cons, List.countP_cons, ← ih hfind]
      omega

end repository

namespace usecase
open entity repository spec

theorem KeyRepositoryImpl_Delete_log (id : ObjectID) (w : World) :
    (KeyRepositoryImpl.Delete id w).2.log = w.log ++ [.KeyDelete id] := by
  unfold KeyRepositoryImpl.Delete
  split <;> rfl

/-- A successful `ReturnKey` leaves no active reservation of the returned reservation's
key when that key had at most one. -/
theorem ReservationUseCase.ReturnKey_frees_the_key (now : Time) (rid uid : ObjectID)
    (w : World) (r : Reservation)
    (hfind : w.reservations.find? (fun x => x.ID == rid) = some r)
    (hone : activeCountOfKey r.KeyID w.reservations ≤ 1)
    (hok : (ReservationUseCase.ReturnKey now rid uid w).1 = none) :
    (ReservationUseCase.ReturnKey now rid uid w).2.reservations.find?
      (fun x => x.KeyID == r.KeyID && x.Status == ReservationStatusActive) = none ∧
    (ReservationUseCase.ReturnKey now rid uid w).2.keys = w.keys := by
  obtain ⟨r2, hr2, hact, hres⟩ := ReservationUseCase.ReturnKey_ok now rid uid w hok
  have hrr : r2 = r := Option.some.inj (hr2.symm.trans hfind)
  subst hrr
  have hid : r2.ID = rid := by simpa using List.find?_some hfind
  constructor
  · rw [hres, List.find?_eq_none]
    intro x hx hp
    have hcount : (replaceOne Reservation.ID r2.ID (returnedOf now r2) w.reservations).countP
        (fun x => x.Status == ReservationStatusActive && x.KeyID == r2.KeyID) = 0 := by
      have hmem : r2 ∈ w.reservations := List.mem_of_find?_eq_some hfind
      have hlt := countP_replaceOne_lt Reservation.ID
        (fun x => x.Status == ReservationStatusActive && x.KeyID == r2.KeyID) rid
        (returnedOf now r2) r2 w.reservations hfind
        (by simp [returnedOf, returned_ne_active]) (by simp [hact])
      rw [hid]
      unfold activeCountOfKey at hone
      omega
    have hpos : 0 < (replaceOne Reservation.ID r2.ID (returnedOf now r2)
        w.reservations).countP
        (fun x => x.Status == ReservationStatusActive && x.KeyID == r2.KeyID) :=
      List.countP_pos_iff.mpr ⟨x, hx, by
        simp only [Bool.and_eq_true, beq_iff_eq] at hp ⊢
        exact ⟨hp.2, hp.1⟩⟩
    omega
  · rcases ReservationUseCase.ReturnKey_shape now rid uid w with h | h | ⟨_, _, _, h⟩
    · rw [h]; rfl
    · rw [h]; rfl
    · rw [h, ReservationRepositoryImpl.Update_keys]; rfl

end usecase

namespace usecase
open entity repository spec

/-- The repository calls of `UpdateKey`: none, the read `GetByID` alone, or the read and
the `Update` of the record built from the stored key and the draft. -/
theorem KeyUseCase.UpdateKey_log (now : Time) (key : Key) (role : UserRole) (w : World) :
    (KeyUseCase.UpdateKey now key role w).2.log = w.log ∨
    (KeyUseCase.UpdateKey now key role w).2.log = w.log ++ [.KeyGetByID key.ID] ∨
    (role = UserRoleAdmin ∧
      ∃ existingKey, w.keys.find? (fun k => k.ID == key.ID) = some existingKey ∧
        (KeyUseCase.UpdateKey now key role w).2.log =
          w.log ++ [.KeyGetByID key.ID, .KeyUpdate (updatedKey now existingKey key)]) := by
  unfold KeyUseCase.UpdateKey
  split
  · exact Or.inl rfl
  rename_i hrole
  have hrole2 : role = UserRoleAdmin := by simpa using hrole
  split
  next _ _ _ w1 h1 =>
    rw [snd_of_eq h1, KeyRepositoryImpl.key_GetByID_snd]
    exact Or.inr (Or.inl rfl)
  next _ w1 h1 =>
    rw [snd_of_eq h1, KeyRepositoryImpl.key_GetByID_snd]
    exact Or.inr (Or.inl rfl)
  next _ existingKey w1 h1 =>
    have hfind := (KeyRepositoryImpl.key_GetByID_ok h1).2
    have hw1 := snd_of_eq h1
    rw [KeyRepositoryImpl.key_GetByID_snd] at hw1
    subst hw1
    simp only
    split
    · exact Or.inr (Or.inl rfl)
    · refine Or.inr (Or.inr ⟨hrole2, existingKey, hfind, ?_⟩)
      rw [KeyRepositoryImpl.key_Update_log]
      simp [World.enter, updatedKey]

end usecase

namespace entity

/-- A string of ASCII characters has as many bytes as characters. -/
theorem len_eq_length_of_ascii (cs : List Char) (h : ∀ c ∈ cs, c.toNat < 128) :
    (cs.map utf8Len).sum = cs.length := by
  induction cs with
  | nil => rfl
  | cons c cs ih =>
    have hc : utf8Len c = 1 := by
      unfold utf8Len
      rw [if_pos (h c (List.mem_cons_self _ _))]
    rw [List.map_cons, List.sum_cons, List.length_cons, hc,
      ih (fun x hx => h x (List.mem_cons_of_mem _ hx))]
    omega

end entity

namespace usecase
open entity repository spec

/-! ### Where the stored reservations come from -/

/-- A reservation stored after the sweep loop was stored before it or is the overdue
version of a reservation of the loop's input. -/
theorem processOverdueLoop_mem (now : Time) (xs : List Reservation) (w : World)
    (b : Reservation)
    (hb : b ∈ (ReservationUseCase.processOverdueLoop now xs w).2.reservations) :
    b ∈ w.reservations ∨ ∃ x ∈ xs, b = overdueOf now x := by
  induction xs generalizing w with
  | nil => exact Or.inl hb
  | cons res rest ih =>
    unfold ReservationUseCase.processOverdueLoop at hb
    split at hb
    · rename_i hcond
      have hact : res.Status = ReservationStatusActive := by
        simp only [Bool.and_eq_true, beq_iff_eq] at hcond
        exact hcond.1
      rw [MarkAsOverdue_eq_overdueOf now hact] at hb
      simp only at hb
      split at hb
      next _ err w1 h1 =>
        rw [ReservationRepositoryImpl_Update_err h1] at hb
        exact Or.inl hb
      next _ w1 h1 =>
        have hw1 := ReservationRepositoryImpl.Update_ok h1
        have hstep : ∀ c, c ∈ w1.reservations →
            c ∈ w.reservations ∨ ∃ x ∈ res :: rest, c = overdueOf now x := by
          intro c hc
          rw [hw1] at hc
          rcases mem_replaceOne Reservation.ID _ _ c _ hc with h | h
          · exact Or.inr ⟨res, List.mem_cons_self _ _, h⟩
          · exact Or.inl h
        split at hb
        next _ err w2 h2 =>
          rw [snd_of_eq h2, UserRepositoryImpl.BlockUser_reservations] at hb
          exact hstep b hb
        next _ w2 h2 =>
          rcases ih w2 hb with h | ⟨x, hx, h⟩
          · rw [snd_of_eq h2, UserRepositoryImpl.BlockUser_reservations] at h
            exact hstep b h
          · exact Or.inr ⟨x, List.mem_cons_of_mem _ hx, h⟩
    · rcases ih w hb with h | ⟨x, hx, h⟩
      · exact Or.inl h
      · exact Or.inr ⟨x, List.mem_cons_of_mem _ hx, h⟩

/-- A reservation stored after the sweep was stored before it or is the overdue version
of a reservation stored before it. -/
theorem ReservationUseCase.ProcessOverdueReservations_mem (now : Time) (w : World)
    (b : Reservation)
    (hb : b ∈ (ReservationUseCase.ProcessOverdueReservations now w).2.reservations) :
    b ∈ w.reservations ∨ ∃ x ∈ w.reservations, b = overdueOf now x := by
  unfold ReservationUseCase.ProcessOverdueReservations at hb
  split at hb
  next _ _ err w1 h1 =>
    rw [snd_of_eq h1, ReservationRepositoryImpl.GetOverdueReservations_snd] at hb
    exact Or.inl hb
  next _ xs w1 h1 =>
    have hxs := ReservationRepositoryImpl.GetOverdueReservations_ok h1
    have hw1 := snd_of_eq h1
    rw [ReservationRepositoryImpl.GetOverdueReservations_snd] at hw1
    subst hw1
    rcases processOverdueLoop_mem now xs _ b hb with h | ⟨x, hx, h⟩
    · exact Or.inl h
    · rw [hxs] at hx
      exact Or.inr ⟨x, (List.mem_filter.mp hx).1, h⟩

/-- A reservation stored after the cascade loop was stored before it or is the overdue
version of a reservation of the loop's input. -/
theorem UserUseCase.blockUserLoop_mem (now : Time) (xs : List Reservation) (w : World)
    (b : Reservation) (hb : b ∈ (UserUseCase.blockUserLoop now xs w).2.reservations) :
    b ∈ w.reservations ∨ ∃ x ∈ xs, b = overdueOf now x := by
  induction xs generalizing w with
  | nil => exact Or.inl hb
  | cons res rest ih =>
    unfold UserUseCase.blockUserLoop at hb
    split at hb
    · rename_i hcond
      have hact : res.Status = ReservationStatusActive := by simpa using hcond
      rw [MarkAsOverdue_eq_overdueOf now hact] at hb
      simp only at hb
      split at hb
      next _ err w1 h1 =>
        rw [ReservationRepositoryImpl_Update_err h1] at hb
        exact Or.inl hb
      next _ w1 h1 =>
        have hw1 := ReservationRepositoryImpl.Update_ok h1
        rcases ih w1 hb with h | ⟨x, hx, h⟩
        · rw [hw1] at h
          rcases mem_replaceOne Reservation.ID _ _ b _ h with h | h
          · exact Or.inr ⟨res, List.mem_cons_self _ _, h⟩
          · exact Or.inl h
        · exact Or.inr ⟨x, List.mem_cons_of_mem _ hx, h⟩
    · rcases ih w hb with h | ⟨x, hx, h⟩
      · exact Or.inl h
      · exact Or.inr ⟨x, List.mem_cons_of_mem _ hx, h⟩

/-- A reservation stored after `BlockUser` was stored before it or is the overdue version
of a reservation stored before it. -/
theorem UserUseCase.BlockUser_mem (now : Time) (userID : ObjectID) (role : UserRole)
    (w : World) (b : Reservation)
    (hb : b ∈ (UserUseCase.BlockUser now userID role w).2.reservations) :
    b ∈ w.reservations ∨ ∃ x ∈ w.reservations, b = overdueOf now x := by
  unfold UserUseCase.BlockUser at hb
  split at hb
  · exact Or.inl hb
  · split at hb
    next _ _ _ w1 h1 =>
      rw [snd_of_eq h1, UserRepositoryImpl.user_GetByID_snd] at hb; exact Or.inl hb
    next _ w1 h1 =>
      rw [snd_of_eq h1, UserRepositoryImpl.user_GetByID_snd] at hb; exact Or.inl hb
    next _ u w1 h1 =>
      have hw1 := snd_of_eq h1
      rw [UserRepositoryImpl.user_GetByID_snd] at hw1
      subst hw1
      split at hb
      · exact Or.inl hb
      · split at hb
        next _ err w2 h2 =>
          rw [snd_of_eq h2, UserRepositoryImpl.BlockUser_reservations] at hb
          exact Or.inl hb
        next _ w2 h2 =>
          have hw2 : w2.reservations = w.reservations := by
            rw [snd_of_eq h2, UserRepositoryImpl.BlockUser_reservations]
            rfl
          split at hb
          next _ _ err w3 h3 =>
            rw [snd_of_eq h3, ReservationRepositoryImpl.GetByUserID_snd] at hb
            exact Or.inl (hw2 ▸ hb)
          next _ xs w3 h3 =>
            have hxs := ReservationRepositoryImpl.GetByUserID_ok h3
            have hw3 := snd_of_eq h3
            rw [ReservationRepositoryImpl.GetByUserID_snd] at hw3
            rcases UserUseCase.blockUserLoop_mem now xs w3 b hb with h | ⟨x, hx, h⟩
            · rw [hw3] at h
              exact Or.inl (hw2 ▸ h)
            · rw [hxs, hw2] at hx
              exact Or.inr ⟨x, (List.mem_filter.mp hx).1, h⟩

theorem ReturnTimesValid_mono {t t2 : Time} {rs : List Reservation}
    (h : ReturnTimesValid t rs) (hle : t ≤ t2) : ReturnTimesValid t2 rs :=
  fun r hr => ⟨le_trans (h r hr).1 hle, (h r hr).2⟩

theorem ReturnTimesValid_overdueOf {t : Time} {rs rs2 : List Reservation} (now : Time)
    (h : ReturnTimesValid t rs)
    (hmem : ∀ b ∈ rs2, b ∈ rs ∨ ∃ x ∈ rs, b = overdueOf now x) : ReturnTimesValid t rs2 := by
  intro b hb
  rcases hmem b hb with h1 | ⟨x, hx, h1⟩
  · exact h b h1
  · subst h1
    exact h x hx

theorem ReturnTimesValid_replaceOne {t : Time} {rs : List Reservation} (id : ObjectID)
    (doc : Reservation) (h : ReturnTimesValid t rs)
    (hdoc : doc.ReservedAt ≤ t ∧ doc.ValidateReturnTime = none) :
    ReturnTimesValid t (replaceOne Reservation.ID id doc rs) := by
  intro b hb
  rcases mem_replaceOne Reservation.ID id doc b rs hb with h1 | h1
  · subst h1; exact hdoc
  · exact h b h1

/-- One admissible call keeps the return times valid, at the clock reading of the
call. -/
theorem ReturnTimesValid_step (prev : Time) (op : Op) (w : World)
    (hinv : ReturnTimesValid prev w.reservations) (hop : op.Admissible prev) :
    ReturnTimesValid op.now (op.apply w).reservations := by
  cases op with
  | CreateReservation now draft =>
    obtain ⟨hle, hres, hval⟩ := hop
    have hinv2 := ReturnTimesValid_mono hinv hle
    show ReturnTimesValid now (ReservationUseCase.CreateReservation now draft w).2.reservations
    rcases ReservationUseCase.CreateReservation_reservations now draft w with
      h | ⟨i, -, -, -, h⟩
    · rw [h]; exact hinv2
    · rw [h]
      intro b hb
      rcases List.mem_append.mp hb with h1 | h1
      · exact hinv2 b h1
      · rw [List.mem_singleton] at h1
        subst h1
        exact ⟨hres, hval⟩
  | ReturnKey now rid uid =>
    have hle : prev ≤ now := hop
    have hinv2 := ReturnTimesValid_mono hinv hle
    show ReturnTimesValid now (ReservationUseCase.ReturnKey now rid uid w).2.reservations
    rcases ReservationUseCase.ReturnKey_reservations now rid uid w with h | ⟨r, hr, -, h⟩
    · rw [h]; exact hinv2
    · rw [h]
      have hr2 := hinv2 r (List.mem_of_find?_eq_some hr)
      exact ReturnTimesValid_replaceOne _ _ hinv2
        ⟨hr2.1, by simp [Reservation.ValidateReturnTime, hr2.1]⟩
  | ExtendReservation now rid due role =>
    have hle : prev ≤ now := hop
    have hinv2 := ReturnTimesValid_mono hinv hle
    show ReturnTimesValid now
      (ReservationUseCase.ExtendReservation now rid due role w).2.reservations
    rcases ReservationUseCase.ExtendReservation_reservations now rid due role w with
      h | ⟨r, hr, -, h⟩
    · rw [h]; exact hinv2
    · rw [h]
      exact ReturnTimesValid_replaceOne _ _ hinv2 (hinv2 r (List.mem_of_find?_eq_some hr))
  | ProcessOverdueReservations now =>
    have hle : prev ≤ now := hop
    exact ReturnTimesValid_overdueOf now (ReturnTimesValid_mono hinv hle)
      (ReservationUseCase.ProcessOverdueReservations_mem now w)
  | BlockUser now uid role =>
    have hle : prev ≤ now := hop
    exact ReturnTimesValid_overdueOf now (ReturnTimesValid_mono hinv hle)
      (UserUseCase.BlockUser_mem now uid role w)
  | other now f =>
    obtain ⟨hle, hf⟩ := hop
    show ReturnTimesValid now (f w).reservations
    rw [hf w]
    exact ReturnTimesValid_mono hinv hle

/-- A sequence of admissible calls keeps the return times valid. -/
theorem ReturnTimesValid_run (ops : List Op) (prev : Time) (w : World)
    (hinv : ReturnTimesValid prev w.reservations) (hs : Schedule prev ops) :
    ∃ t, prev ≤ t ∧ ReturnTimesValid t (run ops w).reservations := by
  induction ops generalizing prev w with
  | nil => exact ⟨prev, le_refl _, hinv⟩
  | cons op ops ih =>
    obtain ⟨hop, hrest⟩ := hs
    have hle : prev ≤ op.now := by
      cases op with
      | CreateReservation now draft => exact hop.1
      | other now f => exact hop.1
      | ReturnKey now rid uid => exact hop
      | ExtendReservation now rid due role => exact hop
      | ProcessOverdueReservations now => exact hop
      | BlockUser now uid role => exact hop
    obtain ⟨t, ht, h⟩ := ih op.now (op.apply w) (ReturnTimesValid_step prev op w hinv hop) hrest
    exact ⟨t, le_trans hle ht, h⟩

end usecase

namespace usecase
open entity repository spec

/-! ### What a second sweep does to the users -/

/-- The sweep loop leaves the stored record of a user who owns no past-due reservation of
its input. -/
theorem processOverdueLoop_users_find (now : Time) (uid : ObjectID) (xs : List Reservation)
    (w : World) (h : ∀ x ∈ xs, pastDue now x = true → x.UserID ≠ uid) :
    (ReservationUseCase.processOverdueLoop now xs w).2.users.find? (fun u => u.ID == uid) =
      w.users.find? (fun u => u.ID == uid) := by
  induction xs generalizing w with
  | nil => rfl
  | cons res rest ih =>
    have hrest : ∀ x ∈ rest, pastDue now x = true → x.UserID ≠ uid :=
      fun x hx => h x (List.mem_cons_of_mem _ hx)
    unfold ReservationUseCase.processOverdueLoop
    split
    · rename_i hcond
      have hne : res.UserID ≠ uid := h res (List.mem_cons_self _ _) hcond
      have hact : res.Status = ReservationStatusActive := by
        simp only [Bool.and_eq_true, beq_iff_eq] at hcond
        exact hcond.1
      rw [MarkAsOverdue_eq_overdueOf now hact]
      simp only
      split
      next _ err w1 h1 =>
        rw [snd_of_eq h1, ReservationRepositoryImpl.Update_users]
      next _ w1 h1 =>
        have hw1 : w1.users = w.users := by
          rw [snd_of_eq h1, ReservationRepositoryImpl.Update_users]
        have hblock : ∀ w2, w2 = (UserRepositoryImpl.BlockUser (overdueOf now res).UserID w1).2 →
            w2.users.find? (fun u => u.ID == uid) = w.users.find? (fun u => u.ID == uid) := by
          intro w2 hw2
          rcases UserRepositoryImpl.BlockUser_users (overdueOf now res).UserID w1 with h3 | h3
          · rw [hw2, h3, hw1]
          · rw [hw2, h3, find?_updateByID_ne User.ID (overdueOf now res).UserID uid
              (fun u => { u with IsBlocked := true }) (fun _ => rfl) hne, hw1]
        split
        next _ err w2 h2 => exact hblock w2 (snd_of_eq h2)
        next _ w2 h2 => rw [ih w2 hrest]; exact hblock w2 (snd_of_eq h2)
    · exact ih w hrest

/-- The sweep leaves the stored record of a user who owns no stored reservation that is
active and past due. -/
theorem ReservationUseCase.ProcessOverdueReservations_users_find (now : Time)
    (uid : ObjectID) (w : World)
    (h : ∀ x ∈ w.reservations, pastDue now x = true → x.UserID ≠ uid) :
    (ReservationUseCase.ProcessOverdueReservations now w).2.users.find?
        (fun u => u.ID == uid) = w.users.find? (fun u => u.ID == uid) := by
  unfold ReservationUseCase.ProcessOverdueReservations
  split
  next _ _ err w1 h1 =>
    rw [snd_of_eq h1, ReservationRepositoryImpl.GetOverdueReservations_snd]
    rfl
  next _ xs w1 h1 =>
    have hxs := ReservationRepositoryImpl.GetOverdueReservations_ok h1
    have hw1 := snd_of_eq h1
    rw [ReservationRepositoryImpl.GetOverdueReservations_snd] at hw1
    subst hw1
    rw [processOverdueLoop_users_find now uid xs _
      (fun x hx => h x (by rw [hxs] at hx; exact (List.mem_filter.mp hx).1))]
    rfl

theorem mem_cascadeStore (now : Time) (xs rs : List Reservation) (b : Reservation)
    (hb : b ∈ cascadeStore now xs rs) : b ∈ rs ∨ ∃ x ∈ xs, b = overdueOf now x := by
  induction xs generalizing rs with
  | nil => exact Or.inl hb
  | cons x rest ih =>
    unfold cascadeStore at hb
    rw [List.foldl_cons] at hb
    rcases ih _ hb with h | ⟨y, hy, h⟩
    · rcases mem_replaceOne Reservation.ID _ _ b _ h with h2 | h2
      · exact Or.inr ⟨x, List.mem_cons_self _ _, h2⟩
      · exact Or.inl h2
    · exact Or.inr ⟨y, List.mem_cons_of_mem _ hy, h⟩

theorem cascadeStore_append (now : Time) (xs ys rs : List Reservation) :
    cascadeStore now (xs ++ ys) rs = cascadeStore now ys (cascadeStore now xs rs) := by
  unfold cascadeStore
  rw [List.foldl_append]

/-- Two members of a list that satisfy a test which at most one member satisfies are
equal. -/
theorem eq_of_countP_le_one {α : Type} (p : α → Bool) (l : List α) (h : l.countP p ≤ 1)
    (a b : α) (ha : a ∈ l) (hb : b ∈ l) (hpa : p a = true) (hpb : p b = true) : a = b := by
  induction l with
  | nil => cases ha
  | cons d ds ih =>
    rw [List.countP_cons] at h
    rcases List.mem_cons.mp ha with ha1 | ha1 <;> rcases List.mem_cons.mp hb with hb1 | hb1
    · rw [ha1, hb1]
    · subst ha1
      have hpos : 0 < ds.countP p := List.countP_pos_iff.mpr ⟨b, hb1, hpb⟩
      rw [if_pos hpa] at h
      omega
    · subst hb1
      have hpos : 0 < ds.countP p := List.countP_pos_iff.mpr ⟨a, ha1, hpa⟩
      rw [if_pos hpb] at h
      omega
    · exact ih (by omega) ha1 hb1

/-- A sweep loop that fails at a `BlockUser` has stored the overdue version of the
past-due reservations of its input up to and including the one whose owner it could not
block, and has changed the record of no user other than the owners of the earlier
ones. -/
theorem processOverdueLoop_failed_at_block (now : Time) (xs : List Reservation) (w : World)
    (uid : ObjectID) (e : Error)
    (h : (ReservationUseCase.processOverdueLoop now xs w).1 =
      some (Error.Errorf "failed to block user %s: %w" [uid] e)) :
    ∃ pre res post, xs.filter (pastDue now) = pre ++ res :: post ∧ res.UserID = uid ∧
      (ReservationUseCase.processOverdueLoop now xs w).2.reservations =
        cascadeStore now (pre ++ [res]) w.reservations ∧
      ∀ v, v ∉ pre.map Reservation.UserID →
        (ReservationUseCase.processOverdueLoop now xs w).2.users.find?
            (fun u => u.ID == v) = w.users.find? (fun u => u.ID == v) := by
  induction xs generalizing w with
  | nil => simp [ReservationUseCase.processOverdueLoop] at h
  | cons x rest ih =>
    unfold ReservationUseCase.processOverdueLoop at h ⊢
    split at h
    · rename_i hcond
      have hpd : pastDue now x = true := hcond
      have hact : x.Status = ReservationStatusActive := by
        simp only [Bool.and_eq_true, beq_iff_eq] at hcond
        exact hcond.1
      have hfilt : (x :: rest).filter (pastDue now) = x :: rest.filter (pastDue now) :=
        List.filter_cons_of_pos hpd
      rw [if_pos hcond]
      rw [MarkAsOverdue_eq_overdueOf now hact] at h ⊢
      simp only at h ⊢
      split at h
      next err w1 h1 =>
        exfalso
        simp only [Option.some.injEq, Error.Errorf.injEq] at h
        exact absurd h.1 (by decide)
      next _ w1 h1 =>
        have hw1 := ReservationRepositoryImpl.Update_ok h1
        have hu1 : w1.users = w.users := by
          rw [snd_of_eq h1, ReservationRepositoryImpl.Update_users]
        split at h
        next err w2 h2 =>
          simp only [Option.some.injEq, Error.Errorf.injEq, List.cons.injEq, and_true,
            true_and] at h
          have hw2 : w2 = w1.enter (.UserBlockUser (overdueOf now x).UserID) := by
            unfold UserRepositoryImpl.BlockUser at h2
            split at h2
            · rw [snd_of_eq h2]
            · simp at h2
          refine ⟨[], x, rest.filter (pastDue now), ?_, h.1, ?_, ?_⟩
          · rw [hfilt]; rfl
          · rw [hw2]
            show w1.reservations = _
            rw [hw1]
            rfl
          · intro v _
            rw [hw2]
            show w1.users.find? _ = _
            rw [hu1]
        next _ w2 h2 =>
          have hw2 := UserRepositoryImpl.BlockUser_ok h2
          obtain ⟨pre, res, post, i1, i2, i3, i4⟩ := ih w2 h
          refine ⟨x :: pre, res, post, ?_, i2, ?_, ?_⟩
          · rw [hfilt, i1]; rfl
          · rw [i3, hw2]
            show cascadeStore now (pre ++ [res]) w1.reservations = _
            rw [hw1]
            rfl
          · intro v hv
            have hv1 : x.UserID ≠ v := fun heq => hv (by simp [heq])
            have hv2 : v ∉ pre.map Reservation.UserID := fun hm => hv (by
              simp only [List.map_cons, List.mem_cons]
              exact Or.inr hm)
            rw [i4 v hv2, hw2]
            show (updateByID User.ID x.UserID (fun u => { u with IsBlocked := true })
              w1.users).find? _ = _
            rw [find?_updateByID_ne User.ID x.UserID v
              (fun u => { u with IsBlocked := true }) (fun _ => rfl) hv1, hu1]
    · rename_i hcond
      have hfilt : (x :: rest).filter (pastDue now) = rest.filter (pastDue now) :=
        List.filter_cons_of_neg hcond
      rw [if_neg hcond, hfilt]
      exact ih w h

/-- A sweep that fails at a `BlockUser`: see `processOverdueLoop_failed_at_block`. -/
theorem ReservationUseCase.ProcessOverdueReservations_failed_at_block (now : Time)
    (w : World) (uid : ObjectID) (e : Error)
    (h : (ReservationUseCase.ProcessOverdueReservations now w).1 =
      some (Error.Errorf "failed to block user %s: %w" [uid] e)) :
    ∃ pre res post, w.reservations.filter (pastDue now) = pre ++ res :: post ∧
      res.UserID = uid ∧
      (ReservationUseCase.ProcessOverdueReservations now w).2.reservations =
        cascadeStore now (pre ++ [res]) w.reservations ∧
      ∀ v, v ∉ pre.map Reservation.UserID →
        (ReservationUseCase.ProcessOverdueReservations now w).2.users.find?
            (fun u => u.ID == v) = w.users.find? (fun u => u.ID == v) := by
  unfold ReservationUseCase.ProcessOverdueReservations at h ⊢
  split at h
  next =>
    exfalso
    simp only [Option.some.injEq, Error.Errorf.injEq] at h
    exact absurd h.1 (by decide)
  next _ xs w1 h1 =>
    have hxs := ReservationRepositoryImpl.GetOverdueReservations_ok h1
    have hw1 := snd_of_eq h1
    rw [ReservationRepositoryImpl.GetOverdueReservations_snd] at hw1
    subst hw1
    obtain ⟨pre, res, post, i1, i2, i3, i4⟩ :=
      processOverdueLoop_failed_at_block now xs _ uid e h
    have hf : xs.filter (pastDue now) = w.reservations.filter (pastDue now) := by
      rw [hxs]
      have : (w.reservations.filter (pastDue now)).filter (pastDue now)
          = w.reservations.filter (pastDue now) := by
        rw [List.filter_filter]
        simp
      exact this
    exact ⟨pre, res, post, hf ▸ i1, i2, i3, i4⟩

end usecase

namespace usecase
open entity repository spec

/-- A document of another id stays in the collection when one is replaced. -/
theorem mem_replaceOne_of_ne {α : Type} (getID : α → ObjectID) (id : ObjectID) (doc b : α)
    (ds : List α) (h : b ∈ ds) (hne : getID b ≠ id) : b ∈ replaceOne getID id doc ds := by
  induction ds with
  | nil => cases h
  | cons d ds ih =>
    unfold replaceOne
    rcases List.mem_cons.mp h with h | h
    · subst h
      rw [if_neg hne]
      exact List.mem_cons_self _ _
    · split
      · exact List.mem_cons_of_mem _ h
      · exact List.mem_cons_of_mem _ (ih h)

/-- The new document is in the collection after a replacement that found its id. -/
theorem mem_replaceOne_doc {α : Type} (getID : α → ObjectID) (id : ObjectID) (doc old : α)
    (ds : List α) (h : ds.find? (fun d => getID d == id) = some old) :
    doc ∈ replaceOne getID id doc ds := by
  induction ds with
  | nil => cases h
  | cons d ds ih =>
    unfold replaceOne
    by_cases hd : getID d = id
    · rw [if_pos hd]
      exact List.mem_cons_self _ _
    · rw [if_neg hd]
      have hd2 : (getID d == id) = false := by simpa using hd
      rw [List.find?_cons, hd2] at h
      exact List.mem_cons_of_mem _ (ih h)

/-- An admin's `UpdateKey` with an answering repository, a stored key of the draft's id
and a merged record that passes `ValidateForUpdate`: no error, the two calls `GetByID`
and `Update`, and the merged record replaces the stored key. -/
theorem KeyUseCase.UpdateKey_ok (now : Time) (key existingKey : Key) (w : World)
    (hf : w.faults = [])
    (hfind : w.keys.find? (fun k => k.ID == key.ID) = some existingKey)
    (hval : (updatedKey now existingKey key).ValidateForUpdate = none) :
    (KeyUseCase.UpdateKey now key UserRoleAdmin w).1 = none ∧
    (KeyUseCase.UpdateKey now key UserRoleAdmin w).2.log =
      w.log ++ [.KeyGetByID key.ID, .KeyUpdate (updatedKey now existingKey key)] ∧
    (KeyUseCase.UpdateKey now key UserRoleAdmin w).2.keys =
      replaceOne Key.ID key.ID (updatedKey now existingKey key) w.keys := by
  have hid : existingKey.ID = key.ID := by simpa using List.find?_some hfind
  unfold updatedKey at hval
  rw [hid] at hval
  simp [KeyUseCase.UpdateKey, KeyRepositoryImpl.GetByID, KeyRepositoryImpl.Update,
    World.fault, World.enter, hf, hfind, hval, updatedKey, hid]

/-- After such an `UpdateKey`, a stored key of another id with the draft's name and the
replaced record are both stored, so the names are not distinct. -/
theorem KeyUseCase.UpdateKey_not_unique (now : Time) (key existingKey k : Key) (w : World)
    (hf : w.faults = [])
    (hfind : w.keys.find? (fun k => k.ID == key.ID) = some existingKey)
    (hval : (updatedKey now existingKey key).ValidateForUpdate = none)
    (hk : k ∈ w.keys) (hname : k.Name = key.Name) (hne : k.ID ≠ key.ID) :
    k ∈ (KeyUseCase.UpdateKey now key UserRoleAdmin w).2.keys ∧
    updatedKey now existingKey key ∈ (KeyUseCase.UpdateKey now key UserRoleAdmin w).2.keys ∧
    ¬ UniqueNames (KeyUseCase.UpdateKey now key UserRoleAdmin w).2.keys := by
  have hid : existingKey.ID = key.ID := by simpa using List.find?_some hfind
  rw [(KeyUseCase.UpdateKey_ok now key existingKey w hf hfind hval).2.2]
  have h1 := mem_replaceOne_of_ne Key.ID key.ID (updatedKey now existingKey key) k w.keys hk hne
  have h2 := mem_replaceOne_doc Key.ID key.ID (updatedKey now existingKey key) existingKey
    w.keys hfind
  refine ⟨h1, h2, ?_⟩
  intro hnd
  have heq := List.inj_on_of_nodup_map hnd h1 h2 (by rw [hname]; rfl)
  apply hne
  rw [heq]
  exact hid

end usecase

/-! ## The claims -/

namespace claims

open entity repository usecase spec

/-- A predicate that holds of active reservations only keeps its count under `Retired`,
and keeps it under a replacement that changes neither status, key nor user. -/
theorem invariant_of_effects (count : ObjectID → List Reservation → Nat)
    (p : ObjectID → Reservation → Bool)
    (hcount : ∀ k rs, count k rs = rs.countP (p k))
    (hp : ∀ k r, r.Status ≠ ReservationStatusActive → p k r = false)
    (hframe : ∀ k (r : Reservation) (due upd : Time),
      p k { r with DueAt := due, UpdatedAt := upd } = p k r)
    (hcreate : ∀ (now : Time) (draft : Reservation) (w : World) (k : ObjectID),
      count k w.reservations ≤ 1 →
      count k (ReservationUseCase.CreateReservation now draft w).2.reservations ≤ 1)
    (w : World) (h : ∀ k, count k w.reservations ≤ 1) :
    (∀ now draft k,
      count k (ReservationUseCase.CreateReservation now draft w).2.reservations ≤ 1) ∧
    (∀ now rid uid k,
      count k (ReservationUseCase.ReturnKey now rid uid w).2.reservations ≤ 1) ∧
    (∀ now rid due role k,
      count k (ReservationUseCase.ExtendReservation now rid due role w).2.reservations ≤ 1) ∧
    (∀ now k,
      count k (ReservationUseCase.ProcessOverdueReservations now w).2.reservations ≤ 1) ∧
    (∀ now uid role k,
      count k (UserUseCase.BlockUser now uid role w).2.reservations ≤ 1) := by
  refine ⟨?_, ?_, ?_, ?_, ?_⟩
  · intro now draft k
    exact hcreate now draft w k (h k)
  · intro now rid uid k
    rcases ReservationUseCase.ReturnKey_reservations now rid uid w with h1 | ⟨r, -, -, h1⟩
    · rw [h1]; exact h k
    · rw [h1, hcount]
      refine Nat.le_trans (countP_replaceOne_le Reservation.ID (p k) r.ID _ ?_ _) ?_
      · exact hp k _ returned_ne_active
      · rw [← hcount]; exact h k
  · intro now rid due role k
    rcases ReservationUseCase.ExtendReservation_reservations now rid due role w
      with h1 | ⟨r, hr, -, h1⟩
    · rw [h1]; exact h k
    · have hid : r.ID = rid := by simpa using List.find?_some hr
      subst hid
      rw [h1, hcount,
        countP_replaceOne_eq Reservation.ID (p k) r.ID _ r w.reservations hr (hframe k r due now),
        ← hcount]
      exact h k
  · intro now k
    have := Retired_countP_le (ReservationUseCase.ProcessOverdueReservations_retired now w) (p k) (hp k)
    rw [hcount]
    exact Nat.le_trans this (by rw [← hcount]; exact h k)
  · intro now uid role k
    have := Retired_countP_le (UserUseCase.BlockUser_retired now uid role w) (p k) (hp k)
    rw [hcount]
    exact Nat.le_trans this (by rw [← hcount]; exact h k)

theorem CreateReservation_activeCountOfKey (now : Time) (draft : Reservation) (w : World)
    (k : ObjectID) (h : activeCountOfKey k w.reservations ≤ 1) :
    activeCountOfKey k (ReservationUseCase.CreateReservation now draft w).2.reservations ≤ 1 := by
  rcases ReservationUseCase.CreateReservation_reservations now draft w
    with h1 | ⟨i, hfree, -, -, h1⟩
  · rw [h1]; exact h
  · rw [h1]
    unfold activeCountOfKey at h ⊢
    rw [List.countP_append, List.countP_singleton]
    by_cases hk : draft.Status = ReservationStatusActive ∧ draft.KeyID = k
    · have hzero : w.reservations.countP
          (fun r => r.Status == ReservationStatusActive && r.KeyID == k) = 0 := by
        rw [List.countP_eq_zero]
        intro a ha
        have := (List.find?_eq_none.mp hfree) a ha
        simp only [Bool.and_eq_true, beq_iff_eq, not_and] at this ⊢
        intro hs hkey
        exact this (hkey.trans hk.2.symm) hs
      rw [hzero]
      split <;> omega
    · have : ((({ draft with ID := i } : Reservation).Status == ReservationStatusActive
          && ({ draft with ID := i } : Reservation).KeyID == k)) = false := by
        simpa using hk
      rw [this]
      simpa using h

theorem CreateReservation_activeCountOfUser (now : Time) (draft : Reservation) (w : World)
    (u : ObjectID) (h : activeCountOfUser u w.reservations ≤ 1) :
    activeCountOfUser u (ReservationUseCase.CreateReservation now draft w).2.reservations ≤ 1 := by
  rcases ReservationUseCase.CreateReservation_reservations now draft w
    with h1 | ⟨i, -, hnone, -, h1⟩
  · rw [h1]; exact h
  · rw [h1]
    unfold activeCountOfUser at h ⊢
    rw [List.countP_append, List.countP_singleton]
    by_cases hu : draft.Status = ReservationStatusActive ∧ draft.UserID = u
    · have hzero : w.reservations.countP
          (fun r => r.Status == ReservationStatusActive && r.UserID == u) = 0 := by
        rw [List.countP_eq_zero]
        intro a ha
        simp only [Bool.and_eq_true, beq_iff_eq, not_and]
        intro hs huser
        have hmem : a ∈ w.reservations.filter (fun r => r.UserID == draft.UserID) :=
          List.mem_filter.mpr ⟨ha, by simp [huser, hu.2]⟩
        have := List.any_eq_false.mp hnone a hmem
        simp [hs] at this
      rw [hzero]
      split <;> omega
    · have : ((({ draft with ID := i } : Reservation).Status == ReservationStatusActive
          && ({ draft with ID := i } : Reservation).UserID == u)) = false := by
        simpa using hu
      rw [this]
      simpa using h

/-- C1: in the sequential in-memory model, if every key is referenced by at most one
stored reservation with status active, the same holds after `CreateReservation`,
`ReturnKey`, `ExtendReservation`, `ProcessOverdueReservations` and `BlockUser`, whatever
their arguments, whether they return an error or not, and whichever repository calls fail. -/
theorem at_most_one_active_per_key_preserved (w : World)
    (h : AtMostOneActivePerKey w.reservations) :
    (∀ now draft, AtMostOneActivePerKey
      (ReservationUseCase.CreateReservation now draft w).2.reservations) ∧
    (∀ now rid uid, AtMostOneActivePerKey
      (ReservationUseCase.ReturnKey now rid uid w).2.reservations) ∧
    (∀ now rid due role, AtMostOneActivePerKey
      (ReservationUseCase.ExtendReservation now rid due role w).2.reservations) ∧
    (∀ now, AtMostOneActivePerKey
      (ReservationUseCase.ProcessOverdueReservations now w).2.reservations) ∧
    (∀ now uid role, AtMostOneActivePerKey
      (UserUseCase.BlockUser now uid role w).2.reservations) := by
  have := invariant_of_effects activeCountOfKey
    (fun k r => r.Status == ReservationStatusActive && r.KeyID == k)
    (fun _ _ => rfl)
    (by intro k r hr; simp [hr])
    (by intro k r due upd; rfl)
    CreateReservation_activeCountOfKey w h
  exact ⟨fun now draft k => this.1 now draft k,
    fun now rid uid k => this.2.1 now rid uid k,
    fun now rid due role k => this.2.2.1 now rid due role k,
    fun now k => this.2.2.2.1 now k,
    fun now uid role k => this.2.2.2.2 now uid role k⟩

/-- C1, witness: in the store where user 7 holds key 1, user 8 reserves key 2, user 8 is
refused key 1, user 7 returns key 1, and the sweep and the blocking of user 7 run. -/
theorem at_most_one_active_per_key_preserved_witness :
    AtMostOneActivePerKey examples.reservedWorld.reservations ∧
    AtMostOneActivePerKey (ReservationUseCase.CreateReservation 50 (NewReservation 50 4 2 8 100)
      examples.reservedWorld).2.reservations ∧
    AtMostOneActivePerKey (ReservationUseCase.CreateReservation 50 (NewReservation 50 4 1 8 100)
      examples.reservedWorld).2.reservations ∧
    AtMostOneActivePerKey
      (ReservationUseCase.ReturnKey 50 3 7 examples.reservedWorld).2.reservations ∧
    AtMostOneActivePerKey
      (ReservationUseCase.ProcessOverdueReservations 200 examples.reservedWorld).2.reservations ∧
    AtMostOneActivePerKey
      (UserUseCase.BlockUser 50 7 UserRoleAdmin examples.reservedWorld).2.reservations :=
  have h0 : AtMostOneActivePerKey examples.reservedWorld.reservations :=
    fun _ => List.countP_le_length _
  have h := at_most_one_active_per_key_preserved examples.reservedWorld h0
  ⟨h0, h.1 50 _, h.1 50 _, h.2.1 50 3 7, h.2.2.2.1 200, h.2.2.2.2 50 7 UserRoleAdmin⟩

/-- C2: in the sequential in-memory model, if every user owns at most one stored
reservation with status active, the same holds after `CreateReservation`, `ReturnKey`,
`ExtendReservation`, `ProcessOverdueReservations` and `BlockUser`, whatever their
arguments, whether they return an error or not, and whichever repository calls fail. -/
theorem at_most_one_active_per_user_preserved (w : World)
    (h : AtMostOneActivePerUser w.reservations) :
    (∀ now draft, AtMostOneActivePerUser
      (ReservationUseCase.CreateReservation now draft w).2.reservations) ∧
    (∀ now rid uid, AtMostOneActivePerUser
      (ReservationUseCase.ReturnKey now rid uid w).2.reservations) ∧
    (∀ now rid due role, AtMostOneActivePerUser
      (ReservationUseCase.ExtendReservation now rid due role w).2.reservations) ∧
    (∀ now, AtMostOneActivePerUser
      (ReservationUseCase.ProcessOverdueReservations now w).2.reservations) ∧
    (∀ now uid role, AtMostOneActivePerUser
      (UserUseCase.BlockUser now uid role w).2.reservations) := by
  have := invariant_of_effects activeCountOfUser
    (fun u r => r.Status == ReservationStatusActive && r.UserID == u)
    (fun _ _ => rfl)
    (by intro k r hr; simp [hr])
    (by intro k r due upd; rfl)
    CreateReservation_activeCountOfUser w h
  exact ⟨fun now draft k => this.1 now draft k,
    fun now rid uid k => this.2.1 now rid uid k,
    fun now rid due role k => this.2.2.1 now rid due role k,
    fun now k => this.2.2.2.1 now k,
    fun now uid role k => this.2.2.2.2 now uid role k⟩


/-- C2, witness: in the store where user 7 holds key 1, user 8 reserves key 2, user 7 is
refused key 2, user 7 returns key 1, and the sweep and the blocking of user 7 run. -/
theorem at_most_one_active_per_user_preserved_witness :
    AtMostOneActivePerUser examples.reservedWorld.reservations ∧
    AtMostOneActivePerUser (ReservationUseCase.CreateReservation 50 (NewReservation 50 4 2 8 100)
      examples.reservedWorld).2.reservations ∧
    AtMostOneActivePerUser (ReservationUseCase.CreateReservation 50 (NewReservation 50 4 2 7 100)
      examples.reservedWorld).2.reservations ∧
    AtMostOneActivePerUser
      (ReservationUseCase.ReturnKey 50 3 7 examples.reservedWorld).2.reservations ∧
    AtMostOneActivePerUser
      (ReservationUseCase.ProcessOverdueReservations 200 examples.reservedWorld).2.reservations ∧
    AtMostOneActivePerUser
      (UserUseCase.BlockUser 50 7 UserRoleAdmin examples.reservedWorld).2.reservations :=
  have h0 : AtMostOneActivePerUser examples.reservedWorld.reservations :=
    fun _ => List.countP_le_length _
  have h := at_most_one_active_per_user_preserved examples.reservedWorld h0
  ⟨h0, h.1 50 _, h.1 50 _, h.2.1 50 3 7, h.2.2.2.1 200, h.2.2.2.2 50 7 UserRoleAdmin⟩

/-- The order of the checks of `CreateReservation` when no repository call fails: each
line names the error returned when every earlier check has passed, whatever the later
checks would find. A draft counts as invalid exactly when `ValidateForCreation` rejects it. -/
theorem CreateReservation_first_failure (now : Time) (draft : Reservation) (w : World)
    (hf : w.faults = []) :
    (∀ e, draft.ValidateForCreation now = some e →
      ReservationUseCase.CreateReservation now draft w = (some e, w)) ∧
    (draft.ValidateForCreation now = none →
      w.users.find? (fun u => u.ID == draft.UserID) = none →
      (ReservationUseCase.CreateReservation now draft w).1 = some Error.ErrUserNotFound) ∧
    (∀ user, draft.ValidateForCreation now = none →
      w.users.find? (fun u => u.ID == draft.UserID) = some user → user.IsBlocked = true →
      (ReservationUseCase.CreateReservation now draft w).1 = some Error.ErrUserBlocked) ∧
    (∀ user, draft.ValidateForCreation now = none →
      w.users.find? (fun u => u.ID == draft.UserID) = some user → user.IsBlocked = false →
      w.keys.find? (fun k => k.ID == draft.KeyID) = none →
      (ReservationUseCase.CreateReservation now draft w).1 = some Error.ErrKeyNotFound) ∧
    (∀ user key, draft.ValidateForCreation now = none →
      w.users.find? (fun u => u.ID == draft.UserID) = some user → user.IsBlocked = false →
      w.keys.find? (fun k => k.ID == draft.KeyID) = some key → key.IsActive = false →
      (ReservationUseCase.CreateReservation now draft w).1 = some Error.ErrKeyInactive) ∧
    (∀ user key, draft.ValidateForCreation now = none →
      w.users.find? (fun u => u.ID == draft.UserID) = some user → user.IsBlocked = false →
      w.keys.find? (fun k => k.ID == draft.KeyID) = some key → key.IsActive = true →
      (∃ r ∈ w.reservations, r.KeyID = draft.KeyID ∧ r.Status = ReservationStatusActive) →
      (ReservationUseCase.CreateReservation now draft w).1 = some Error.ErrKeyReserved) ∧
    (∀ user key, draft.ValidateForCreation now = none →
      w.users.find? (fun u => u.ID == draft.UserID) = some user → user.IsBlocked = false →
      w.keys.find? (fun k => k.ID == draft.KeyID) = some key → key.IsActive = true →
      (∀ r ∈ w.reservations, ¬ (r.KeyID = draft.KeyID ∧ r.Status = ReservationStatusActive)) →
      (∃ r ∈ w.reservations, r.UserID = draft.UserID ∧ r.Status = ReservationStatusActive) →
      (ReservationUseCase.CreateReservation now draft w).1
        = some Error.ErrReservationAlreadyExists) ∧
    (∀ user key, draft.ValidateForCreation now = none →
      w.users.find? (fun u => u.ID == draft.UserID) = some user → user.IsBlocked = false →
      w.keys.find? (fun k => k.ID == draft.KeyID) = some key → key.IsActive = true →
      (∀ r ∈ w.reservations, ¬ (r.KeyID = draft.KeyID ∧ r.Status = ReservationStatusActive)) →
      (∀ r ∈ w.reservations, ¬ (r.UserID = draft.UserID ∧ r.Status = ReservationStatusActive)) →
      (ReservationUseCase.CreateReservation now draft w).1 =
        (insertOne Reservation.ID (fun r i => { r with ID := i }) draft w.reservations).1) := by
  have hfault : w.fault = none := World.fault_of_faults_nil hf
  refine ⟨?_, ?_, ?_, ?_, ?_, ?_, ?_, ?_⟩
  · intro e he
    simp [ReservationUseCase.CreateReservation, he]
  · intro hv hu
    simp [ReservationUseCase.CreateReservation, hv, UserRepositoryImpl.GetByID, hfault, hu]
  · intro user hv hu hb
    simp [ReservationUseCase.CreateReservation, hv, UserRepositoryImpl.GetByID, hfault, hu, hb]
  · intro user hv hu hb hk
    simp [ReservationUseCase.CreateReservation, hv, UserRepositoryImpl.GetByID, hfault, hu, hb,
      KeyRepositoryImpl.GetByID, World.fault, World.enter, hf, hk]
  · intro user key hv hu hb hk hka
    simp [ReservationUseCase.CreateReservation, hv, UserRepositoryImpl.GetByID, hfault, hu, hb,
      KeyRepositoryImpl.GetByID, World.fault, World.enter, hf, hk, Key.CanBeReserved, hka]
  · intro user key hv hu hb hk hka hres
    have hsome : (w.reservations.find?
        (fun r => r.KeyID == draft.KeyID && r.Status == ReservationStatusActive)).isSome := by
      rw [List.find?_isSome]
      obtain ⟨r, hr, h1, h2⟩ := hres
      exact ⟨r, hr, by simp [h1, h2]⟩
    obtain ⟨a, ha⟩ := Option.isSome_iff_exists.mp hsome
    simp [ReservationUseCase.CreateReservation, hv, UserRepositoryImpl.GetByID, hfault, hu, hb,
      KeyRepositoryImpl.GetByID, World.fault, World.enter, hf, hk, Key.CanBeReserved, hka,
      ReservationRepositoryImpl.GetActiveReservationByKey, ha]
  · intro user key hv hu hb hk hka hfree hres
    have hnone : w.reservations.find?
        (fun r => r.KeyID == draft.KeyID && r.Status == ReservationStatusActive) = none := by
      rw [List.find?_eq_none]
      intro r hr
      simpa using hfree r hr
    simp [ReservationUseCase.CreateReservation, hv, UserRepositoryImpl.GetByID, hfault, hu, hb,
      KeyRepositoryImpl.GetByID, World.fault, World.enter, hf, hk, Key.CanBeReserved, hka,
      ReservationRepositoryImpl.GetActiveReservationByKey, hnone,
      ReservationRepositoryImpl.GetByUserID, hres]
  · intro user key hv hu hb hk hka hfree hres
    have hnone : w.reservations.find?
        (fun r => r.KeyID == draft.KeyID && r.Status == ReservationStatusActive) = none := by
      rw [List.find?_eq_none]
      intro r hr
      simpa using hfree r hr
    have hres2 : ¬ ∃ x ∈ w.reservations,
        x.UserID = draft.UserID ∧ x.Status = ReservationStatusActive := by
      rintro ⟨r, hr, h⟩
      exact hres r hr h
    simp [ReservationUseCase.CreateReservation, hv, UserRepositoryImpl.GetByID, hfault, hu, hb,
      KeyRepositoryImpl.GetByID, World.fault, World.enter, hf, hk, Key.CanBeReserved, hka,
      ReservationRepositoryImpl.GetActiveReservationByKey, hnone,
      ReservationRepositoryImpl.GetByUserID, hres2, ReservationRepositoryImpl.Create]

/-- C3: a draft whose due time equals the current time is not in
the future, yet `CreateReservation` does not report a validation error for it. It goes on
to the later checks: for a blocked user it returns `ErrUserBlocked`, and with every other
check passing it stores the reservation. -/
theorem CreateReservation_due_now_passes_validation :
    examples.draftBlockedDueNow.DueAt = 100 ∧
    ReservationUseCase.CreateReservation 100 examples.draftBlockedDueNow examples.blockedWorld
      = (some Error.ErrUserBlocked,
          examples.blockedWorld.enter (.UserGetByID 8)) ∧
    (ReservationUseCase.CreateReservation 100 examples.draftDueNow examples.emptyWorld).1
      = none ∧
    (ReservationUseCase.CreateReservation 100 examples.draftDueNow
      examples.emptyWorld).2.reservations = [examples.draftDueNow] := by
  decide


/-- The calls of a successful `CreateReservation`: four reads, then `Create` with the
draft exactly as it was received. -/
theorem CreateReservation_log_of_ok (now : Time) (draft : Reservation) (w : World)
    (hok : (ReservationUseCase.CreateReservation now draft w).1 = none) :
    (ReservationUseCase.CreateReservation now draft w).2.log =
      w.log ++ [.UserGetByID draft.UserID, .KeyGetByID draft.KeyID,
        .ReservationGetActiveReservationByKey draft.KeyID,
        .ReservationGetByUserID draft.UserID, .ReservationCreate draft] := by
  unfold ReservationUseCase.CreateReservation at hok ⊢
  split at hok
  · simp at hok
  split at hok
  next => simp at hok
  next => simp at hok
  next _ user w1 h1 =>
  have hw1 := snd_of_eq h1
  rw [UserRepositoryImpl.user_GetByID_snd] at hw1
  subst hw1
  split at hok
  · simp at hok
  rename_i hb
  rw [if_neg hb]
  split at hok
  next => simp at hok
  next => simp at hok
  next _ key w2 h2 =>
  have hw2 := snd_of_eq h2
  rw [KeyRepositoryImpl.key_GetByID_snd] at hw2
  subst hw2
  split at hok
  · simp at hok
  rename_i hk
  rw [if_neg hk]
  split at hok
  next _ a err w3 h3 =>
  have hw3 := snd_of_eq h3
  rw [ReservationRepositoryImpl.GetActiveReservationByKey_snd] at hw3
  subst hw3
  split at hok
  · rename_i herr
    have herr2 : err = none := hok
    subst herr2
    simp at herr
  rename_i herr
  rw [if_neg herr]
  split at hok
  · simp at hok
  rename_i ha
  rw [if_neg ha]
  split at hok
  next => simp at hok
  next _ xs w4 h4 =>
  have hw4 := snd_of_eq h4
  rw [ReservationRepositoryImpl.GetByUserID_snd] at hw4
  subst hw4
  split at hok
  · simp at hok
  rename_i hany
  rw [if_neg hany, ReservationRepositoryImpl.Create_log]
  simp [World.enter]

/-- C4 (as amended): on success the record handed to the repository's `Create` is the
draft itself, unchanged; `CreateReservation` sets neither status nor reserved-at. A draft
built by `NewReservation` at the current time has status active and reserved-at equal to
the current time. -/
theorem CreateReservation_hands_over_the_draft (now : Time) (draft : Reservation) (w : World)
    (hok : (ReservationUseCase.CreateReservation now draft w).1 = none) :
    (ReservationUseCase.CreateReservation now draft w).2.log =
      w.log ++ [.UserGetByID draft.UserID, .KeyGetByID draft.KeyID,
        .ReservationGetActiveReservationByKey draft.KeyID,
        .ReservationGetByUserID draft.UserID, .ReservationCreate draft] ∧
    ∀ newID keyID userID dueAt, draft = NewReservation now newID keyID userID dueAt →
      draft.Status = ReservationStatusActive ∧ draft.ReservedAt = now := by
  refine ⟨CreateReservation_log_of_ok now draft w hok, ?_⟩
  rintro newID keyID userID dueAt rfl
  exact ⟨rfl, rfl⟩

/-- C4, witness: the draft `NewReservation(key 1, user 7, due 100)` built at time 50 is
created in the empty store and handed to `Create` as it is, active and reserved at 50. -/
theorem CreateReservation_hands_over_the_draft_witness :
    (ReservationUseCase.CreateReservation 50 (NewReservation 50 3 1 7 100)
      examples.emptyWorld).1 = none ∧
    (ReservationUseCase.CreateReservation 50 (NewReservation 50 3 1 7 100)
      examples.emptyWorld).2.log =
      [.UserGetByID 7, .KeyGetByID 1, .ReservationGetActiveReservationByKey 1,
        .ReservationGetByUserID 7, .ReservationCreate (NewReservation 50 3 1 7 100)] ∧
    (NewReservation 50 3 1 7 100).Status = ReservationStatusActive ∧
    (NewReservation 50 3 1 7 100).ReservedAt = 50 :=
  have h := CreateReservation_hands_over_the_draft 50 (NewReservation 50 3 1 7 100)
    examples.emptyWorld (by decide)
  ⟨by decide, h.1, h.2 3 1 7 100 rfl⟩

/-- C4, counterexample: `CreateReservation` succeeds at time 100 on a draft whose status
is returned and whose reserved-at is 0, and hands exactly that record to `Create`. -/
theorem CreateReservation_stores_non_active_draft :
    (ReservationUseCase.CreateReservation 100 examples.draftReturned examples.emptyWorld).1
      = none ∧
    (ReservationUseCase.CreateReservation 100 examples.draftReturned examples.emptyWorld).2.log
      = [.UserGetByID 7, .KeyGetByID 1, .ReservationGetActiveReservationByKey 1,
          .ReservationGetByUserID 7, .ReservationCreate examples.draftReturned] ∧
    examples.draftReturned.Status ≠ ReservationStatusActive ∧
    examples.draftReturned.ReservedAt ≠ 100 := by
  decide

/-- The drafts `ValidateForCreation` accepts: due time not before the current time, and
key id, user id and due time all different from their zero values. -/
theorem ValidateForCreation_eq_none_iff (r : Reservation) (now : Time) :
    r.ValidateForCreation now = none ↔
      ¬ r.DueAt < now ∧ r.KeyID ≠ NilObjectID ∧ r.UserID ≠ NilObjectID ∧ r.DueAt ≠ 0 := by
  unfold Reservation.ValidateForCreation validateResult Reservation.structErrors
  by_cases h1 : r.DueAt < now
  · simp [h1]
  · rw [if_neg h1]
    by_cases h2 : r.KeyID = NilObjectID <;> by_cases h3 : r.UserID = NilObjectID <;>
      by_cases h4 : r.DueAt = 0 <;> simp [h2, h3, h4]
    exact not_lt.mp h1

/-- A draft with key and user ids whose due time is one second after the current time is
accepted (the clock reads a time after the zero time). -/
theorem ValidateForCreation_accepts_one_second_later (r : Reservation) (now : Time)
    (hnow : 0 ≤ now) (hk : r.KeyID ≠ NilObjectID) (hu : r.UserID ≠ NilObjectID)
    (hdue : r.DueAt = now + Second) : r.ValidateForCreation now = none := by
  rw [ValidateForCreation_eq_none_iff]
  have hs : Second = 1000000000 := rfl
  have hnow2 : (0 : Int) ≤ now := hnow
  refine ⟨?_, hk, hu, ?_⟩
  · rw [hdue, hs]
    exact not_lt.mpr (by linarith)
  · rw [hdue, hs]
    intro h
    linarith

/-- C5: a draft with key and user ids whose due time is exactly the current time is
accepted by `ValidateForCreation`, although the due time is not in the future, and
`CreateReservation` then succeeds on it. -/
theorem ValidateForCreation_accepts_due_now :
    examples.draftDueNow.KeyID ≠ NilObjectID ∧ examples.draftDueNow.UserID ≠ NilObjectID ∧
    examples.draftDueNow.DueAt = 100 ∧
    examples.draftDueNow.ValidateForCreation 100 = none ∧
    (ReservationUseCase.CreateReservation 100 examples.draftDueNow examples.emptyWorld).1
      = none := by
  decide

/-- C6: a failed validation writes nothing. `CreateReservation` and `CreateKey` return the
validation error with the world untouched, before any repository call; `UpdateKey` returns
it after the single read `GetByID`, with the three collections as they were. -/
theorem failed_validation_writes_nothing :
    (∀ (now : Time) (draft : Reservation) (w : World) (e : Error),
      draft.ValidateForCreation now = some e →
      ReservationUseCase.CreateReservation now draft w = (some e, w)) ∧
    (∀ (now : Time) (key : Key) (w : World) (e : Error),
      key.ValidateForCreation = some e →
      KeyUseCase.CreateKey now key UserRoleAdmin w = (some e, w)) ∧
    (∀ (now : Time) (key existing : Key) (w : World) (e : Error),
      w.fault = none → w.keys.find? (fun k => k.ID == key.ID) = some existing →
      ({ existing with Name := key.Name, Description := key.Description,
                       IsActive := key.IsActive, UpdatedAt := now } : Key).ValidateForUpdate
        = some e →
      KeyUseCase.UpdateKey now key UserRoleAdmin w = (some e, w.enter (.KeyGetByID key.ID)) ∧
      (w.enter (.KeyGetByID key.ID)).keys = w.keys ∧
      (w.enter (.KeyGetByID key.ID)).users = w.users ∧
      (w.enter (.KeyGetByID key.ID)).reservations = w.reservations ∧
      (w.enter (.KeyGetByID key.ID)).log = w.log ++ [.KeyGetByID key.ID]) := by
  refine ⟨?_, ?_, ?_⟩
  · intro now draft w e he
    simp [ReservationUseCase.CreateReservation, he]
  · intro now key w e he
    simp [KeyUseCase.CreateKey, he]
  · intro now key existing w e hf hfind he
    refine ⟨?_, rfl, rfl, rfl, rfl⟩
    simp [KeyUseCase.UpdateKey, KeyRepositoryImpl.GetByID, hf, hfind, he]

/-- C6, witness: a draft without key id, a key named by one letter and an update of key 1
to a one-letter name are all rejected and leave the store as it was. -/
theorem failed_validation_writes_nothing_witness :
    ReservationUseCase.CreateReservation 50 (NewReservation 50 3 0 7 100) examples.emptyWorld
      = (some (Error.ValidationErrors [⟨"KeyID", "required"⟩]), examples.emptyWorld) ∧
    KeyUseCase.CreateKey 50 (NewKey 50 2 "a" "") UserRoleAdmin examples.emptyWorld
      = (some (Error.ValidationErrors [⟨"Name", "min"⟩]), examples.emptyWorld) ∧
    KeyUseCase.UpdateKey 50 (NewKey 50 1 "a" "") UserRoleAdmin examples.emptyWorld
      = (some (Error.ValidationErrors [⟨"Name", "min"⟩]),
          examples.emptyWorld.enter (.KeyGetByID 1)) ∧
    (examples.emptyWorld.enter (.KeyGetByID 1)).keys = examples.emptyWorld.keys :=
  ⟨failed_validation_writes_nothing.1 50 (NewReservation 50 3 0 7 100) examples.emptyWorld _
      (by decide),
    failed_validation_writes_nothing.2.1 50 (NewKey 50 2 "a" "") examples.emptyWorld _
      (by decide),
    (failed_validation_writes_nothing.2.2 50 (NewKey 50 1 "a" "") examples.key1
      examples.emptyWorld _ (by decide) (by decide) (by decide)).1,
    (failed_validation_writes_nothing.2.2 50 (NewKey 50 1 "a" "") examples.key1
      examples.emptyWorld (Error.ValidationErrors [⟨"Name", "min"⟩])
      (by decide) (by decide) (by decide)).2.1⟩


/-- C7: reservation 3 of user 7 is active and was due at 100. Returned by its
owner at 200 it is overdue, `ReturnKey` succeeds and persists status returned, but no
`BlockUser` call is made and user 7 stays unblocked: `ReturnKey` tests `IsOverdue` after
`MarkAsReturned` has already changed the status, so the test is always false. -/
theorem ReturnKey_late_return_does_not_block :
    examples.reservation3.IsOverdue 200 = true ∧
    ReservationUseCase.ReturnKey 200 3 7 examples.reservedWorld =
      (none, { examples.reservedWorld with
        reservations := [examples.returned3],
        log := [.ReservationGetByID 3, .UserGetByID 7,
          .ReservationUpdate examples.returned3] }) ∧
    (ReservationUseCase.ReturnKey 200 3 7 examples.reservedWorld).2.users.find?
      (fun u => u.ID == 7) = some examples.resident7 ∧
    examples.resident7.IsBlocked = false ∧
    (ReservationUseCase.ReturnKey 200 3 9 examples.reservedWorld).2.log =
      [.ReservationGetByID 3, .UserGetByID 9, .ReservationUpdate examples.returned3] := by
  decide

/-- C8: with no repository failure, for a stored active reservation that is not yet due,
`ReturnKey` called by its owner succeeds with exactly two reads and one `Update`; the
stored reservation then has status returned and returned-at equal to the current time,
no `BlockUser` call is made and the users, the owner among them, are unchanged. -/
theorem ReturnKey_on_time (now : Time) (rid : ObjectID) (w : World) (r : Reservation)
    (owner : User) (hf : w.faults = [])
    (hr : w.reservations.find? (fun x => x.ID == rid) = some r)
    (hact : r.Status = ReservationStatusActive) (hdue : now < r.DueAt)
    (ho : w.users.find? (fun u => u.ID == r.UserID) = some owner) :
    ReservationUseCase.ReturnKey now rid r.UserID w =
      (none, { w with
        reservations := replaceOne Reservation.ID rid
          { r with ReturnedAt := some now, Status := ReservationStatusReturned, UpdatedAt := now }
          w.reservations,
        log := w.log ++ [.ReservationGetByID rid, .UserGetByID r.UserID,
          .ReservationUpdate
            { r with ReturnedAt := some now, Status := ReservationStatusReturned,
                     UpdatedAt := now }] }) ∧
    (ReservationUseCase.ReturnKey now rid r.UserID w).2.reservations.find?
        (fun x => x.ID == rid) =
      some { r with ReturnedAt := some now, Status := ReservationStatusReturned,
                    UpdatedAt := now } ∧
    (ReservationUseCase.ReturnKey now rid r.UserID w).2.users.find?
        (fun u => u.ID == r.UserID) = some owner ∧
    r.IsOverdue now = false := by
  have hfault : w.fault = none := World.fault_of_faults_nil hf
  have hid : r.ID = rid := by simpa using List.find?_some hr
  have hnot : r.IsOverdue now = false := by
    have : ¬ r.DueAt < now := not_lt.mpr (le_of_lt hdue)
    simp [Reservation.IsOverdue, this]
  have hres : ReservationUseCase.ReturnKey now rid r.UserID w =
      (none, { w with
        reservations := replaceOne Reservation.ID rid
          { r with ReturnedAt := some now, Status := ReservationStatusReturned, UpdatedAt := now }
          w.reservations,
        log := w.log ++ [.ReservationGetByID rid, .UserGetByID r.UserID,
          .ReservationUpdate
            { r with ReturnedAt := some now, Status := ReservationStatusReturned,
                     UpdatedAt := now }] }) := by
    simp [ReservationUseCase.ReturnKey, ReservationRepositoryImpl.GetByID, hfault, hr,
      UserRepositoryImpl.GetByID, World.fault, World.enter, hf, ho, hact,
      Reservation.MarkAsReturned, Reservation.IsOverdue, returned_ne_active,
      ReservationRepositoryImpl.Update, hid]
  refine ⟨hres, ?_, ?_, hnot⟩
  · rw [hres]
    exact find?_replaceOne_self Reservation.ID rid
      ({ r with ReturnedAt := some now, Status := ReservationStatusReturned,
                UpdatedAt := now } : Reservation) r hid _ hr
  · rw [hres]
    exact ho

/-- C8, witness: user 7 returns reservation 3 (due at 100) at time 50. -/
theorem ReturnKey_on_time_witness :
    ReservationUseCase.ReturnKey 50 3 7 examples.reservedWorld =
      (none, { examples.reservedWorld with
        reservations := [{ examples.reservation3 with
          ReturnedAt := some 50, Status := ReservationStatusReturned, UpdatedAt := 50 }],
        log := [.ReservationGetByID 3, .UserGetByID 7,
          .ReservationUpdate { examples.reservation3 with
            ReturnedAt := some 50, Status := ReservationStatusReturned, UpdatedAt := 50 }] }) :=
  (ReturnKey_on_time 50 3 examples.reservedWorld examples.reservation3 examples.resident7
    (by decide) (by decide) (by decide) (by decide) (by decide)).1

/-- C9: with no repository failure, for an existing reservation and an existing acting
user: when the user is neither the owner nor an admin, `ReturnKey` returns
`ErrUnauthorized` after its two reads and writes nothing; when the user is the owner or an
admin, the result is not `ErrUnauthorized`. -/
theorem ReturnKey_authorisation (now : Time) (rid uid : ObjectID) (w : World)
    (r : Reservation) (u : User) (hf : w.faults = [])
    (hr : w.reservations.find? (fun x => x.ID == rid) = some r)
    (hu : w.users.find? (fun x => x.ID == uid) = some u) :
    (r.UserID ≠ uid → u.Role ≠ UserRoleAdmin →
      ReservationUseCase.ReturnKey now rid uid w =
        (some Error.ErrUnauthorized,
          { w with log := w.log ++ [.ReservationGetByID rid, .UserGetByID uid] })) ∧
    ((r.UserID = uid ∨ u.Role = UserRoleAdmin) →
      (ReservationUseCase.ReturnKey now rid uid w).1 ≠ some Error.ErrUnauthorized) := by
  have hfault : w.fault = none := World.fault_of_faults_nil hf
  refine ⟨?_, ?_⟩
  · intro h1 h2
    simp [ReservationUseCase.ReturnKey, ReservationRepositoryImpl.GetByID, hfault, hr,
      UserRepositoryImpl.GetByID, World.fault, World.enter, hf, hu, h1, h2, User.IsAdmin]
  · intro h
    have hauth : (r.UserID != uid && !u.IsAdmin) = false := by
      rcases h with h | h
      · simp [h]
      · simp [User.IsAdmin, h]
    by_cases hact : r.Status = ReservationStatusActive
    · simp [ReservationUseCase.ReturnKey, ReservationRepositoryImpl.GetByID, hfault, hr,
        UserRepositoryImpl.GetByID, World.fault, World.enter, hf, hu, hauth, hact,
        Reservation.MarkAsReturned, Reservation.IsOverdue, returned_ne_active,
        ReservationRepositoryImpl.Update]
    · simp [ReservationUseCase.ReturnKey, ReservationRepositoryImpl.GetByID, hfault, hr,
        UserRepositoryImpl.GetByID, World.fault, World.enter, hf, hu, hauth, hact]

/-- C9, witness: resident 8 may not return reservation 3 of user 7; user 7 and admin 9
pass the authorisation check. -/
theorem ReturnKey_authorisation_witness :
    ReservationUseCase.ReturnKey 50 3 8 examples.reservedWorld =
      (some Error.ErrUnauthorized,
        { examples.reservedWorld with log := [.ReservationGetByID 3, .UserGetByID 8] }) ∧
    (ReservationUseCase.ReturnKey 50 3 7 examples.reservedWorld).1
      ≠ some Error.ErrUnauthorized ∧
    (ReservationUseCase.ReturnKey 50 3 9 examples.reservedWorld).1
      ≠ some Error.ErrUnauthorized :=
  ⟨(ReturnKey_authorisation 50 3 8 examples.reservedWorld examples.reservation3
      examples.resident8 (by decide) (by decide) (by decide)).1 (by decide) (by decide),
    (ReturnKey_authorisation 50 3 7 examples.reservedWorld examples.reservation3
      examples.resident7 (by decide) (by decide) (by decide)).2 (Or.inl (by decide)),
    (ReturnKey_authorisation 50 3 9 examples.reservedWorld examples.reservation3
      examples.admin9 (by decide) (by decide) (by decide)).2 (Or.inr (by decide))⟩


/-- A stored reservation that is not active is left as it is by `ReturnKey`,
`ExtendReservation`, `ProcessOverdueReservations` and `BlockUser`. -/
theorem terminal_reservation_kept (w : World) (t : Reservation)
    (hnd : (w.reservations.map Reservation.ID).Nodup) (ht : t ∈ w.reservations)
    (hterm : t.Status ≠ ReservationStatusActive) :
    (∀ now rid uid, (ReservationUseCase.ReturnKey now rid uid w).2.reservations.find?
      (fun x => x.ID == t.ID) = some t) ∧
    (∀ now rid due role,
      (ReservationUseCase.ExtendReservation now rid due role w).2.reservations.find?
        (fun x => x.ID == t.ID) = some t) ∧
    (∀ now, (ReservationUseCase.ProcessOverdueReservations now w).2.reservations.find?
      (fun x => x.ID == t.ID) = some t) ∧
    (∀ now uid role, (UserUseCase.BlockUser now uid role w).2.reservations.find?
      (fun x => x.ID == t.ID) = some t) := by
  have hfind : w.reservations.find? (fun x => x.ID == t.ID) = some t :=
    find?_of_mem_of_nodup Reservation.ID w.reservations hnd t ht
  have hne : ∀ r, r ∈ w.reservations → r.Status = ReservationStatusActive → r.ID ≠ t.ID := by
    intro r hr hact hid
    have : r = t := List.inj_on_of_nodup_map hnd hr ht hid
    subst this
    exact hterm hact
  refine ⟨?_, ?_, ?_, ?_⟩
  · intro now rid uid
    rcases ReservationUseCase.ReturnKey_reservations now rid uid w with h | ⟨r, hr, hact, h⟩
    · rw [h]; exact hfind
    · rw [h, find?_replaceOne_ne Reservation.ID r.ID t.ID
        ({ r with ReturnedAt := some now, Status := ReservationStatusReturned,
                  UpdatedAt := now } : Reservation) rfl
        (hne r (List.mem_of_find?_eq_some hr) hact)]
      exact hfind
  · intro now rid due role
    rcases ReservationUseCase.ExtendReservation_reservations now rid due role w
      with h | ⟨r, hr, hact, h⟩
    · rw [h]; exact hfind
    · rw [h, find?_replaceOne_ne Reservation.ID r.ID t.ID
        ({ r with DueAt := due, UpdatedAt := now } : Reservation) rfl
        (hne r (List.mem_of_find?_eq_some hr) hact)]
      exact hfind
  · intro now
    rw [Retired_find? (ReservationUseCase.ProcessOverdueReservations_retired now w) t.ID
      (id_not_mem_active_ids w.reservations hnd t ht hterm _ (by
        intro r hr
        simp only [Bool.and_eq_true, beq_iff_eq] at hr
        exact hr.1))]
    exact hfind
  · intro now uid role
    rw [Retired_find? (UserUseCase.BlockUser_retired now uid role w) t.ID
      (id_not_mem_active_ids w.reservations hnd t ht hterm _ (by
        intro r hr
        simpa using hr))]
    exact hfind

/-- C10: the status of a reservation only moves forward. On a returned or overdue
reservation `MarkAsReturned` and `MarkAsOverdue` return the error "reservation is not
active" and leave the receiver as it is; in a store with distinct ids, a stored returned
or overdue reservation is still stored unchanged after `ReturnKey`, `ExtendReservation`,
`ProcessOverdueReservations` and `BlockUser`, whatever their arguments and whichever
repository calls fail; on an active reservation `MarkAsReturned` yields status returned
and `MarkAsOverdue` yields status overdue, without error. -/
theorem status_is_one_directional :
    (∀ (r : Reservation) (now : Time),
      r.Status = ReservationStatusReturned ∨ r.Status = ReservationStatusOverdue →
      r.MarkAsReturned now = (r, some (Error.New "reservation is not active")) ∧
      r.MarkAsOverdue now = (r, some (Error.New "reservation is not active"))) ∧
    (∀ (w : World) (t : Reservation),
      (w.reservations.map Reservation.ID).Nodup → t ∈ w.reservations →
      t.Status = ReservationStatusReturned ∨ t.Status = ReservationStatusOverdue →
      (∀ now rid uid, (ReservationUseCase.ReturnKey now rid uid w).2.reservations.find?
        (fun x => x.ID == t.ID) = some t) ∧
      (∀ now rid due role,
        (ReservationUseCase.ExtendReservation now rid due role w).2.reservations.find?
          (fun x => x.ID == t.ID) = some t) ∧
      (∀ now, (ReservationUseCase.ProcessOverdueReservations now w).2.reservations.find?
        (fun x => x.ID == t.ID) = some t) ∧
      (∀ now uid role, (UserUseCase.BlockUser now uid role w).2.reservations.find?
        (fun x => x.ID == t.ID) = some t)) ∧
    (∀ (r : Reservation) (now : Time), r.Status = ReservationStatusActive →
      (r.MarkAsReturned now).2 = none ∧
      (r.MarkAsReturned now).1.Status = ReservationStatusReturned ∧
      (r.MarkAsOverdue now).2 = none ∧
      (r.MarkAsOverdue now).1.Status = ReservationStatusOverdue) := by
  have hterm : ∀ r : Reservation,
      r.Status = ReservationStatusReturned ∨ r.Status = ReservationStatusOverdue →
      r.Status ≠ ReservationStatusActive := by
    intro r h
    rcases h with h | h <;> rw [h]
    · exact returned_ne_active
    · exact overdue_ne_active
  refine ⟨?_, ?_, ?_⟩
  · intro r now h
    exact ⟨Reservation.MarkAsReturned_of_not_active now (hterm r h),
      Reservation.MarkAsOverdue_of_not_active now (hterm r h)⟩
  · intro w t hnd ht h
    exact terminal_reservation_kept w t hnd ht (hterm t h)
  · intro r now h
    rw [Reservation.MarkAsReturned_of_active now h, Reservation.MarkAsOverdue_of_active now h]
    exact ⟨rfl, rfl, rfl, rfl⟩

/-- C10, witness: the returned reservation 3 rejects both transitions, survives a return
attempt by its owner, an extension by an admin, a sweep and the blocking of its owner;
the active reservation 3 becomes returned, or overdue. -/
theorem status_is_one_directional_witness :
    examples.returned3.MarkAsOverdue 300
      = (examples.returned3, some (Error.New "reservation is not active")) ∧
    (ReservationUseCase.ReturnKey 300 3 7 examples.returnedWorld).2.reservations.find?
      (fun x => x.ID == 3) = some examples.returned3 ∧
    (ReservationUseCase.ExtendReservation 300 3 900 UserRoleAdmin
      examples.returnedWorld).2.reservations.find? (fun x => x.ID == 3)
      = some examples.returned3 ∧
    (ReservationUseCase.ProcessOverdueReservations 300 examples.returnedWorld).2.reservations.find?
      (fun x => x.ID == 3) = some examples.returned3 ∧
    (UserUseCase.BlockUser 300 7 UserRoleAdmin examples.returnedWorld).2.reservations.find?
      (fun x => x.ID == 3) = some examples.returned3 ∧
    (examples.reservation3.MarkAsReturned 200).1.Status = ReservationStatusReturned ∧
    (examples.reservation3.MarkAsOverdue 200).1.Status = ReservationStatusOverdue :=
  have h := status_is_one_directional.2.1 examples.returnedWorld examples.returned3
    (by decide) (by decide) (Or.inl (by decide))
  ⟨(status_is_one_directional.1 examples.returned3 300 (Or.inl (by decide))).2,
    h.1 300 3 7, h.2.1 300 3 900 UserRoleAdmin, h.2.2.1 300, h.2.2.2 300 7 UserRoleAdmin,
    (status_is_one_directional.2.2 examples.reservation3 200 (by decide)).2.1,
    (status_is_one_directional.2.2 examples.reservation3 200 (by decide)).2.2.2⟩

end claims

namespace claims

open entity repository usecase spec

/-- C12: when `ProcessOverdueReservations` returns without error, its calls are the read
`GetOverdueReservations` followed, for every stored reservation that was active and due
before the current time, by the `Update` of that reservation with status overdue and the
`BlockUser` of its owner; in a store with distinct ids the stored reservation then is the
overdue version and its owner, when a stored user, has the blocked flag set. -/
theorem sweep_postcondition (now : Time) (w : World)
    (hok : (ReservationUseCase.ProcessOverdueReservations now w).1 = none) :
    (ReservationUseCase.ProcessOverdueReservations now w).2.log =
      w.log ++ [.ReservationGetOverdueReservations] ++
        sweepCalls now (w.reservations.filter (pastDue now)) ∧
    (∀ r ∈ w.reservations, r.Status = ReservationStatusActive → r.DueAt < now →
      Call.ReservationUpdate (overdueOf now r)
        ∈ sweepCalls now (w.reservations.filter (pastDue now)) ∧
      Call.UserBlockUser r.UserID ∈ sweepCalls now (w.reservations.filter (pastDue now))) ∧
    ((w.reservations.map Reservation.ID).Nodup →
      ∀ r ∈ w.reservations, r.Status = ReservationStatusActive → r.DueAt < now →
        (ReservationUseCase.ProcessOverdueReservations now w).2.reservations.find?
          (fun x => x.ID == r.ID) = some (overdueOf now r) ∧
        Blocked r.UserID (ReservationUseCase.ProcessOverdueReservations now w).2.users
          = true) := by
  have hpd : ∀ r : Reservation, r.Status = ReservationStatusActive → r.DueAt < now →
      pastDue now r = true := by
    intro r h1 h2
    simp [pastDue, h1, h2]
  refine ⟨ReservationUseCase.ProcessOverdueReservations_log_ok now w hok, ?_, ?_⟩
  · intro r hr hact hdue
    have hmem : r ∈ w.reservations.filter (pastDue now) :=
      List.mem_filter.mpr ⟨hr, hpd r hact hdue⟩
    unfold sweepCalls
    constructor
    · exact List.mem_flatMap.mpr ⟨r, hmem, by simp⟩
    · exact List.mem_flatMap.mpr ⟨r, hmem, by simp⟩
  · intro hnd r hr hact hdue
    rcases ReservationUseCase.ProcessOverdueReservations_each now w hnd r hr (hpd r hact hdue)
      with ⟨-, h⟩ | ⟨h1, h2⟩
    · exact absurd hok h
    · refine ⟨h1, ?_⟩
      rcases h2 with h2 | ⟨e, h2⟩
      · exact h2
      · rw [hok] at h2
        cases h2

/-- C12, witness: the sweep at time 200 over the store where reservation 3 of user 7 was
due at 100. -/
theorem sweep_postcondition_witness :
    (ReservationUseCase.ProcessOverdueReservations 200 examples.reservedWorld).2.log =
      [.ReservationGetOverdueReservations, .ReservationUpdate examples.overdue3,
        .UserBlockUser 7] ∧
    (ReservationUseCase.ProcessOverdueReservations 200
      examples.reservedWorld).2.reservations.find? (fun x => x.ID == 3)
        = some examples.overdue3 ∧
    Blocked 7 (ReservationUseCase.ProcessOverdueReservations 200 examples.reservedWorld).2.users
      = true :=
  have h := sweep_postcondition 200 examples.reservedWorld (by decide)
  have h3 := h.2.2 (by decide) examples.reservation3 (by decide) (by decide) (by decide)
  ⟨h.1, h3.1, h3.2⟩

/-- C13: in a store with distinct ids, after a sweep that ended without error a second
sweep, run before any further stored active reservation falls due, makes the single call
`GetOverdueReservations` and leaves keys, users and reservations as the first sweep left
them; it returns without error unless that read fails. -/
theorem sweep_idempotent (now now2 : Time) (w w1 : World)
    (hnd : (w.reservations.map Reservation.ID).Nodup)
    (hok : (ReservationUseCase.ProcessOverdueReservations now w).1 = none)
    (hw1 : w1 = (ReservationUseCase.ProcessOverdueReservations now w).2)
    (hquiet : ∀ r ∈ w.reservations, r.Status = ReservationStatusActive →
      ¬ r.DueAt < now → ¬ r.DueAt < now2) :
    (ReservationUseCase.ProcessOverdueReservations now2 w1).2.keys = w1.keys ∧
    (ReservationUseCase.ProcessOverdueReservations now2 w1).2.users = w1.users ∧
    (ReservationUseCase.ProcessOverdueReservations now2 w1).2.reservations = w1.reservations ∧
    (ReservationUseCase.ProcessOverdueReservations now2 w1).2.log =
      w1.log ++ [.ReservationGetOverdueReservations] ∧
    (w1.fault = none →
      (ReservationUseCase.ProcessOverdueReservations now2 w1).1 = none) := by
  have hempty : w1.reservations.filter
      (fun r => r.Status == ReservationStatusActive && decide (r.DueAt < now2)) = [] := by
    rw [List.filter_eq_nil_iff]
    intro b hb hpd
    rw [hw1] at hb
    have h := ReservationUseCase.ProcessOverdueReservations_none_left now now2 w hnd hok b hb hpd
    have hact : b.Status = ReservationStatusActive := by
      simp only [Bool.and_eq_true, beq_iff_eq] at hpd
      exact hpd.1
    have hdue2 : b.DueAt < now2 := by
      simp only [Bool.and_eq_true, decide_eq_true_eq] at hpd
      exact hpd.2
    have hdue : ¬ b.DueAt < now := by
      intro hlt
      have := h.2
      simp [pastDue, hact, hlt] at this
    exact hquiet b h.1 hact hdue hdue2
  unfold ReservationUseCase.ProcessOverdueReservations
    ReservationRepositoryImpl.GetOverdueReservations
  rcases w1.fault_cases with hf | ⟨c, hf⟩
  · simp only [hf, hempty, ReservationUseCase.processOverdueLoop]
    refine ⟨rfl, rfl, rfl, rfl, ?_⟩
    trivial
  · simp only [hf]
    refine ⟨rfl, rfl, rfl, rfl, ?_⟩
    intro h
    cases h

/-- C13, witness: two sweeps at time 200 over the store where reservation 3 was due at
100. -/
theorem sweep_idempotent_witness :
    (ReservationUseCase.ProcessOverdueReservations 200
      (ReservationUseCase.ProcessOverdueReservations 200 examples.reservedWorld).2).2.reservations
      = [examples.overdue3] ∧
    (ReservationUseCase.ProcessOverdueReservations 200
      (ReservationUseCase.ProcessOverdueReservations 200 examples.reservedWorld).2).2.log
      = [.ReservationGetOverdueReservations, .ReservationUpdate examples.overdue3,
          .UserBlockUser 7, .ReservationGetOverdueReservations] :=
  have h := sweep_idempotent 200 200 examples.reservedWorld _ (by decide) (by decide) rfl
    (fun _ _ _ h => h)
  ⟨h.2.2.1.trans (by decide), h.2.2.2.1.trans (by decide)⟩

/-- C14 (as amended): in a store with distinct ids, whatever the first sweep did, a second
sweep at the same or a later time with no repository failure returns without error, and
every reservation that was active and past due before the first sweep is then stored with
status overdue. When the first sweep did not fail at a `BlockUser`, the owner of every
such reservation, when a stored user, has the blocked flag set as well. The second sweep
calls `Update` and `BlockUser` exactly for the reservations that the first sweep left
active and past due: it blocks the owners of those, and leaves the record of every other
user as the first sweep left it. When the first sweep failed at the `BlockUser` of a
user, a past-due reservation of that user is stored overdue, with the updated-at of the
first sweep, after both sweeps; and when every user had at most one active reservation,
the second sweep makes no `BlockUser` call for that user, whose stored record is after
both sweeps what it was before them. -/
theorem sweep_rerun_after_failure (now now2 : Time) (w w1 : World)
    (hnd : (w.reservations.map Reservation.ID).Nodup) (hle : now ≤ now2)
    (hw1 : w1 = { (ReservationUseCase.ProcessOverdueReservations now w).2 with faults := [] }) :
    (ReservationUseCase.ProcessOverdueReservations now2 w1).1 = none ∧
    (∀ r ∈ w.reservations, r.Status = ReservationStatusActive → r.DueAt < now →
      ∃ r2, (ReservationUseCase.ProcessOverdueReservations now2 w1).2.reservations.find?
          (fun x => x.ID == r.ID) = some r2 ∧
        r2.Status = ReservationStatusOverdue) ∧
    ((∀ uid e, (ReservationUseCase.ProcessOverdueReservations now w).1 ≠
        some (Error.Errorf "failed to block user %s: %w" [uid] e)) →
      ∀ r ∈ w.reservations, r.Status = ReservationStatusActive → r.DueAt < now →
        Blocked r.UserID (ReservationUseCase.ProcessOverdueReservations now2 w1).2.users
          = true) ∧
    (ReservationUseCase.ProcessOverdueReservations now2 w1).2.log =
      w1.log ++ [.ReservationGetOverdueReservations] ++
        sweepCalls now2 (w1.reservations.filter (pastDue now2)) ∧
    (∀ uid, (∃ r ∈ w1.reservations, pastDue now2 r = true ∧ r.UserID = uid) →
      Blocked uid (ReservationUseCase.ProcessOverdueReservations now2 w1).2.users = true) ∧
    (∀ uid, (∀ r ∈ w1.reservations, pastDue now2 r = true → r.UserID ≠ uid) →
      (ReservationUseCase.ProcessOverdueReservations now2 w1).2.users.find?
          (fun u => u.ID == uid) = w1.users.find? (fun u => u.ID == uid) ∧
      Call.UserBlockUser uid ∉ sweepCalls now2 (w1.reservations.filter (pastDue now2))) ∧
    (∀ uid e, (ReservationUseCase.ProcessOverdueReservations now w).1 =
        some (Error.Errorf "failed to block user %s: %w" [uid] e) →
      (∃ r ∈ w.reservations, r.Status = ReservationStatusActive ∧ r.DueAt < now ∧
        r.UserID = uid ∧
        (ReservationUseCase.ProcessOverdueReservations now2 w1).2.reservations.find?
          (fun x => x.ID == r.ID) = some (overdueOf now r)) ∧
      (AtMostOneActivePerUser w.reservations →
        (ReservationUseCase.ProcessOverdueReservations now2 w1).2.users.find?
            (fun u => u.ID == uid) = w.users.find? (fun u => u.ID == uid) ∧
        Call.UserBlockUser uid ∉
          sweepCalls now2 (w1.reservations.filter (pastDue now2)))) := by
  have hf1 : w1.faults = [] := by rw [hw1]
  have hres1 : w1.reservations =
      (ReservationUseCase.ProcessOverdueReservations now w).2.reservations := by rw [hw1]
  have husers1 : w1.users = (ReservationUseCase.ProcessOverdueReservations now w).2.users := by
    rw [hw1]
  have hnd1 : (w1.reservations.map Reservation.ID).Nodup := by
    rw [hres1]
    exact (distinct_ids_preserved w hnd).2.2.2.1 now
  have hok2 := ReservationUseCase.ProcessOverdueReservations_ok_of_faults_nil now2 w1 hf1
  have hpd : ∀ r : Reservation, r.Status = ReservationStatusActive → r.DueAt < now →
      pastDue now r = true ∧ pastDue now2 r = true := by
    intro r h1 h2
    have h3 : r.DueAt < now2 := lt_of_lt_of_le h2 hle
    simp [pastDue, h1, h2, h3]
  -- what the two sweeps do to one reservation that was past due at the start
  have key : ∀ r ∈ w.reservations, r.Status = ReservationStatusActive → r.DueAt < now →
      (∃ r2, (ReservationUseCase.ProcessOverdueReservations now2 w1).2.reservations.find?
          (fun x => x.ID == r.ID) = some r2 ∧ r2.Status = ReservationStatusOverdue) ∧
      ((∀ uid e, (ReservationUseCase.ProcessOverdueReservations now w).1 ≠
          some (Error.Errorf "failed to block user %s: %w" [uid] e)) →
        Blocked r.UserID (ReservationUseCase.ProcessOverdueReservations now2 w1).2.users
          = true) := by
    intro r hr hact hdue
    rcases ReservationUseCase.ProcessOverdueReservations_each now w hnd r hr (hpd r hact hdue).1
      with ⟨h1, -⟩ | ⟨h1, h2⟩
    · -- untouched by the first sweep: the second sweep handles it
      rw [← hres1] at h1
      have hmem : r ∈ w1.reservations := List.mem_of_find?_eq_some h1
      rcases ReservationUseCase.ProcessOverdueReservations_each now2 w1 hnd1 r hmem
        (hpd r hact hdue).2 with ⟨-, h3⟩ | ⟨h3, h4⟩
      · exact absurd hok2 h3
      · refine ⟨⟨_, h3, rfl⟩, fun _ => ?_⟩
        rcases h4 with h4 | ⟨e, h4⟩
        · exact h4
        · rw [hok2] at h4
          cases h4
    · -- already overdue after the first sweep: the second sweep leaves it
      rw [← hres1] at h1
      have hmem : overdueOf now r ∈ w1.reservations := List.mem_of_find?_eq_some h1
      have hkeep := ReservationUseCase.ProcessOverdueReservations_keeps now2 w1 hnd1
        (overdueOf now r) hmem (overdueOf_not_pastDue now now2 r)
      refine ⟨⟨_, hkeep, rfl⟩, fun hnb => ?_⟩
      rcases h2 with h2 | ⟨e, h2⟩
      · apply ReservationUseCase.ProcessOverdueReservations_Blocked
        rw [husers1]
        exact h2
      · exact absurd h2 (hnb r.UserID e)
  have hlog := ReservationUseCase.ProcessOverdueReservations_log_ok now2 w1 hok2
  -- the users that the second sweep blocks
  have hblocks : ∀ uid, (∃ r ∈ w1.reservations, pastDue now2 r = true ∧ r.UserID = uid) →
      Blocked uid (ReservationUseCase.ProcessOverdueReservations now2 w1).2.users = true := by
    rintro uid ⟨r, hr, hpd2, rfl⟩
    rcases ReservationUseCase.ProcessOverdueReservations_each now2 w1 hnd1 r hr hpd2
      with ⟨-, h3⟩ | ⟨-, h4⟩
    · exact absurd hok2 h3
    · rcases h4 with h4 | ⟨e, h4⟩
      · exact h4
      · rw [hok2] at h4
        cases h4
  -- the users that the second sweep leaves
  have hleaves : ∀ uid, (∀ r ∈ w1.reservations, pastDue now2 r = true → r.UserID ≠ uid) →
      (ReservationUseCase.ProcessOverdueReservations now2 w1).2.users.find?
          (fun u => u.ID == uid) = w1.users.find? (fun u => u.ID == uid) ∧
      Call.UserBlockUser uid ∉
        sweepCalls now2 (w1.reservations.filter (pastDue now2)) := by
    intro uid hnone
    refine ⟨ReservationUseCase.ProcessOverdueReservations_users_find now2 uid w1 hnone, ?_⟩
    intro hmem
    unfold sweepCalls at hmem
    obtain ⟨x, hx, hc⟩ := List.mem_flatMap.mp hmem
    have hx2 := List.mem_filter.mp hx
    simp only [List.mem_cons, reduceCtorEq, Call.UserBlockUser.injEq, List.mem_singleton,
      List.not_mem_nil, or_false, false_or] at hc
    exact hnone x hx2.1 hx2.2 hc.symm
  -- a first sweep that failed at a `BlockUser`
  have hfailed : ∀ uid e, (ReservationUseCase.ProcessOverdueReservations now w).1 =
        some (Error.Errorf "failed to block user %s: %w" [uid] e) →
      (∃ r ∈ w.reservations, r.Status = ReservationStatusActive ∧ r.DueAt < now ∧
        r.UserID = uid ∧
        (ReservationUseCase.ProcessOverdueReservations now2 w1).2.reservations.find?
          (fun x => x.ID == r.ID) = some (overdueOf now r)) ∧
      (AtMostOneActivePerUser w.reservations →
        (ReservationUseCase.ProcessOverdueReservations now2 w1).2.users.find?
            (fun u => u.ID == uid) = w.users.find? (fun u => u.ID == uid) ∧
        Call.UserBlockUser uid ∉
          sweepCalls now2 (w1.reservations.filter (pastDue now2))) := by
    intro uid e herr
    obtain ⟨pre, res, post, hsplit, huid, hres, husers⟩ :=
      ReservationUseCase.ProcessOverdueReservations_failed_at_block now w uid e herr
    have hresmem : res ∈ w.reservations.filter (pastDue now) := by
      rw [hsplit]; simp
    have hres2 := List.mem_filter.mp hresmem
    have hact : res.Status = ReservationStatusActive := by
      have := hres2.2
      simp only [pastDue, Bool.and_eq_true, beq_iff_eq] at this
      exact this.1
    have hdue : res.DueAt < now := by
      have := hres2.2
      simp only [pastDue, Bool.and_eq_true, decide_eq_true_eq] at this
      exact this.2
    have hndf : ((pre ++ [res]).map Reservation.ID).Nodup := by
      have h := nodup_filter_ids w.reservations (pastDue now) hnd
      rw [hsplit, show pre ++ res :: post = (pre ++ [res]) ++ post by simp,
        List.map_append] at h
      exact List.Nodup.of_append_left h
    have hfind1 : w1.reservations.find? (fun x => x.ID == res.ID) =
        some (overdueOf now res) := by
      rw [hres1, hres]
      exact find?_cascadeStore_mem now (pre ++ [res]) w.reservations hndf res (by simp)
        ⟨res, find?_of_mem_of_nodup Reservation.ID w.reservations hnd res hres2.1⟩
    have hmem1 : overdueOf now res ∈ w1.reservations := List.mem_of_find?_eq_some hfind1
    have hkeep := ReservationUseCase.ProcessOverdueReservations_keeps now2 w1 hnd1
      (overdueOf now res) hmem1 (overdueOf_not_pastDue now now2 res)
    refine ⟨⟨res, hres2.1, hact, hdue, huid, hkeep⟩, ?_⟩
    intro hone
    have hp : ∀ x : Reservation, x.Status = ReservationStatusActive → x.UserID = uid →
        (fun r : Reservation => r.Status == ReservationStatusActive && r.UserID == uid) x
          = true := by
      intro x h1 h2
      simp [h1, h2]
    have hcount : w.reservations.countP
        (fun r => r.Status == ReservationStatusActive && r.UserID == uid) ≤ 1 := hone uid
    -- no earlier past-due reservation belongs to the user
    have hpre : uid ∉ pre.map Reservation.UserID := by
      intro hin
      obtain ⟨x, hx, hxu⟩ := List.mem_map.mp hin
      have hxmem : x ∈ w.reservations.filter (pastDue now) := by
        rw [hsplit]; exact List.mem_append_left _ hx
      have hx2 := List.mem_filter.mp hxmem
      have hxact : x.Status = ReservationStatusActive := by
        have := hx2.2
        simp only [pastDue, Bool.and_eq_true, beq_iff_eq] at this
        exact this.1
      have hsub : (w.reservations.filter (pastDue now)).countP
          (fun r => r.Status == ReservationStatusActive && r.UserID == uid) ≤
          w.reservations.countP
            (fun r => r.Status == ReservationStatusActive && r.UserID == uid) :=
        List.Sublist.countP_le _ (List.filter_sublist _)
      rw [hsplit, List.countP_append, List.countP_cons] at hsub
      have h1 : 0 < pre.countP
          (fun r => r.Status == ReservationStatusActive && r.UserID == uid) :=
        List.countP_pos_iff.mpr ⟨x, hx, hp x hxact hxu⟩
      rw [if_pos (hp res hact huid)] at hsub
      omega
    -- the first sweep left no active reservation of the user
    have hnone : ∀ b ∈ w1.reservations, pastDue now2 b = true → b.UserID ≠ uid := by
      intro b hb hpd2 hbu
      have hbact : b.Status = ReservationStatusActive := by
        simp only [pastDue, Bool.and_eq_true, beq_iff_eq] at hpd2
        exact hpd2.1
      have hb0 : b ∈ w.reservations := by
        rw [hres1, hres] at hb
        rcases mem_cascadeStore now _ _ b hb with h | ⟨x, -, h⟩
        · exact h
        · rw [h] at hbact
          exact absurd hbact overdue_ne_active
      have hbres : b = res :=
        eq_of_countP_le_one _ w.reservations hcount b res hb0 hres2.1 (hp b hbact hbu)
          (hp res hact huid)
      have hself := find?_of_mem_of_nodup Reservation.ID w1.reservations hnd1 b hb
      rw [hbres, hfind1] at hself
      have := congrArg Reservation.Status (Option.some.inj hself)
      rw [hact] at this
      exact overdue_ne_active this
    obtain ⟨h1, h2⟩ := hleaves uid hnone
    refine ⟨?_, h2⟩
    rw [h1, husers1]
    exact husers uid hpre
  exact ⟨hok2, fun r hr hact hdue => (key r hr hact hdue).1,
    fun hnb r hr hact hdue => (key r hr hact hdue).2 hnb, hlog, hblocks, hleaves, hfailed⟩

/-- C14, witness: the first sweep at time 200 fails at the `Update` of reservation 3; the
second sweep marks it overdue and blocks user 7. In the store where user 7 holds two
past-due reservations the first sweep fails at the `BlockUser` of user 7, and the second
sweep finds the other reservation and blocks user 7. In the store where user 7 holds
reservation 3 alone and the first sweep fails at the `BlockUser` of user 7, the record of
user 7 is after both sweeps what it was before them. -/
theorem sweep_rerun_after_failure_witness :
    (ReservationUseCase.ProcessOverdueReservations 200 examples.secondCallFailsWorld).1 =
      some (Error.Errorf "failed to update reservation %s: %w" [3] (Error.Store 1)) ∧
    (ReservationUseCase.ProcessOverdueReservations 200
      { (ReservationUseCase.ProcessOverdueReservations 200 examples.secondCallFailsWorld).2
        with faults := [] }).1 = none ∧
    Blocked 7 (ReservationUseCase.ProcessOverdueReservations 200
      { (ReservationUseCase.ProcessOverdueReservations 200 examples.secondCallFailsWorld).2
        with faults := [] }).2.users = true ∧
    (ReservationUseCase.ProcessOverdueReservations 200 examples.twoPastDueWorld).1 =
      some (Error.Errorf "failed to block user %s: %w" [7] (Error.Store 1)) ∧
    Blocked 7 (ReservationUseCase.ProcessOverdueReservations 200
      { (ReservationUseCase.ProcessOverdueReservations 200 examples.twoPastDueWorld).2
        with faults := [] }).2.users = true ∧
    (ReservationUseCase.ProcessOverdueReservations 200 examples.thirdCallFailsWorld).1 =
      some (Error.Errorf "failed to block user %s: %w" [7] (Error.Store 1)) ∧
    (ReservationUseCase.ProcessOverdueReservations 200
      { (ReservationUseCase.ProcessOverdueReservations 200 examples.thirdCallFailsWorld).2
        with faults := [] }).2.users.find? (fun u => u.ID == 7) =
      examples.thirdCallFailsWorld.users.find? (fun u => u.ID == 7) :=
  have h := sweep_rerun_after_failure 200 200 examples.secondCallFailsWorld _ (by decide)
    (le_refl _) rfl
  have h1 : (ReservationUseCase.ProcessOverdueReservations 200
      examples.secondCallFailsWorld).1 =
      some (Error.Errorf "failed to update reservation %s: %w" [3] (Error.Store 1)) := by
    decide
  have h2 := sweep_rerun_after_failure 200 200 examples.twoPastDueWorld _ (by decide)
    (le_refl _) rfl
  have h3 := sweep_rerun_after_failure 200 200 examples.thirdCallFailsWorld _ (by decide)
    (le_refl _) rfl
  have h4 : (ReservationUseCase.ProcessOverdueReservations 200
      examples.thirdCallFailsWorld).1 =
      some (Error.Errorf "failed to block user %s: %w" [7] (Error.Store 1)) := by
    decide
  ⟨h1, h.1,
    h.2.2.1 (fun uid e he => by
        rw [h1] at he
        injection he with he
        injection he with he
        exact absurd he (by decide))
      examples.reservation3 (by decide) (by decide) (by decide),
    by decide,
    h2.2.2.2.2.1 7 ⟨NewReservation 10 4 2 7 100, by decide, by decide, rfl⟩,
    h4,
    ((h3.2.2.2.2.2.2 7 (Error.Store 1) h4).2 (fun _ => List.countP_le_length _)).1⟩

/-- C14, counterexample: the first sweep at time 200 marks reservation 3 overdue and then
fails at the `BlockUser` of its owner; the second sweep, with no failure, finds nothing to
do and user 7 stays unblocked. -/
theorem sweep_rerun_does_not_block_after_block_failure :
    ReservationUseCase.ProcessOverdueReservations 200 examples.thirdCallFailsWorld =
      (some (Error.Errorf "failed to block user %s: %w" [7] (Error.Store 1)),
        { examples.reservedWorld with
          reservations := [examples.overdue3],
          log := [.ReservationGetOverdueReservations,
            .ReservationUpdate examples.overdue3, .UserBlockUser 7] }) ∧
    ReservationUseCase.ProcessOverdueReservations 200
        { (ReservationUseCase.ProcessOverdueReservations 200 examples.thirdCallFailsWorld).2
          with faults := [] } =
      (none, { examples.reservedWorld with
          reservations := [examples.overdue3],
          log := [.ReservationGetOverdueReservations,
            .ReservationUpdate examples.overdue3, .UserBlockUser 7,
            .ReservationGetOverdueReservations] }) ∧
    examples.reservedWorld.users.find? (fun u => u.ID == 7) = some examples.resident7 ∧
    examples.resident7.IsBlocked = false := by
  decide

/-- C15: `ExtendReservation` fails in this order. A role other than admin gives
`ErrUnauthorized` with no repository call at all, whatever the store holds. For an admin
and a repository that answers, a missing reservation gives `ErrReservationNotFound`; a
stored reservation whose status is not active gives `ErrCannotExtendReservation` whatever
the new due time; an active one with a new due time strictly before its due-at gives
"new due time cannot be before current due time". In the last three cases the only call is
the read `GetByID`, and whenever `ExtendReservation` returns an error, keys, users and
reservations are as before. -/
theorem ExtendReservation_failure_order (now : Time) (rid : ObjectID) (newDueTime : Time)
    (role : UserRole) (w : World) :
    (role ≠ UserRoleAdmin →
      ReservationUseCase.ExtendReservation now rid newDueTime role w =
        (some Error.ErrUnauthorized, w)) ∧
    (w.fault = none → w.reservations.find? (fun x => x.ID == rid) = none →
      ReservationUseCase.ExtendReservation now rid newDueTime UserRoleAdmin w =
        (some Error.ErrReservationNotFound, w.enter (.ReservationGetByID rid))) ∧
    (∀ r, w.fault = none → w.reservations.find? (fun x => x.ID == rid) = some r →
      r.Status ≠ ReservationStatusActive →
      ReservationUseCase.ExtendReservation now rid newDueTime UserRoleAdmin w =
        (some Error.ErrCannotExtendReservation, w.enter (.ReservationGetByID rid))) ∧
    (∀ r, w.fault = none → w.reservations.find? (fun x => x.ID == rid) = some r →
      r.Status = ReservationStatusActive → newDueTime < r.DueAt →
      ReservationUseCase.ExtendReservation now rid newDueTime UserRoleAdmin w =
        (some (Error.New "new due time cannot be before current due time"),
          w.enter (.ReservationGetByID rid))) ∧
    ((ReservationUseCase.ExtendReservation now rid newDueTime role w).1 ≠ none →
      (ReservationUseCase.ExtendReservation now rid newDueTime role w).2.keys = w.keys ∧
      (ReservationUseCase.ExtendReservation now rid newDueTime role w).2.users = w.users ∧
      (ReservationUseCase.ExtendReservation now rid newDueTime role w).2.reservations =
        w.reservations) := by
  refine ⟨?_, ?_, ?_, ?_, ?_⟩
  · intro h
    simp [ReservationUseCase.ExtendReservation, h]
  · intro hf hfind
    simp [ReservationUseCase.ExtendReservation, ReservationRepositoryImpl.GetByID, hf, hfind]
  · intro r hf hfind hst
    simp [ReservationUseCase.ExtendReservation, ReservationRepositoryImpl.GetByID, hf, hfind,
      Reservation.CanBeExtended, hst]
  · intro r hf hfind hst hdue
    simp [ReservationUseCase.ExtendReservation, ReservationRepositoryImpl.GetByID, hf, hfind,
      Reservation.CanBeExtended, hst, hdue]
  · intro herr
    have hku := ReservationUseCase.ExtendReservation_keys_users now rid newDueTime role w
    rcases ReservationUseCase.ExtendReservation_effect now rid newDueTime role w with
      h | ⟨r, -, -, -, -, hok, -⟩
    · exact ⟨hku.1, hku.2, h.2⟩
    · exact absurd hok herr

/-- C15, witness: in the store holding the active reservation 3 due at 100, a resident is
refused for any id; the admin gets not-found for id 4 and the due-time error for the new due
time 99; in the store where reservation 3 is returned the admin gets the cannot-extend
error although 99 is before its due-at. -/
theorem ExtendReservation_failure_order_witness :
    ReservationUseCase.ExtendReservation 50 4 200 UserRoleResident examples.reservedWorld =
      (some Error.ErrUnauthorized, examples.reservedWorld) ∧
    ReservationUseCase.ExtendReservation 50 4 200 UserRoleAdmin examples.reservedWorld =
      (some Error.ErrReservationNotFound,
        examples.reservedWorld.enter (.ReservationGetByID 4)) ∧
    ReservationUseCase.ExtendReservation 50 3 99 UserRoleAdmin examples.returnedWorld =
      (some Error.ErrCannotExtendReservation,
        examples.returnedWorld.enter (.ReservationGetByID 3)) ∧
    ReservationUseCase.ExtendReservation 50 3 99 UserRoleAdmin examples.reservedWorld =
      (some (Error.New "new due time cannot be before current due time"),
        examples.reservedWorld.enter (.ReservationGetByID 3)) :=
  ⟨(ExtendReservation_failure_order 50 4 200 UserRoleResident examples.reservedWorld).1
      (by decide),
    (ExtendReservation_failure_order 50 4 200 UserRoleAdmin examples.reservedWorld).2.1
      (by decide) (by decide),
    (ExtendReservation_failure_order 50 3 99 UserRoleAdmin examples.returnedWorld).2.2.1
      examples.returned3 (by decide) (by decide) (by decide),
    (ExtendReservation_failure_order 50 3 99 UserRoleAdmin examples.reservedWorld).2.2.2.1
      examples.reservation3 (by decide) (by decide) (by decide) (by decide)⟩

/-- C16: for an admin caller, a repository that does not fail, an active reservation found
by the id and a new due time not before its due-at (equality included),
`ExtendReservation` returns no error after exactly the calls `GetByID` and `Update`, and
what it stores under the id is the reservation read with due-at set to the new due time
and updated-at to the current time, every other field as read; keys, users and every other
reservation are untouched. For every caller, store and failure script, a reservation found
by an id before the call is found by that id afterwards with the same id, key id, user id,
reserved-at, returned-at, status and created-at, and with a due-at that is not earlier. -/
theorem ExtendReservation_success_and_frame (now : Time) (rid : ObjectID) (newDueTime : Time)
    (role : UserRole) (w : World) :
    (∀ r, w.faults = [] → w.reservations.find? (fun x => x.ID == rid) = some r →
      r.Status = ReservationStatusActive → r.DueAt ≤ newDueTime →
      ReservationUseCase.ExtendReservation now rid newDueTime UserRoleAdmin w =
        (none, { w with
          reservations := replaceOne Reservation.ID rid
            { r with DueAt := newDueTime, UpdatedAt := now } w.reservations,
          log := w.log ++ [.ReservationGetByID rid,
            .ReservationUpdate { r with DueAt := newDueTime, UpdatedAt := now }] }) ∧
      (replaceOne Reservation.ID rid { r with DueAt := newDueTime, UpdatedAt := now }
          w.reservations).find? (fun x => x.ID == rid) =
        some { r with DueAt := newDueTime, UpdatedAt := now }) ∧
    (∀ i r, w.reservations.find? (fun x => x.ID == i) = some r →
      ∃ r2, (ReservationUseCase.ExtendReservation now rid newDueTime role w).2.reservations.find?
          (fun x => x.ID == i) = some r2 ∧
        r.DueAt ≤ r2.DueAt ∧ r2.ID = r.ID ∧ r2.KeyID = r.KeyID ∧ r2.UserID = r.UserID ∧
        r2.ReservedAt = r.ReservedAt ∧ r2.ReturnedAt = r.ReturnedAt ∧ r2.Status = r.Status ∧
        r2.CreatedAt = r.CreatedAt) := by
  constructor
  · intro r hf hfind hst hdue
    have hid : r.ID = rid := by simpa using List.find?_some hfind
    constructor
    · have hfault : w.fault = none := World.fault_of_faults_nil hf
      have hnlt : ¬ newDueTime < r.DueAt := not_lt.mpr hdue
      simp [ReservationUseCase.ExtendReservation, ReservationRepositoryImpl.GetByID,
        ReservationRepositoryImpl.Update, hfault, hfind, Reservation.CanBeExtended, hst, hnlt,
        World.fault, World.enter, hf, hid]
    · exact find?_replaceOne_self Reservation.ID rid
        ({ r with DueAt := newDueTime, UpdatedAt := now } : Reservation) r hid w.reservations
        hfind
  · intro i r hfind
    rcases ReservationUseCase.ExtendReservation_effect now rid newDueTime role w with
      h | ⟨r0, hfind0, -, -, hdue, -, hres⟩
    · rw [h.2]
      exact ⟨r, hfind, le_refl _, rfl, rfl, rfl, rfl, rfl, rfl, rfl⟩
    · have hid0 : r0.ID = rid := by simpa using List.find?_some hfind0
      subst hid0
      rw [hres]
      by_cases hi : r0.ID = i
      · subst hi
        have hr : r0 = r := Option.some.inj (hfind0.symm.trans hfind)
        subst hr
        exact ⟨_, find?_replaceOne_self Reservation.ID r0.ID
          ({ r0 with DueAt := newDueTime, UpdatedAt := now } : Reservation) r0 rfl
          w.reservations hfind0, hdue, rfl, rfl, rfl, rfl, rfl, rfl, rfl⟩
      · rw [find?_replaceOne_ne Reservation.ID r0.ID i
          ({ r0 with DueAt := newDueTime, UpdatedAt := now } : Reservation) rfl hi]
        exact ⟨r, hfind, le_refl _, rfl, rfl, rfl, rfl, rfl, rfl, rfl⟩

/-- C16, witness: the admin extends reservation 3 (due at 100) to the same due time 100 at
time 50; the stored reservation keeps due-at 100 and gets updated-at 50. -/
theorem ExtendReservation_success_and_frame_witness :
    ReservationUseCase.ExtendReservation 50 3 100 UserRoleAdmin examples.reservedWorld =
      (none, { examples.reservedWorld with
        reservations := [{ examples.reservation3 with DueAt := 100, UpdatedAt := 50 }],
        log := [.ReservationGetByID 3,
          .ReservationUpdate { examples.reservation3 with DueAt := 100, UpdatedAt := 50 }] }) :=
  ((ExtendReservation_success_and_frame 50 3 100 UserRoleAdmin examples.reservedWorld).1
    examples.reservation3 (by decide) (by decide) (by decide) (by decide)).1

/-- C17: a `BlockUser` that returns no error was called by an admin for a stored user that
was not blocked, and its repository calls were exactly: `GetByID` and `BlockUser` of that
user, `GetByUserID`, then one `Update` for each reservation of the user that had status
active, in store order, with status overdue and the current time as updated-at; no
`Update` is issued for a reservation of the user that was returned or overdue, nor for a
reservation of another user. The user is stored blocked and keys are untouched. In a store
with distinct ids every reservation is afterwards found by its id as the overdue version
when it was an active reservation of the user, and unchanged otherwise. With an admin
caller, a stored user that is not blocked and a repository that does not fail,
`BlockUser` does return no error. -/
theorem BlockUser_cascade (now : Time) (userID : ObjectID) (role : UserRole) (w : World) :
    (∀ u, w.faults = [] → w.users.find? (fun x => x.ID == userID) = some u →
      u.IsBlocked = false → (UserUseCase.BlockUser now userID UserRoleAdmin w).1 = none) ∧
    ((UserUseCase.BlockUser now userID role w).1 = none →
      role = UserRoleAdmin ∧
      (∃ u, w.users.find? (fun x => x.ID == userID) = some u ∧ u.IsBlocked = false) ∧
      (UserUseCase.BlockUser now userID role w).2.log =
        w.log ++ [.UserGetByID userID, .UserBlockUser userID,
          .ReservationGetByUserID userID] ++
          cascadeCalls now (activeOf userID w.reservations) ∧
      (∀ r, Call.ReservationUpdate r ∈ cascadeCalls now (activeOf userID w.reservations) ↔
        ∃ r0 ∈ w.reservations, r0.UserID = userID ∧ r0.Status = ReservationStatusActive ∧
          r = { r0 with Status := ReservationStatusOverdue, UpdatedAt := now }) ∧
      (UserUseCase.BlockUser now userID role w).2.users =
        updateByID User.ID userID (fun u => { u with IsBlocked := true }) w.users ∧
      (UserUseCase.BlockUser now userID role w).2.keys = w.keys ∧
      ((w.reservations.map Reservation.ID).Nodup → ∀ r ∈ w.reservations,
        (UserUseCase.BlockUser now userID role w).2.reservations.find?
            (fun d => d.ID == r.ID) =
          some (if r.UserID = userID ∧ r.Status = ReservationStatusActive then
            { r with Status := ReservationStatusOverdue, UpdatedAt := now } else r))) := by
  constructor
  · intro u hf hfind hnb
    have hfault : w.fault = none := World.fault_of_faults_nil hf
    simp only [UserUseCase.BlockUser, UserRepositoryImpl.GetByID, hfault, hfind, hnb,
      UserRepositoryImpl.BlockUser, ReservationRepositoryImpl.GetByUserID, World.fault,
      World.enter, hf, List.tail_nil, bne_self_eq_false, Bool.false_eq_true, if_false]
    apply UserUseCase.blockUserLoop_ok_of_faults_nil
    rfl
  · intro hok
    obtain ⟨h1, h2, h3, h4, h5, h6⟩ := UserUseCase.BlockUser_ok_shape now userID role w hok
    refine ⟨h1, h2, h3, ?_, h5, h6, ?_⟩
    · intro r
      simp only [cascadeCalls, List.mem_map, Call.ReservationUpdate.injEq]
      constructor
      · rintro ⟨r0, hr0, rfl⟩
        obtain ⟨m1, m2, m3⟩ := (mem_activeOf userID w.reservations r0).mp hr0
        exact ⟨r0, m1, m2, m3, rfl⟩
      · rintro ⟨r0, m1, m2, m3, rfl⟩
        exact ⟨r0, (mem_activeOf userID w.reservations r0).mpr ⟨m1, m2, m3⟩, rfl⟩
    · intro hnd r hr
      rw [h4]
      exact find?_cascadeStore_activeOf now userID w.reservations hnd r hr

/-- C17, witness: the admin blocks user 7, who holds the active reservation 3. -/
theorem BlockUser_cascade_witness :
    (UserUseCase.BlockUser 200 7 UserRoleAdmin examples.reservedWorld).1 = none ∧
    (UserUseCase.BlockUser 200 7 UserRoleAdmin examples.reservedWorld).2.log =
      [.UserGetByID 7, .UserBlockUser 7, .ReservationGetByUserID 7,
        .ReservationUpdate examples.overdue3] ∧
    (UserUseCase.BlockUser 200 7 UserRoleAdmin examples.reservedWorld).2.reservations.find?
        (fun d => d.ID == 3) = some examples.overdue3 :=
  have h1 := (BlockUser_cascade 200 7 UserRoleAdmin examples.reservedWorld).1
    examples.resident7 (by decide) (by decide) (by decide)
  have h2 := (BlockUser_cascade 200 7 UserRoleAdmin examples.reservedWorld).2 h1
  ⟨h1, h2.2.2.1, h2.2.2.2.2.2.2 (by decide) examples.reservation3 (by decide)⟩

/-- C18 (as amended): in a store with distinct reservation ids, if `BlockUser` fails in
the cascade (at `GetByUserID`, or at the `Update` of a reservation) after the user has been
blocked, then calling `BlockUser` again for the same user, with the failure gone, returns
"user is already blocked" after the single read `GetByID` and writes nothing. When the
first call failed at `GetByUserID` the reservations are still those from before the first
call; when it failed at the `Update` of a reservation, that reservation is still stored
for the user with status active after the second call. -/
theorem BlockUser_retry_is_refused (now now2 : Time) (userID : ObjectID) (role : UserRole)
    (w : World) (hnd : (w.reservations.map Reservation.ID).Nodup)
    (herr : (∃ e, (UserUseCase.BlockUser now userID role w).1 =
        some (Error.Errorf "failed to get user reservations: %w" [] e)) ∨
      (∃ id e, (UserUseCase.BlockUser now userID role w).1 =
        some (Error.Errorf "failed to update reservation %s: %w" [id] e))) :
    UserUseCase.BlockUser now2 userID role
        { (UserUseCase.BlockUser now userID role w).2 with faults := [] } =
      (some (Error.New "user is already blocked"),
        World.enter { (UserUseCase.BlockUser now userID role w).2 with faults := [] }
          (.UserGetByID userID)) ∧
    ((∃ e, (UserUseCase.BlockUser now userID role w).1 =
        some (Error.Errorf "failed to get user reservations: %w" [] e)) →
      (UserUseCase.BlockUser now2 userID role
        { (UserUseCase.BlockUser now userID role w).2 with faults := [] }).2.reservations =
        w.reservations) ∧
    (∀ id e, (UserUseCase.BlockUser now userID role w).1 =
        some (Error.Errorf "failed to update reservation %s: %w" [id] e) →
      ∃ r, (UserUseCase.BlockUser now2 userID role
          { (UserUseCase.BlockUser now userID role w).2 with faults := [] }).2.reservations.find?
            (fun d => d.ID == id) = some r ∧
        r.UserID = userID ∧ r.Status = ReservationStatusActive) := by
  have hshape : ∀ f ids e, (UserUseCase.BlockUser now userID role w).1 =
      some (Error.Errorf f ids e) →
      UserUseCase.BlockUser now2 userID role
          { (UserUseCase.BlockUser now userID role w).2 with faults := [] } =
        (some (Error.New "user is already blocked"),
          World.enter { (UserUseCase.BlockUser now userID role w).2 with faults := [] }
            (.UserGetByID userID)) := by
    intro f ids e h
    obtain ⟨hrole, ⟨u, hu, -⟩, husers, -⟩ :=
      UserUseCase.BlockUser_failed_in_cascade now userID role w f ids e h
    subst hrole
    have hfind : (World.users
        { (UserUseCase.BlockUser now userID UserRoleAdmin w).2 with faults := [] }).find?
          (fun x => x.ID == userID) = some ({ u with IsBlocked := true } : User) := by
      show (UserUseCase.BlockUser now userID UserRoleAdmin w).2.users.find? _ = _
      rw [husers, find?_updateByID_self User.ID userID
        (fun u => { u with IsBlocked := true }) (fun _ => rfl), hu]
      rfl
    exact UserUseCase.BlockUser_of_blocked now2 userID _ _ rfl hfind rfl
  refine ⟨?_, ?_, ?_⟩
  · rcases herr with ⟨e, h⟩ | ⟨id, e, h⟩
    · exact hshape _ _ _ h
    · exact hshape _ _ _ h
  · rintro ⟨e, h⟩
    rw [hshape _ _ _ h]
    obtain ⟨-, -, -, hres⟩ := UserUseCase.BlockUser_failed_in_cascade now userID role w _ _ e h
    rcases hres with ⟨pre, res, post, -, hids, -⟩ | ⟨-, hres⟩
    · cases hids
    · exact hres
  · intro id e h
    rw [hshape _ _ _ h]
    obtain ⟨-, -, -, hres⟩ := UserUseCase.BlockUser_failed_in_cascade now userID role w _ _ e h
    rcases hres with ⟨pre, res, post, hsplit, hids, hres⟩ | ⟨hids, -⟩
    · have hid : id = res.ID := by simpa using hids
      subst hid
      have hmem : res ∈ activeOf userID w.reservations := by
        rw [hsplit]; simp
      obtain ⟨m1, m2, m3⟩ := (mem_activeOf userID w.reservations res).mp hmem
      have hndA : ((activeOf userID w.reservations).map Reservation.ID).Nodup := by
        rw [activeOf_eq]
        exact nodup_filter_ids w.reservations _ hnd
      rw [hsplit, List.map_append, List.map_cons] at hndA
      have hnot : res.ID ∉ pre.map Reservation.ID := by
        intro hin
        exact (List.nodup_append.mp hndA).2.2 hin (List.mem_cons_self _ _)
      refine ⟨res, ?_, m2, m3⟩
      show (UserUseCase.BlockUser now userID role w).2.reservations.find? _ = _
      rw [hres, find?_cascadeStore_not_mem now res.ID pre w.reservations hnot]
      exact find?_of_mem_of_nodup Reservation.ID w.reservations hnd res m1
    · cases hids

/-- C18, witness: the admin blocks user 7 while `GetByUserID` fails; the second call is
refused and reservation 3 is as before. -/
theorem BlockUser_retry_is_refused_witness :
    (UserUseCase.BlockUser 200 7 UserRoleAdmin examples.thirdCallFailsWorld).1 =
      some (Error.Errorf "failed to get user reservations: %w" [] (Error.Store 1)) ∧
    (UserUseCase.BlockUser 300 7 UserRoleAdmin
      { (UserUseCase.BlockUser 200 7 UserRoleAdmin examples.thirdCallFailsWorld).2
        with faults := [] }).1 = some (Error.New "user is already blocked") ∧
    (UserUseCase.BlockUser 300 7 UserRoleAdmin
      { (UserUseCase.BlockUser 200 7 UserRoleAdmin examples.thirdCallFailsWorld).2
        with faults := [] }).2.reservations = [examples.reservation3] :=
  have h1 : (UserUseCase.BlockUser 200 7 UserRoleAdmin examples.thirdCallFailsWorld).1 =
      some (Error.Errorf "failed to get user reservations: %w" [] (Error.Store 1)) := by
    decide
  have h := BlockUser_retry_is_refused 200 300 7 UserRoleAdmin examples.thirdCallFailsWorld
    (by decide) (Or.inl ⟨Error.Store 1, h1⟩)
  ⟨h1, congrArg Prod.fst h.1, h.2.1 ⟨Error.Store 1, h1⟩⟩

/-- C18, counterexample: the admin blocks user 7 while the `Update` of reservation 3 fails.
User 7 is then stored blocked with reservation 3 still active. The second call, with no
failure, returns "user is already blocked" after reading the user, and reservation 3 of
user 7 still has status active. -/
theorem BlockUser_retry_does_not_complete_the_cascade :
    UserUseCase.BlockUser 200 7 UserRoleAdmin examples.fourthCallFailsWorld =
      (some (Error.Errorf "failed to update reservation %s: %w" [3] (Error.Store 1)),
        { examples.reservedWorld with
          users := [{ examples.resident7 with IsBlocked := true }, examples.resident8,
            examples.admin9],
          log := [.UserGetByID 7, .UserBlockUser 7, .ReservationGetByUserID 7,
            .ReservationUpdate examples.overdue3] }) ∧
    UserUseCase.BlockUser 300 7 UserRoleAdmin
        { (UserUseCase.BlockUser 200 7 UserRoleAdmin examples.fourthCallFailsWorld).2
          with faults := [] } =
      (some (Error.New "user is already blocked"),
        { examples.reservedWorld with
          users := [{ examples.resident7 with IsBlocked := true }, examples.resident8,
            examples.admin9],
          log := [.UserGetByID 7, .UserBlockUser 7, .ReservationGetByUserID 7,
            .ReservationUpdate examples.overdue3, .UserGetByID 7] }) ∧
    examples.reservedWorld.reservations = [examples.reservation3] ∧
    examples.reservation3.UserID = 7 ∧
    examples.reservation3.Status = ReservationStatusActive := by
  decide

/-- C19: in both variants of `LoginUser`, for the same email, a store with no user of that
email (whatever the password) and a store where the repository answers with a user of
that email who is not blocked and whose stored hash the password does not match give the
same result: nil user, empty token and `ErrInvalidCredentials`, after the single read
`GetByEmail`. A failing repository read gives that result as well. -/
theorem LoginUser_hides_account_existence (c : Crypto) (uc : UserUseCase) (now : Time)
    (email password password2 : String) (w w2 : World) (u : User) (e : Error)
    (hnone : w.users.find? (fun x => x.Email == email) = none)
    (hfault : w2.fault = none)
    (hsome : w2.users.find? (fun x => x.Email == email) = some u)
    (hnb : u.IsBlocked = false)
    (hpw : c.CompareHashAndPassword u.Password password2 = some e) :
    UserUseCase.LoginUser c uc now email password w =
      (.ret (none, "", some Error.ErrInvalidCredentials), w.enter (.UserGetByEmail email)) ∧
    UserUseCase.LoginUser c uc now email password2 w2 =
      (.ret (none, "", some Error.ErrInvalidCredentials), w2.enter (.UserGetByEmail email)) ∧
    (UserUseCase.LoginUser c uc now email password w).1 =
      (UserUseCase.LoginUser c uc now email password2 w2).1 ∧
    internal.usecase.UserUseCase.LoginUser c now email password w =
      (.ret (none, "", some Error.ErrInvalidCredentials), w.enter (.UserGetByEmail email)) ∧
    internal.usecase.UserUseCase.LoginUser c now email password2 w2 =
      (.ret (none, "", some Error.ErrInvalidCredentials), w2.enter (.UserGetByEmail email)) ∧
    (internal.usecase.UserUseCase.LoginUser c now email password w).1 =
      (internal.usecase.UserUseCase.LoginUser c now email password2 w2).1 := by
  have h1 : UserUseCase.LoginUser c uc now email password w =
      (.ret (none, "", some Error.ErrInvalidCredentials),
        w.enter (.UserGetByEmail email)) := by
    rcases World.fault_cases w with hf | ⟨code, hf⟩ <;>
      simp [UserUseCase.LoginUser, UserRepositoryImpl.GetByEmail, hf, hnone]
  have h2 : UserUseCase.LoginUser c uc now email password2 w2 =
      (.ret (none, "", some Error.ErrInvalidCredentials),
        w2.enter (.UserGetByEmail email)) := by
    simp [UserUseCase.LoginUser, UserRepositoryImpl.GetByEmail, hfault, hsome, hnb,
      User.ValidatePassword, hpw]
  have h3 : internal.usecase.UserUseCase.LoginUser c now email password w =
      (.ret (none, "", some Error.ErrInvalidCredentials),
        w.enter (.UserGetByEmail email)) := by
    rcases World.fault_cases w with hf | ⟨code, hf⟩ <;>
      simp [internal.usecase.UserUseCase.LoginUser, UserRepositoryImpl.GetByEmail, hf, hnone]
  have h4 : internal.usecase.UserUseCase.LoginUser c now email password2 w2 =
      (.ret (none, "", some Error.ErrInvalidCredentials),
        w2.enter (.UserGetByEmail email)) := by
    simp [internal.usecase.UserUseCase.LoginUser, UserRepositoryImpl.GetByEmail, hfault,
      hsome, hnb, User.CheckPassword, hpw]
  exact ⟨h1, h2, by rw [h1, h2], h3, h4, by rw [h3, h4]⟩

/-- C19, witness: the email of nobody, and the email of user 7 with a wrong password. -/
theorem LoginUser_hides_account_existence_witness :
    (UserUseCase.LoginUser examples.testCrypto examples.configured 50 "ana@example.com"
      "hash" { examples.emptyWorld with users := [] }).1 =
    (UserUseCase.LoginUser examples.testCrypto examples.configured 50 "ana@example.com"
      "guess" examples.emptyWorld).1 :=
  (LoginUser_hides_account_existence examples.testCrypto examples.configured 50
    "ana@example.com" "hash" "guess" { examples.emptyWorld with users := [] }
    examples.emptyWorld examples.resident7
    (Error.New "crypto/bcrypt: hashedPassword is not the hash of the given password")
    (by decide) (by decide) (by decide) (by decide) (by decide)).2.2.1

/-- C20: in both variants of `LoginUser`, when the repository answers with a user of the
email whose blocked flag is set, the result is nil user, empty token and `ErrUserBlocked`
after the single read `GetByEmail`, for every password and every behaviour of the hash
comparison; two calls that differ only in the password give the same result. -/
theorem LoginUser_blocked_before_password (c : Crypto) (uc : UserUseCase) (now : Time)
    (email password password2 : String) (w : World) (u : User)
    (hfault : w.fault = none)
    (hsome : w.users.find? (fun x => x.Email == email) = some u)
    (hb : u.IsBlocked = true) :
    UserUseCase.LoginUser c uc now email password w =
      (.ret (none, "", some Error.ErrUserBlocked), w.enter (.UserGetByEmail email)) ∧
    UserUseCase.LoginUser c uc now email password w =
      UserUseCase.LoginUser c uc now email password2 w ∧
    internal.usecase.UserUseCase.LoginUser c now email password w =
      (.ret (none, "", some Error.ErrUserBlocked), w.enter (.UserGetByEmail email)) ∧
    internal.usecase.UserUseCase.LoginUser c now email password w =
      internal.usecase.UserUseCase.LoginUser c now email password2 w := by
  have h1 : ∀ p, UserUseCase.LoginUser c uc now email p w =
      (.ret (none, "", some Error.ErrUserBlocked), w.enter (.UserGetByEmail email)) := by
    intro p
    simp [UserUseCase.LoginUser, UserRepositoryImpl.GetByEmail, hfault, hsome, hb]
  have h2 : ∀ p, internal.usecase.UserUseCase.LoginUser c now email p w =
      (.ret (none, "", some Error.ErrUserBlocked), w.enter (.UserGetByEmail email)) := by
    intro p
    simp [internal.usecase.UserUseCase.LoginUser, UserRepositoryImpl.GetByEmail, hfault,
      hsome, hb]
  exact ⟨h1 password, by rw [h1 password, h1 password2], h2 password,
    by rw [h2 password, h2 password2]⟩

/-- C20, witness: the blocked user 8 logs in with the right password "hash" and with a
wrong one. -/
theorem LoginUser_blocked_before_password_witness :
    UserUseCase.LoginUser examples.testCrypto examples.configured 50 "bia@example.com"
        "hash" examples.blockedWorld =
      (.ret (none, "", some Error.ErrUserBlocked),
        examples.blockedWorld.enter (.UserGetByEmail "bia@example.com")) ∧
    UserUseCase.LoginUser examples.testCrypto examples.configured 50 "bia@example.com"
        "hash" examples.blockedWorld =
      UserUseCase.LoginUser examples.testCrypto examples.configured 50 "bia@example.com"
        "guess" examples.blockedWorld :=
  have h := LoginUser_blocked_before_password examples.testCrypto examples.configured 50
    "bia@example.com" "hash" "guess" examples.blockedWorld examples.blocked8
    (by decide) (by decide) (by decide)
  ⟨h.1, h.2.1⟩

/-- C11 (as amended): take a store in which every reservation was reserved at or before
the clock reading `prev` and passes `ValidateReturnTime`, and a later reading `now`.
Each of the five use cases that write reservations, run at `now`, leaves such a store:
`CreateReservation` for every draft reserved at or before `now` that passes
`ValidateReturnTime`, so for every draft built by `NewReservation` at or before `now`;
`ReturnKey`, `ExtendReservation`, `ProcessOverdueReservations` and `BlockUser` for every
argument, whatever the repository failures. A successful `ReturnKey` at `now` stores the
active reservation it found with returned-at `now`, status returned and updated-at `now`,
its reserved-at is not after `now`, and `ValidateReturnTime` accepts the stored record.
After every sequence of such calls with clock readings that never go back, interleaved
with any steps that leave the reservations alone, every stored reservation passes
`ValidateReturnTime`. In general `ValidateReturnTime` accepts what `ReturnKey` stores
exactly when the reserved-at of the reservation is not after the time of the return. -/
theorem returned_at_not_before_reserved_at (prev now : Time) (w : World)
    (hinv : ReturnTimesValid prev w.reservations) (hclock : prev ≤ now) :
    (∀ draft : Reservation, draft.ReservedAt ≤ now → draft.ValidateReturnTime = none →
      ReturnTimesValid now
        (ReservationUseCase.CreateReservation now draft w).2.reservations) ∧
    (∀ t0 newID keyID userID dueAt, t0 ≤ now →
      ReturnTimesValid now
        (ReservationUseCase.CreateReservation now
          (NewReservation t0 newID keyID userID dueAt) w).2.reservations) ∧
    (∀ rid uid,
      ReturnTimesValid now (ReservationUseCase.ReturnKey now rid uid w).2.reservations) ∧
    (∀ rid due role,
      ReturnTimesValid now
        (ReservationUseCase.ExtendReservation now rid due role w).2.reservations) ∧
    ReturnTimesValid now
      (ReservationUseCase.ProcessOverdueReservations now w).2.reservations ∧
    (∀ uid role,
      ReturnTimesValid now (UserUseCase.BlockUser now uid role w).2.reservations) ∧
    (∀ rid uid, (ReservationUseCase.ReturnKey now rid uid w).1 = none →
      ∃ r, w.reservations.find? (fun x => x.ID == rid) = some r ∧
        r.Status = ReservationStatusActive ∧ r.ReservedAt ≤ now ∧
        (ReservationUseCase.ReturnKey now rid uid w).2.reservations.find?
            (fun x => x.ID == rid) =
          some { r with ReturnedAt := some now, Status := ReservationStatusReturned,
                        UpdatedAt := now } ∧
        Reservation.ValidateReturnTime
          { r with ReturnedAt := some now, Status := ReservationStatusReturned,
                   UpdatedAt := now } = none) ∧
    (∀ ops, Schedule prev ops →
      ∀ r ∈ (run ops w).reservations, r.ValidateReturnTime = none) ∧
    (∀ r : Reservation,
      Reservation.ValidateReturnTime
        { r with ReturnedAt := some now, Status := ReservationStatusReturned,
                 UpdatedAt := now } = none ↔ r.ReservedAt ≤ now) := by
  have hval : ∀ r : Reservation, Reservation.ValidateReturnTime
      { r with ReturnedAt := some now, Status := ReservationStatusReturned,
               UpdatedAt := now } = none ↔ r.ReservedAt ≤ now := by
    intro r
    simp [Reservation.ValidateReturnTime]
  refine ⟨?_, ?_, ?_, ?_, ?_, ?_, ?_, ?_, hval⟩
  · intro draft h1 h2
    exact ReturnTimesValid_step prev (.CreateReservation now draft) w hinv ⟨hclock, h1, h2⟩
  · intro t0 newID keyID userID dueAt h1
    exact ReturnTimesValid_step prev
      (.CreateReservation now (NewReservation t0 newID keyID userID dueAt)) w hinv
      ⟨hclock, h1, rfl⟩
  · intro rid uid
    exact ReturnTimesValid_step prev (.ReturnKey now rid uid) w hinv hclock
  · intro rid due role
    exact ReturnTimesValid_step prev (.ExtendReservation now rid due role) w hinv hclock
  · exact ReturnTimesValid_step prev (.ProcessOverdueReservations now) w hinv hclock
  · intro uid role
    exact ReturnTimesValid_step prev (.BlockUser now uid role) w hinv hclock
  · intro rid uid hok
    obtain ⟨r, hr, hact, hres⟩ := ReservationUseCase.ReturnKey_ok now rid uid w hok
    have hid : r.ID = rid := by simpa using List.find?_some hr
    have hle : r.ReservedAt ≤ now :=
      le_trans (hinv r (List.mem_of_find?_eq_some hr)).1 hclock
    subst hid
    refine ⟨r, hr, hact, hle, ?_, (hval r).mpr hle⟩
    rw [hres]
    exact find?_replaceOne_self Reservation.ID r.ID (returnedOf now r) r rfl w.reservations hr
  · intro ops hs r hr
    obtain ⟨t, -, h⟩ := ReturnTimesValid_run ops prev w hinv hs
    exact (h r hr).2

/-- C11, witness: in the store without reservations, user 7 reserves key 1 at time 10
with a draft from `NewReservation`, the admin extends the reservation at time 20, the
failure script is reset at time 30 and user 7 returns the key at time 200. The stored
record has reserved-at 10 and returned-at 200 and passes `ValidateReturnTime`. -/
theorem returned_at_not_before_reserved_at_witness :
    (run examples.reserveExtendReturn examples.emptyWorld).reservations =
      [{ ID := 3, KeyID := 1, UserID := 7, ReservedAt := 10, DueAt := 150,
         ReturnedAt := some 200, Status := ReservationStatusReturned, CreatedAt := 10,
         UpdatedAt := 200 }] ∧
    ∀ r ∈ (run examples.reserveExtendReturn examples.emptyWorld).reservations,
      r.ValidateReturnTime = none :=
  ⟨by decide,
    (returned_at_not_before_reserved_at 0 0 examples.emptyWorld
      (fun r hr => absurd hr (List.not_mem_nil r)) (le_refl _)).2.2.2.2.2.2.2.1
      examples.reserveExtendReturn
      ⟨⟨by decide, by decide, rfl⟩, (by decide : (10 : Time) ≤ 20),
        ⟨by decide, fun _ => rfl⟩, (by decide : (30 : Time) ≤ 200), trivial⟩⟩

/-- C11, counterexample: at time 100 `CreateReservation` stores a draft whose reserved-at
is 1000; the holder returns it at time 200 and `ReturnKey` succeeds. The record it stores
has returned-at 200, before its reserved-at 1000, and `ValidateReturnTime` rejects it. -/
theorem ReturnKey_stores_return_before_reservation :
    (ReservationUseCase.CreateReservation 100 examples.draftReservedLater
      examples.emptyWorld).1 = none ∧
    (ReservationUseCase.ReturnKey 200 6 7
      (ReservationUseCase.CreateReservation 100 examples.draftReservedLater
        examples.emptyWorld).2).1 = none ∧
    (ReservationUseCase.ReturnKey 200 6 7
      (ReservationUseCase.CreateReservation 100 examples.draftReservedLater
        examples.emptyWorld).2).2.reservations =
      [{ examples.draftReservedLater with
          ReturnedAt := some 200, Status := ReservationStatusReturned, UpdatedAt := 200 }] ∧
    Reservation.ValidateReturnTime
      { examples.draftReservedLater with
          ReturnedAt := some 200, Status := ReservationStatusReturned, UpdatedAt := 200 } =
      some (Error.New "returned_at cannot be before reserved_at") := by
  decide

end claims

namespace claims

open entity repository usecase spec response

/-- C21: a use case built by `NewUserUseCase` of `usecase/user_usecase.go` has a nil
`config`. When the repository answers with a user of the email who is not blocked and
whose stored hash the password matches, `LoginUser` does not return: it panics with a nil
pointer dereference at `uc.config.JWTSecret`, after the single read `GetByEmail`. The same
call on a use case whose `config` is set, and the variant of `internal/usecase`, return
the user, the signed token and no error whenever signing succeeds. -/
theorem LoginUser_valid_login_panics (c : Crypto) (now : Time) (email password : String)
    (w : World) (u : User)
    (hfault : w.fault = none)
    (hsome : w.users.find? (fun x => x.Email == email) = some u)
    (hnb : u.IsBlocked = false)
    (hpw : c.CompareHashAndPassword u.Password password = none) :
    UserUseCase.LoginUser c NewUserUseCase now email password w =
      (.panic "invalid memory address or nil pointer dereference",
        w.enter (.UserGetByEmail email)) ∧
    (∀ config token,
      c.SignedString u.ID u.Role (now + 24 * Hour) config.JWTSecret = (token, none) →
      UserUseCase.LoginUser c { config := some config } now email password w =
        (.ret (some u, token, none), w.enter (.UserGetByEmail email))) ∧
    (∀ token,
      c.SignedString u.ID u.Role (now + 24 * Hour) internal.usecase.jwtSecret
        = (token, none) →
      internal.usecase.UserUseCase.LoginUser c now email password w =
        (.ret (some u, token, none), w.enter (.UserGetByEmail email))) := by
  refine ⟨?_, ?_, ?_⟩
  · simp [UserUseCase.LoginUser, UserRepositoryImpl.GetByEmail, hfault, hsome, hnb,
      User.ValidatePassword, hpw, NewUserUseCase]
  · intro config token hsign
    simp [UserUseCase.LoginUser, UserRepositoryImpl.GetByEmail, hfault, hsome, hnb,
      User.ValidatePassword, hpw, hsign]
  · intro token hsign
    simp [internal.usecase.UserUseCase.LoginUser, UserRepositoryImpl.GetByEmail, hfault,
      hsome, hnb, User.CheckPassword, hpw, hsign]

/-- C21, witness: user 7 logs in with the password that matches the stored hash. -/
theorem LoginUser_valid_login_panics_witness :
    UserUseCase.LoginUser examples.testCrypto NewUserUseCase 50 "ana@example.com" "hash"
        examples.emptyWorld =
      (.panic "invalid memory address or nil pointer dereference",
        examples.emptyWorld.enter (.UserGetByEmail "ana@example.com")) ∧
    UserUseCase.LoginUser examples.testCrypto examples.configured 50 "ana@example.com" "hash"
        examples.emptyWorld =
      (.ret (some examples.resident7, "token", none),
        examples.emptyWorld.enter (.UserGetByEmail "ana@example.com")) :=
  have h := LoginUser_valid_login_panics examples.testCrypto 50 "ana@example.com" "hash"
    examples.emptyWorld examples.resident7 (by decide) (by decide) (by decide) (by decide)
  ⟨h.1, h.2.1 _ "token" rfl⟩

/-- C22: for a user draft that `validate.Struct` rejects (a failing `Name`, `Email` or
`Role`), `RegisterUser` of `internal/usecase` returns the validation error before any
repository call. `RegisterUser` of `usecase/user_usecase.go` does not validate: when no
stored user has the draft's email, no repository call fails and hashing succeeds, it
invokes `Create` with the draft, the password hashed and the timestamps set, right after
the read `GetByEmail`. -/
theorem RegisterUser_validation (l : Library) (now : Time) (user : User) (w : World)
    (hinvalid : user.structErrors l ≠ []) :
    internal.usecase.UserUseCase.RegisterUser l now user w =
      (some (Error.ValidationErrors (user.structErrors l)), w) ∧
    (∀ hash, w.fault = none → w.users.find? (fun x => x.Email == user.Email) = none →
      l.GenerateFromPassword user.Password = (hash, none) →
      UserUseCase.RegisterUser l now user w =
        UserRepositoryImpl.Create
          { user with Password := hash, CreatedAt := now, UpdatedAt := now }
          (w.enter (.UserGetByEmail user.Email)) ∧
      (UserUseCase.RegisterUser l now user w).2.log =
        w.log ++ [.UserGetByEmail user.Email,
          .UserCreate { user with Password := hash, CreatedAt := now, UpdatedAt := now }]) := by
  constructor
  · have hne : (user.structErrors l).isEmpty = false := by
      cases h : user.structErrors l with
      | nil => exact absurd h hinvalid
      | cons a t => rfl
    simp [internal.usecase.UserUseCase.RegisterUser, User.ValidateForCreation, validateResult,
      hne]
  · intro hash hf hfind hhash
    have h1 : UserUseCase.RegisterUser l now user w =
        UserRepositoryImpl.Create
          { user with Password := hash, CreatedAt := now, UpdatedAt := now }
          (w.enter (.UserGetByEmail user.Email)) := by
      simp [UserUseCase.RegisterUser, UserRepositoryImpl.GetByEmail, hf, hfind,
        User.HashPassword, hhash]
    refine ⟨h1, ?_⟩
    rw [h1]
    unfold UserRepositoryImpl.Create
    split <;> simp [World.enter]

/-- C22, witness: the draft of test case 2 (empty name, email `invalid-email`) is
registered in a store that holds no user of that email: `RegisterUser` of
`usecase/user_usecase.go` returns no error and the draft is stored. -/
theorem RegisterUser_validation_witness :
    internal.usecase.UserUseCase.RegisterUser examples.testLibrary 50 examples.invalidUser
        examples.emptyWorld =
      (some (Error.ValidationErrors [⟨"Name", "required"⟩, ⟨"Email", "email"⟩]),
        examples.emptyWorld) ∧
    (UserUseCase.RegisterUser examples.testLibrary 50 examples.invalidUser
        examples.emptyWorld).1 = none ∧
    (UserUseCase.RegisterUser examples.testLibrary 50 examples.invalidUser
        examples.emptyWorld).2.log =
      [.UserGetByEmail "invalid-email",
        .UserCreate { examples.invalidUser with Password := "hash:short" }] :=
  have h := RegisterUser_validation examples.testLibrary 50 examples.invalidUser
    examples.emptyWorld (by decide)
  ⟨h.1, by decide, (h.2 "hash:short" (by decide) (by decide) rfl).2⟩

/-- C23: `ValidateForLogin` looks at the email only. A user whose `Email` is empty is
rejected with the tag `required`, one whose non-empty `Email` is malformed with the tag
`email`; a user with a well-formed email is accepted whatever the `Password`, the empty
password included. -/
theorem ValidateForLogin_ignores_password (l : Library) (u : User) :
    (u.Email = "" →
      u.ValidateForLogin l = some (Error.ValidationErrors [⟨"Email", "required"⟩])) ∧
    (u.Email ≠ "" → l.email u.Email = false →
      u.ValidateForLogin l = some (Error.ValidationErrors [⟨"Email", "email"⟩])) ∧
    (u.Email ≠ "" → l.email u.Email = true →
      ∀ password, User.ValidateForLogin l { u with Password := password } = none) := by
  refine ⟨?_, ?_, ?_⟩
  · intro h
    simp [User.ValidateForLogin, User.emailErrors, User.passwordErrors, validateResult, h]
  · intro h1 h2
    simp [User.ValidateForLogin, User.emailErrors, User.passwordErrors, validateResult, h1, h2]
  · intro h1 h2 password
    simp [User.ValidateForLogin, User.emailErrors, User.passwordErrors, validateResult, h1, h2]

/-- C23, witness: the user of the test "Missing Password" (email `valid@example.com`,
empty password) passes `ValidateForLogin`. -/
theorem ValidateForLogin_ignores_password_witness :
    examples.noPasswordUser.Password = "" ∧
    examples.noPasswordUser.ValidateForLogin examples.testLibrary = none :=
  ⟨rfl, (ValidateForLogin_ignores_password examples.testLibrary examples.noPasswordUser).2.2
    (by decide) (by decide) ""⟩

/-- C25: `CreateKey` keeps the names of the stored keys distinct, for every caller, draft
and failure script, and for an admin, a valid draft and an answering repository it
returns `ErrKeyAlreadyExists` after the single read `GetByName` when a stored key has the
draft's name. `UpdateKey` makes no such read: it keeps the names distinct when the only
stored key with the draft's name, if any, is the key being updated; and when another
stored key has the draft's name, an admin's update of a stored key through an answering
repository returns no error after `GetByID` and `Update` and leaves two stored keys with
that name. -/
theorem key_names_stay_unique (now : Time) (key : Key) (role : UserRole) (w : World)
    (hunique : UniqueNames w.keys) :
    UniqueNames (KeyUseCase.CreateKey now key role w).2.keys ∧
    (∀ k, key.ValidateForCreation = none → w.fault = none →
      w.keys.find? (fun x => x.Name == key.Name) = some k →
      KeyUseCase.CreateKey now key UserRoleAdmin w =
        (some Error.ErrKeyAlreadyExists, w.enter (.KeyGetByName key.Name))) ∧
    ((∀ k ∈ w.keys, k.Name = key.Name →
        w.keys.find? (fun x => x.ID == key.ID) = some k) →
      UniqueNames (KeyUseCase.UpdateKey now key role w).2.keys) ∧
    (∀ existingKey k, w.faults = [] →
      w.keys.find? (fun x => x.ID == key.ID) = some existingKey →
      (updatedKey now existingKey key).ValidateForUpdate = none →
      k ∈ w.keys → k.Name = key.Name → k.ID ≠ key.ID →
      (KeyUseCase.UpdateKey now key UserRoleAdmin w).1 = none ∧
      (KeyUseCase.UpdateKey now key UserRoleAdmin w).2.log =
        w.log ++ [.KeyGetByID key.ID, .KeyUpdate (updatedKey now existingKey key)] ∧
      k ∈ (KeyUseCase.UpdateKey now key UserRoleAdmin w).2.keys ∧
      updatedKey now existingKey key ∈
        (KeyUseCase.UpdateKey now key UserRoleAdmin w).2.keys ∧
      (updatedKey now existingKey key).Name = k.Name ∧
      updatedKey now existingKey key ≠ k ∧
      ¬ UniqueNames (KeyUseCase.UpdateKey now key UserRoleAdmin w).2.keys) := by
  refine ⟨?_, ?_, ?_, ?_⟩
  · rcases KeyUseCase.CreateKey_effect now key role w with
      ⟨-, h⟩ | ⟨-, -, hfree, -, -, i, -, h⟩
    · rw [h]; exact hunique
    · rw [h]
      unfold UniqueNames at hunique ⊢
      rw [List.map_append, List.map_singleton]
      refine List.Nodup.append hunique (List.nodup_singleton _) ?_
      rw [List.disjoint_singleton]
      intro hmem
      obtain ⟨k, hk, hkn⟩ := List.mem_map.mp hmem
      have := List.find?_eq_none.mp hfree k hk
      simp at this
      exact this hkn
  · intro k hval hf hfind
    simp [KeyUseCase.CreateKey, hval, KeyRepositoryImpl.GetByName, hf, hfind]
  · intro hname
    rcases KeyUseCase.UpdateKey_effect now key role w with
      ⟨-, h⟩ | ⟨-, existingKey, hfind, -, h⟩
    · rw [h]; exact hunique
    · rw [h]
      have hid : existingKey.ID = key.ID := by simpa using List.find?_some hfind
      rw [hid]
      exact nodup_names_replaceOne key.ID (updatedKey now existingKey key) w.keys hunique
        hname
  · intro existingKey k hf hfind hval hk hname hne
    have hok := KeyUseCase.UpdateKey_ok now key existingKey w hf hfind hval
    have hdup := KeyUseCase.UpdateKey_not_unique now key existingKey k w hf hfind hval hk
      hname hne
    have hid : existingKey.ID = key.ID := by simpa using List.find?_some hfind
    refine ⟨hok.1, hok.2.1, hdup.1, hdup.2.1, hname.symm, ?_, hdup.2.2⟩
    intro heq
    apply hne
    rw [← heq]
    exact hid

/-- C25, witness: in the store with the keys `101-A` and `102-B`, creating a second
`101-A` is refused, updating key 2 under its own name keeps the names distinct, and
updating key 2 with a draft named `101-A` returns no error and leaves the names not
distinct. -/
theorem key_names_stay_unique_witness :
    KeyUseCase.CreateKey 50 (NewKey 50 3 "101-A" "") UserRoleAdmin examples.emptyWorld =
      (some Error.ErrKeyAlreadyExists,
        examples.emptyWorld.enter (.KeyGetByName "101-A")) ∧
    UniqueNames (KeyUseCase.UpdateKey 50 examples.key2 UserRoleAdmin
      examples.emptyWorld).2.keys ∧
    UniqueNames examples.emptyWorld.keys ∧
    (KeyUseCase.UpdateKey 50 examples.draftRenameKey2 UserRoleAdmin examples.emptyWorld).1
      = none ∧
    ¬ UniqueNames (KeyUseCase.UpdateKey 50 examples.draftRenameKey2 UserRoleAdmin
      examples.emptyWorld).2.keys :=
  have h := (key_names_stay_unique 50 examples.draftRenameKey2 UserRoleAdmin
    examples.emptyWorld (by unfold UniqueNames; decide)).2.2.2 examples.key2 examples.key1
    (by decide) (by decide) (by decide) (by decide) (by decide) (by decide)
  ⟨(key_names_stay_unique 50 (NewKey 50 3 "101-A" "") UserRoleAdmin examples.emptyWorld
      (by unfold UniqueNames; decide)).2.1 examples.key1 (by decide) (by decide) (by decide),
    (key_names_stay_unique 50 examples.key2 UserRoleAdmin examples.emptyWorld
      (by unfold UniqueNames; decide)).2.2.1 (by decide),
    by unfold UniqueNames; decide, h.1, h.2.2.2.2.2.2⟩

/-- C25, the failing input evaluated: the names `101-A` and `102-B` are distinct; the
admin updates key 2 with a draft named `101-A`; `UpdateKey` returns no error after
`GetByID` and `Update`, without reading by name, and two stored keys are named `101-A`. -/
theorem UpdateKey_duplicates_a_name :
    (examples.emptyWorld.keys.map Key.Name).Nodup ∧
    (KeyUseCase.UpdateKey 50 examples.draftRenameKey2 UserRoleAdmin examples.emptyWorld).1
      = none ∧
    (KeyUseCase.UpdateKey 50 examples.draftRenameKey2 UserRoleAdmin
      examples.emptyWorld).2.log =
      [.KeyGetByID 2, .KeyUpdate { examples.key2 with Name := "101-A", UpdatedAt := 50 }] ∧
    (KeyUseCase.UpdateKey 50 examples.draftRenameKey2 UserRoleAdmin
      examples.emptyWorld).2.keys.map Key.Name = ["101-A", "101-A"] := by
  decide

/-- C26: a caller other than an admin gets `ErrUnauthorized` with no repository call, and
for an admin and an answering repository a missing key gives `ErrKeyNotFound` after the
single read `GetByID`. When the key is stored, the record that is validated and handed to
`Update` has the stored key's id and created-at, the draft's name, description and active
flag, and the current time as updated-at. Two drafts that agree on id, name, description
and active flag give the same result, whatever their created-at and updated-at; and
every `Update` call that `UpdateKey` makes carries that record. -/
theorem UpdateKey_frame (now : Time) (key : Key) (role : UserRole) (w : World) :
    (role ≠ UserRoleAdmin →
      KeyUseCase.UpdateKey now key role w = (some Error.ErrUnauthorized, w)) ∧
    (w.fault = none → w.keys.find? (fun k => k.ID == key.ID) = none →
      KeyUseCase.UpdateKey now key UserRoleAdmin w =
        (some Error.ErrKeyNotFound, w.enter (.KeyGetByID key.ID))) ∧
    (∀ existingKey, w.fault = none →
      w.keys.find? (fun k => k.ID == key.ID) = some existingKey →
      KeyUseCase.UpdateKey now key UserRoleAdmin w =
        (match Key.ValidateForUpdate
            { ID := existingKey.ID, Name := key.Name, Description := key.Description,
              IsActive := key.IsActive, CreatedAt := existingKey.CreatedAt,
              UpdatedAt := now } with
         | some err => (some err, w.enter (.KeyGetByID key.ID))
         | none => KeyRepositoryImpl.Update
            { ID := existingKey.ID, Name := key.Name, Description := key.Description,
              IsActive := key.IsActive, CreatedAt := existingKey.CreatedAt,
              UpdatedAt := now } (w.enter (.KeyGetByID key.ID)))) ∧
    (∀ key2 : Key, key2.ID = key.ID → key2.Name = key.Name →
      key2.Description = key.Description → key2.IsActive = key.IsActive →
      KeyUseCase.UpdateKey now key2 role w = KeyUseCase.UpdateKey now key role w) ∧
    (∀ k, Call.KeyUpdate k ∈ (KeyUseCase.UpdateKey now key role w).2.log →
      Call.KeyUpdate k ∈ w.log ∨
      (role = UserRoleAdmin ∧
        ∃ existingKey, w.keys.find? (fun x => x.ID == key.ID) = some existingKey ∧
          k = { ID := existingKey.ID, Name := key.Name, Description := key.Description,
                IsActive := key.IsActive, CreatedAt := existingKey.CreatedAt,
                UpdatedAt := now })) := by
  refine ⟨?_, ?_, ?_, ?_, ?_⟩
  · intro h
    simp [KeyUseCase.UpdateKey, h]
  · intro hf hfind
    simp [KeyUseCase.UpdateKey, KeyRepositoryImpl.GetByID, hf, hfind]
  · intro existingKey hf hfind
    simp only [KeyUseCase.UpdateKey, KeyRepositoryImpl.GetByID, hf, hfind]
    simp
  · intro key2 h1 h2 h3 h4
    simp only [KeyUseCase.UpdateKey, h1, h2, h3, h4]
  · intro k hk
    rcases KeyUseCase.UpdateKey_log now key role w with h | h | ⟨hrole, existingKey, hfind, h⟩
    · rw [h] at hk; exact Or.inl hk
    · rw [h] at hk
      left
      simpa using hk
    · rw [h] at hk
      simp only [List.mem_append, List.mem_cons, Call.KeyUpdate.injEq, List.mem_singleton,
        List.not_mem_nil, or_false, reduceCtorEq, false_or] at hk
      rcases hk with hk | hk
      · exact Or.inl hk
      · exact Or.inr ⟨hrole, existingKey, hfind, hk⟩

/-- C26, witness: the admin updates key 2 with a draft whose created-at and updated-at
are 0; the stored key keeps created-at 10 and gets updated-at 50. A resident is refused
and the id 5 is not found. -/
theorem UpdateKey_frame_witness :
    KeyUseCase.UpdateKey 50 examples.draftRenameKey2 UserRoleResident examples.emptyWorld =
      (some Error.ErrUnauthorized, examples.emptyWorld) ∧
    KeyUseCase.UpdateKey 50 (NewKey 50 5 "105-E" "") UserRoleAdmin examples.emptyWorld =
      (some Error.ErrKeyNotFound, examples.emptyWorld.enter (.KeyGetByID 5)) ∧
    KeyUseCase.UpdateKey 50 examples.draftRenameKey2 UserRoleAdmin examples.emptyWorld =
      KeyRepositoryImpl.Update
        { ID := 2, Name := "101-A", Description := "", IsActive := true, CreatedAt := 10,
          UpdatedAt := 50 } (examples.emptyWorld.enter (.KeyGetByID 2)) :=
  ⟨(UpdateKey_frame 50 examples.draftRenameKey2 UserRoleResident examples.emptyWorld).1
      (by decide),
    (UpdateKey_frame 50 (NewKey 50 5 "105-E" "") UserRoleAdmin examples.emptyWorld).2.1
      (by decide) (by decide),
    (UpdateKey_frame 50 examples.draftRenameKey2 UserRoleAdmin examples.emptyWorld).2.2.1
      examples.key2 (by decide) (by decide)⟩

/-- C27: for an admin, a stored key and a repository that does not fail, `DeleteKey`
returns "cannot delete key with active reservations" after its two reads, without calling
`Delete`, when a stored reservation of the key is active, and calls `Delete` for the key
id and returns no error when there is none. When the key has at most one active
reservation and that reservation is returned by a successful `ReturnKey`, `DeleteKey` on
the store that `ReturnKey` left returns no error and removes the key. -/
theorem DeleteKey_refuses_key_in_use (id : ObjectID) (w : World) (k : Key)
    (hf : w.faults = [])
    (hkey : w.keys.find? (fun x => x.ID == id) = some k) :
    (∀ r, w.reservations.find?
        (fun x => x.KeyID == id && x.Status == ReservationStatusActive) = some r →
      KeyUseCase.DeleteKey id UserRoleAdmin w =
        (some (Error.New "cannot delete key with active reservations"),
          { w with log := w.log ++ [.KeyGetByID id,
              .ReservationGetActiveReservationByKey id] })) ∧
    (w.reservations.find?
        (fun x => x.KeyID == id && x.Status == ReservationStatusActive) = none →
      KeyUseCase.DeleteKey id UserRoleAdmin w =
        (none, { w with
          keys := deleteOne Key.ID id w.keys,
          log := w.log ++ [.KeyGetByID id, .ReservationGetActiveReservationByKey id,
            .KeyDelete id] })) ∧
    (∀ now rid uid r w2, w.reservations.find? (fun x => x.ID == rid) = some r →
      r.KeyID = id → activeCountOfKey id w.reservations ≤ 1 →
      (ReservationUseCase.ReturnKey now rid uid w).1 = none →
      w2.keys = (ReservationUseCase.ReturnKey now rid uid w).2.keys →
      w2.reservations = (ReservationUseCase.ReturnKey now rid uid w).2.reservations →
      w2.faults = [] →
      KeyUseCase.DeleteKey id UserRoleAdmin w2 =
        (none, { w2 with
          keys := deleteOne Key.ID id w.keys,
          log := w2.log ++ [.KeyGetByID id, .ReservationGetActiveReservationByKey id,
            .KeyDelete id] })) := by
  have hdel : ∀ w3 : World, w3.faults = [] →
      (∃ k3, w3.keys.find? (fun x => x.ID == id) = some k3) →
      w3.reservations.find?
        (fun x => x.KeyID == id && x.Status == ReservationStatusActive) = none →
      KeyUseCase.DeleteKey id UserRoleAdmin w3 =
        (none, { w3 with
          keys := deleteOne Key.ID id w3.keys,
          log := w3.log ++ [.KeyGetByID id, .ReservationGetActiveReservationByKey id,
            .KeyDelete id] }) := by
    intro w3 hf3 ⟨k3, hk3⟩ hnone
    simp [KeyUseCase.DeleteKey, KeyRepositoryImpl.GetByID, KeyRepositoryImpl.Delete,
      ReservationRepositoryImpl.GetActiveReservationByKey, World.fault, World.enter, hf3, hk3,
      hnone]
  refine ⟨?_, ?_, ?_⟩
  · intro r hr
    simp [KeyUseCase.DeleteKey, KeyRepositoryImpl.GetByID,
      ReservationRepositoryImpl.GetActiveReservationByKey, World.fault, World.enter, hf, hkey,
      hr]
  · exact hdel w hf ⟨k, hkey⟩
  · intro now rid uid r w2 hfind hrk hone hok hkeys hres hf2
    subst hrk
    obtain ⟨h1, h2⟩ := ReservationUseCase.ReturnKey_frees_the_key now rid uid w r hfind hone hok
    have h3 := hdel w2 hf2 ⟨k, by rw [hkeys, h2]; exact hkey⟩ (by rw [hres]; exact h1)
    rw [h3, hkeys, h2]

/-- C27, witness: key 1 is held by the active reservation 3, so its deletion is refused;
after user 7 has returned reservation 3 at time 50 the deletion succeeds and key 2 is the
only key left. -/
theorem DeleteKey_refuses_key_in_use_witness :
    (KeyUseCase.DeleteKey 1 UserRoleAdmin examples.reservedWorld).1 =
      some (Error.New "cannot delete key with active reservations") ∧
    (ReservationUseCase.ReturnKey 50 3 7 examples.reservedWorld).1 = none ∧
    (KeyUseCase.DeleteKey 1 UserRoleAdmin
      { (ReservationUseCase.ReturnKey 50 3 7 examples.reservedWorld).2
        with faults := [] }).1 = none ∧
    (KeyUseCase.DeleteKey 1 UserRoleAdmin
      { (ReservationUseCase.ReturnKey 50 3 7 examples.reservedWorld).2
        with faults := [] }).2.keys = [examples.key2] :=
  have h := DeleteKey_refuses_key_in_use 1 examples.reservedWorld examples.key1 (by decide)
    (by decide)
  have hret : (ReservationUseCase.ReturnKey 50 3 7 examples.reservedWorld).1 = none := by
    decide
  have h3 := h.2.2 50 3 7 examples.reservation3
    { (ReservationUseCase.ReturnKey 50 3 7 examples.reservedWorld).2 with faults := [] }
    (by decide) (by decide) (by decide) hret rfl rfl rfl
  ⟨congrArg Prod.fst (h.1 examples.reservation3 (by decide)), hret,
    congrArg Prod.fst h3, (congrArg (fun p => p.2.keys) h3).trans (by decide)⟩

/-- C28: the table of `MapError` over the fifteen errors of `entity/errors.go`. Nine of
them have a case of their own and get a code, status and message of their kind:
`ErrUnauthorized`, `ErrUserNotFound`, `ErrUserAlreadyExists`, `ErrUserBlocked`,
`ErrKeyNotFound`, `ErrKeyAlreadyExists`, `ErrKeyReserved`, `ErrReservationNotFound` and
`ErrReservationOverdue`. The six others, `ErrKeyInactive`, `ErrKeyAlreadyReserved`,
`ErrInvalidCredentials`, `ErrReservationAlreadyExists`, `ErrInvalidReservationTime` and
`ErrCannotExtendReservation`, have no case and fall to the default branch: the catch-all
`INTERNAL_ERROR` with status 500, where the controllers answer `ErrInvalidCredentials`
with 401, `ErrKeyInactive` and `ErrReservationAlreadyExists` with 409 and
`ErrCannotExtendReservation` with 400. -/
theorem MapError_table (requestID : String) :
    MapError (some (.domain .ErrUnauthorized)) requestID =
      some ⟨"UNAUTHORIZED", "Não autorizado", none, requestID, 401⟩ ∧
    MapError (some (.domain .ErrUserNotFound)) requestID =
      some ⟨"NOT_FOUND", "Usuário não encontrado", none, requestID, 404⟩ ∧
    MapError (some (.domain .ErrUserAlreadyExists)) requestID =
      some ⟨"ALREADY_EXISTS", "Usuário já existe", none, requestID, 409⟩ ∧
    MapError (some (.domain .ErrUserBlocked)) requestID =
      some ⟨"FORBIDDEN", "Usuário bloqueado", none, requestID, 403⟩ ∧
    MapError (some (.domain .ErrKeyNotFound)) requestID =
      some ⟨"NOT_FOUND", "Chave não encontrada", none, requestID, 404⟩ ∧
    MapError (some (.domain .ErrKeyAlreadyExists)) requestID =
      some ⟨"ALREADY_EXISTS", "Chave já existe", none, requestID, 409⟩ ∧
    MapError (some (.domain .ErrKeyReserved)) requestID =
      some ⟨"RESOURCE_UNAVAILABLE", "Chave já está reservada", none, requestID, 409⟩ ∧
    MapError (some (.domain .ErrReservationNotFound)) requestID =
      some ⟨"NOT_FOUND", "Reserva não encontrada", none, requestID, 404⟩ ∧
    MapError (some (.domain .ErrReservationOverdue)) requestID =
      some ⟨"CONFLICT", "Reserva em atraso", none, requestID, 409⟩ ∧
    MapError (some (.domain .ErrKeyInactive)) requestID =
      some ⟨"INTERNAL_ERROR", "Erro interno do servidor", none, requestID, 500⟩ ∧
    MapError (some (.domain .ErrKeyAlreadyReserved)) requestID =
      some ⟨"INTERNAL_ERROR", "Erro interno do servidor", none, requestID, 500⟩ ∧
    MapError (some (.domain .ErrInvalidCredentials)) requestID =
      some ⟨"INTERNAL_ERROR", "Erro interno do servidor", none, requestID, 500⟩ ∧
    MapError (some (.domain .ErrReservationAlreadyExists)) requestID =
      some ⟨"INTERNAL_ERROR", "Erro interno do servidor", none, requestID, 500⟩ ∧
    MapError (some (.domain .ErrInvalidReservationTime)) requestID =
      some ⟨"INTERNAL_ERROR", "Erro interno do servidor", none, requestID, 500⟩ ∧
    MapError (some (.domain .ErrCannotExtendReservation)) requestID =
      some ⟨"INTERNAL_ERROR", "Erro interno do servidor", none, requestID, 500⟩ :=
  ⟨rfl, rfl, rfl, rfl, rfl, rfl, rfl, rfl, rfl, rfl, rfl, rfl, rfl, rfl, rfl⟩

/-- C28, one failing input evaluated: `MapError` renders `ErrInvalidCredentials` as the
catch-all `INTERNAL_ERROR` with status 500. -/
theorem MapError_invalid_credentials_is_internal :
    MapError (some (.domain .ErrInvalidCredentials)) "req-1" =
      some { Code := ErrCodeInternal, Message := "Erro interno do servidor", Details := none,
             RequestID := "req-1", HTTPStatus := http.StatusInternalServerError } := by
  decide

/-- C29: `validateName` measures the name in bytes before it applies the pattern, and
`ValidateName` applies the pattern alone, which counts characters. Whatever
`validateName` accepts `ValidateName` accepts, and on names of ASCII characters the two
agree. The name of 51 letters `é` has 51 characters and 102 bytes: `ValidateName`
accepts it and `validateName` rejects it. The pattern also takes the signs U+00D7 and
U+00F7 and the tab, and refuses the letter U+00FB. -/
theorem validateName_counts_bytes :
    (∀ name, validation.validateName name =
      (decide (2 ≤ len name) && decide (len name ≤ 100) && nameRegex.MatchString name)) ∧
    (∀ name, (ValidateName name).isNone = nameRegex.MatchString name) ∧
    (∀ name, validation.validateName name = true → ValidateName name = none) ∧
    (∀ name, (∀ c ∈ name.data, c.toNat < 128) →
      validation.validateName name = (ValidateName name).isNone) ∧
    examples.accentedName.length = 51 ∧
    len examples.accentedName = 102 ∧
    examples.accentedName.data.all nameClass = true ∧
    ValidateName examples.accentedName = none ∧
    validation.validateName examples.accentedName = false ∧
    nameClass (Char.ofNat 215) = true ∧ nameClass (Char.ofNat 247) = true ∧
    nameClass (Char.ofNat 9) = true ∧ nameClass (Char.ofNat 251) = false := by
  have h1 : ∀ name, validation.validateName name =
      (decide (2 ≤ len name) && decide (len name ≤ 100) && nameRegex.MatchString name) := by
    intro name
    unfold validation.validateName
    by_cases ha : len name < 2
    · have : ¬ 2 ≤ len name := by omega
      simp [ha, this]
    · by_cases hb : len name > 100
      · have : ¬ len name ≤ 100 := by omega
        simp [hb, this]
      · have h2 : 2 ≤ len name := by omega
        have h3 : len name ≤ 100 := by omega
        simp [ha, hb, h2, h3]
  have h2 : ∀ name, (ValidateName name).isNone = nameRegex.MatchString name := by
    intro name
    unfold ValidateName
    cases nameRegex.MatchString name <;> simp
  have h3 : ∀ name, validation.validateName name = true → ValidateName name = none := by
    intro name h
    rw [h1] at h
    simp only [Bool.and_eq_true] at h
    have := h2 name
    rw [h.2] at this
    simpa using this
  have h4 : ∀ name : String, (∀ c ∈ name.data, c.toNat < 128) →
      validation.validateName name = (ValidateName name).isNone := by
    intro name hascii
    have hlen : len name = name.length := len_eq_length_of_ascii name.data hascii
    rw [h1, h2, hlen]
    unfold nameRegex.MatchString
    cases decide (2 ≤ name.length) <;> cases decide (name.length ≤ 100) <;> simp
  refine ⟨h1, h2, h3, h4, ?_, ?_, ?_, ?_, ?_, ?_, ?_, ?_, ?_⟩ <;> decide

/-- C29, witness: on the ASCII name `Ana 7` the two validators agree and accept. -/
theorem validateName_counts_bytes_witness :
    validation.validateName "Ana 7" = (ValidateName "Ana 7").isNone ∧
    validation.validateName "Ana 7" = true :=
  ⟨validateName_counts_bytes.2.2.2.1 "Ana 7" (by decide), by decide⟩

/-- C30: for every status and message, `MapError` applied to the error value
`NewError(status, message)` returns the code `INTERNAL_ERROR`, the status 500 and the
message "Erro interno do servidor", and `ErrorHandler` writes that body with status 500
when it is the last error of the request, whatever status the controller chose. -/
theorem MapError_loses_the_status (status : Int) (message requestID : String)
    (errors : List middleware.GinError) (mta : Option String) (rid : Option String) :
    MapError (some (.api (NewError status message))) requestID =
      some { Code := ErrCodeInternal, Message := "Erro interno do servidor", Details := none,
             RequestID := requestID, HTTPStatus := http.StatusInternalServerError } ∧
    (NewError status message).HTTPStatus = status ∧
    middleware.ErrorHandler (errors ++ [⟨.api (NewError status message), mta⟩]) rid =
      some (.ret (http.StatusInternalServerError,
        NewErrorResponse
          { Code := ErrCodeInternal, Message := "Erro interno do servidor", Details := none,
            RequestID := rid.getD "", HTTPStatus := http.StatusInternalServerError })) := by
  refine ⟨rfl, rfl, ?_⟩
  have hne : ¬ (ErrCodeInternal = ErrCodeValidation) := by decide
  simp [middleware.ErrorHandler, MapError, hne]

end claims
